import Mathlib

/-!
# A verification development for `read_amrex_subdomain.cpp`

The file embeds the three entry points of the reader (`set_error_code`,
`read_amrex_header`, `read_amrex_subdomain`) and their helpers as pure Lean functions over an
explicit record of the file-scope variables, and proves properties of that embedding.

Conventions of the embedding.

* `int` and `long long` values are integers of `ℤ`.  The `int` sums and differences of corner
  coordinates, which leave the 32-bit range for boxes and queries the program can be given (the
  extent `b.hi[i]-b.lo[i]+1` of a grid, `dims[i] = bhi[i]-blo[i]+1`, the bound `bhi[i]-blo[i]`
  of the containment test, the absolute corners `a_lo[i]+blo[i]` and `a_hi[i]+blo[i]`), are
  reduced to 32 bits with `wrap32` after each operation, which is the two's-complement result
  the machine computes.  The extents of the query and of the box of a record, and the offsets
  computed from them in `long long`, index the caller's array and the payload of a record and
  are exact.  The range of `int` is stated with `inInt32`.
* `double` values are only stored, copied and (for the origin) added; they are rationals.
* The text of `Header` and `Level_0/Cell_H` is taken after tokenisation by the `>>` operators,
  and a FAB record is taken after decoding at its offset (`FabRecord`).  The two counts
  announced in `Level_0/Cell_H` are kept apart from the boxes and lines that follow them: a
  negative count makes `std::vector::resize` throw `std::length_error`, which the handler for
  `std::runtime_error` does not catch (the allocation for a non-negative count succeeds).
* The stream operators `operator<<` and `operator>>` of `IntVect` and `Box` are embedded at
  character level, on a model of `std::istream` that follows the C++ standard for `ignore` and
  for the extraction of an `int`.
* The caller's output array is a function from element offsets to values.
* A call of `read_amrex_header` ends in a `HeaderResult`: the file-scope state, the caller's
  variables, and whether an exception has left the function.
* A call of `read_amrex_subdomain` ends in an `Outcome`: it returns a status, or the
  `assert(ncomp == 3)` fails (assertions are enabled), or its behaviour is undefined (a division
  by zero in `coarsen`, an index outside `grids` or `fods`).  The outcome also carries the
  sequence of record positions read, so that "nothing is read" can be stated.
* The `std::unordered_map` is an association list; only `find` and `operator[]` are used on it,
  so its iteration order plays no role.

The definitions of the source come first, then the vocabulary used to state the properties and a
small sample plotfile on which the statements are instantiated.
-/

namespace AmrexSubvol

/-! ## Machine integers -/

/-- The value of `std::numeric_limits<int>::max()`. -/
def INT_MAX : Int := 2147483647

/-- The value of `std::numeric_limits<int>::lowest()`. -/
def INT_MIN : Int := -2147483648

/-- Membership in the range of a 32-bit `int`. -/
def inInt32 (x : Int) : Prop := INT_MIN ≤ x ∧ x ≤ INT_MAX

instance (x : Int) : Decidable (inInt32 x) := by
  unfold inInt32; exact inferInstance

/-- Two's-complement reduction of an integer to the 32-bit range. -/
def wrap32 (x : Int) : Int := (x + 2147483648) % 4294967296 - 2147483648

/-- Values of type `double`. -/
abbrev Dbl := ℚ

/-! ## Box and coordinate primitives -/

/-- The function `coarsen` of the source:
`(i<0) ? -std::abs(i+1)/ratio-1 : i/ratio`, with `/` the truncating division of C++. -/
def coarsen (i ratio : Int) : Int :=
  if i < 0 then Int.tdiv (-((i + 1).natAbs : Int)) ratio - 1 else Int.tdiv i ratio

/-- The same expression as `coarsen` with every intermediate result reduced to 32 bits, the way
the machine evaluates it. -/
def coarsen32 (i ratio : Int) : Int :=
  if i < 0 then
    wrap32 (wrap32 (Int.tdiv (wrap32 (-(wrap32 ((wrap32 (i + 1)).natAbs : Int)))) ratio) - 1)
  else wrap32 (Int.tdiv i ratio)

/-- The struct `IntVect` of the source: `int a[3]`. -/
structure IntVect where
  a0 : Int
  a1 : Int
  a2 : Int
deriving DecidableEq

/-- The struct `Box` of the source. -/
structure Box where
  lo : IntVect
  hi : IntVect
deriving DecidableEq

/-- The struct `FOD` of the source: file and offset of a FAB on disk. -/
structure FOD where
  file : String
  offset : Nat
deriving DecidableEq

/-- The struct `HashMap` of the source.  The `std::unordered_map` is an association list from a
bucket key to the `std::vector<int>` of catalog indices. -/
structure HashMap where
  blo : IntVect
  bhi : IntVect
  maxext : IntVect
  hash : List (IntVect × List Nat)
deriving DecidableEq

/-- The lookup `hashmap.hash.find(key)`: `none` stands for `cend()`. -/
def hashFind (key : IntVect) : List (IntVect × List Nat) → Option (List Nat)
  | [] => none
  | (k, v) :: rest => if k = key then some v else hashFind key rest

/-- The statement `hashmap.hash[key].push_back(i)`: the entry of `key` is created when absent. -/
def hashPushBack (key : IntVect) (i : Nat) : List (IntVect × List Nat) → List (IntVect × List Nat)
  | [] => [(key, [i])]
  | (k, v) :: rest =>
    if k = key then (k, v ++ [i]) :: rest else (k, v) :: hashPushBack key i rest

/-! ## File-scope state -/

/-- The file-scope variables `grids`, `fods`, `hashmap` and the three `error_stat_*` codes. -/
structure Globals where
  grids : List Box
  fods : List FOD
  hashmap : HashMap
  error_stat_noerror : Int
  error_stat_severe : Int
  error_stat_fatal : Int
deriving DecidableEq

/-- The state at program start: the vectors and the map are empty, the `IntVect`s of the global
`hashmap` are zero-initialised (static storage), the three codes are `-1`. -/
def initialGlobals : Globals :=
  { grids := []
    fods := []
    hashmap := { blo := ⟨0, 0, 0⟩, bhi := ⟨0, 0, 0⟩, maxext := ⟨0, 0, 0⟩, hash := [] }
    error_stat_noerror := -1
    error_stat_severe := -1
    error_stat_fatal := -1 }

/-- The function `set_error_code` of the source. -/
def set_error_code (g : Globals) (noerror severe fatal : Int) : Globals :=
  { g with error_stat_noerror := noerror, error_stat_severe := severe, error_stat_fatal := fatal }

/-! ## The header loader -/

/-- Three `double`s. -/
structure RealVect where
  x0 : Dbl
  x1 : Dbl
  x2 : Dbl
deriving DecidableEq

/-- The tokens `read_amrex_header` extracts from the file `Header`. -/
structure PlotHeader where
  ncomp : Int
  spacedim : Int
  time : Dbl
  finest_level : Int
  prob_lo : RealVect
  prob_hi : RealVect
  dx : RealVect
deriving DecidableEq

/-- The tokens `read_amrex_header` extracts from the file `Level_0/Cell_H`: the four leading
integers, the announced number of boxes `nboxes`, the boxes that the loop over `grids` extracts
after it, the announced number of FABs `nfabs`, and the FabOnDisk lines extracted after it,
each a relative path and an offset. -/
structure CellH where
  version : Int
  how : Int
  ncomp : Int
  ng : Int
  nboxes : Int
  boxes : List Box
  nfabs : Int
  fabs : List (String × Nat)
deriving DecidableEq

/-- A plotfile directory as `read_amrex_header` sees it; `none` is a file `read_file` cannot
open. -/
structure Dataset where
  name : String
  header : Option PlotHeader
  cell_h : Option CellH
deriving DecidableEq

/-- The caller's variables written through the pointer arguments of `read_amrex_header`. -/
structure HeaderOut where
  dims : IntVect
  origin : RealVect
  dx : RealVect
  time : Dbl
  err : Int
deriving DecidableEq

/-- The values given to `blo`, `bhi` and `maxext` before the loop over the grids. -/
def resetBounds (hm : HashMap) : HashMap :=
  { hm with
    blo := ⟨INT_MAX, INT_MAX, INT_MAX⟩
    bhi := ⟨INT_MIN, INT_MIN, INT_MIN⟩
    maxext := ⟨1, 1, 1⟩ }

/-- The `int` expression `hi - lo + 1`: each of the two operations is reduced to 32 bits. -/
def extent32 (lo hi : Int) : Int := wrap32 (wrap32 (hi - lo) + 1)

/-- One iteration of the loop `for (auto const& b : grids)` that accumulates the bounds. -/
def updateBounds (hm : HashMap) (b : Box) : HashMap :=
  { hm with
    blo := ⟨min hm.blo.a0 b.lo.a0, min hm.blo.a1 b.lo.a1, min hm.blo.a2 b.lo.a2⟩
    bhi := ⟨max hm.bhi.a0 b.hi.a0, max hm.bhi.a1 b.hi.a1, max hm.bhi.a2 b.hi.a2⟩
    maxext := ⟨max hm.maxext.a0 (extent32 b.lo.a0 b.hi.a0),
               max hm.maxext.a1 (extent32 b.lo.a1 b.hi.a1),
               max hm.maxext.a2 (extent32 b.lo.a2 b.hi.a2)⟩ }

/-- The bucket key of a box: its lower corner coarsened by `maxext`. -/
def bucketKey (maxext : IntVect) (b : Box) : IntVect :=
  ⟨coarsen b.lo.a0 maxext.a0, coarsen b.lo.a1 maxext.a1, coarsen b.lo.a2 maxext.a2⟩

/-- The loop `// Build hash`, started at index `i` on the remaining grids. -/
def buildHash (maxext : IntVect) : Nat → List Box → List (IntVect × List Nat) →
    List (IntVect × List Nat)
  | _, [], h => h
  | i, b :: bs, h => buildHash maxext (i + 1) bs (hashPushBack (bucketKey maxext b) i h)

/-- The entry of `fods` made from one FabOnDisk line. -/
def mkFOD (name : String) (line : String × Nat) : FOD :=
  { file := name ++ "/Level_0/" ++ line.1, offset := line.2 }

/-- The statement `grids.resize(n)` followed by the loop `for (auto& b : grids) is >> b`: the
vector gets `n` entries; the entry `i` is the `i`-th box extracted, and where the input gives no
further box the extraction fails and leaves the entry as `resize` made it, the old entry `i` or
a box of zeros. -/
def readGrids (old : List Box) (n : Nat) (boxes : List Box) : List Box :=
  (List.range n).map fun i =>
    match boxes[i]? with
    | some b => b
    | none => (old[i]?).getD ⟨⟨0, 0, 0⟩, ⟨0, 0, 0⟩⟩

/-- The statement `fods.resize(n)` followed by the loop over `i < n`: the entry `i` is made
from the `i`-th FabOnDisk line, and where the input gives no further line the path token is
empty and the offset is left as `resize` made it. -/
def readFods (name : String) (old : List FOD) (n : Nat) (fabs : List (String × Nat)) :
    List FOD :=
  (List.range n).map fun i =>
    match fabs[i]? with
    | some line => mkFOD name line
    | none => { file := name ++ "/Level_0/" ++ "", offset := ((old[i]?).map FOD.offset).getD 0 }

/-- How a call of `read_amrex_header` ends: the file-scope state, the caller's variables, and
whether an exception that the handler for `std::runtime_error` does not catch has left the
function (then no status has been written). -/
structure HeaderResult where
  globals : Globals
  out : HeaderOut
  uncaught : Bool

/-- The function `read_amrex_header` of the source, on the file-scope state `g`, the plotfile
`ds` and the caller's variables `out`. -/
def read_amrex_header (g : Globals) (ds : Dataset) (out : HeaderOut) : HeaderResult :=
  match ds.header with
  | none => ⟨g, { out with err := g.error_stat_fatal }, false⟩
  | some h =>
    if h.ncomp ≠ 3 then ⟨g, { out with err := g.error_stat_fatal }, false⟩
    else
      let out1 := { out with time := h.time }
      if h.spacedim ≠ 3 ∨ h.finest_level ≠ 0 then
        ⟨g, { out1 with err := g.error_stat_fatal }, false⟩
      else
        let out2 := { out1 with dx := h.dx }
        match ds.cell_h with
        | none => ⟨g, { out2 with err := g.error_stat_fatal }, false⟩
        | some c =>
          if c.nboxes < 0 then ⟨g, out2, true⟩
          else
            let grids := readGrids g.grids c.nboxes.toNat c.boxes
            let hm := grids.foldl updateBounds (resetBounds g.hashmap)
            let out3 := { out2 with
              dims := ⟨extent32 hm.blo.a0 hm.bhi.a0, extent32 hm.blo.a1 hm.bhi.a1,
                       extent32 hm.blo.a2 hm.bhi.a2⟩
              origin := ⟨h.prob_lo.x0 + 0 * out2.dx.x0, h.prob_lo.x1 + 1 * out2.dx.x1,
                         h.prob_lo.x2 + 2 * out2.dx.x2⟩ }
            if c.nfabs < 0 then ⟨{ g with grids := grids, hashmap := hm }, out3, true⟩
            else
              let g1 := { g with
                grids := grids
                fods := readFods ds.name g.fods c.nfabs.toNat c.fabs
                hashmap := hm }
              if c.nfabs ≠ c.nboxes ∨ c.ncomp ≠ 3 ∨ c.ng ≠ 0 then
                ⟨g1, { out3 with err := g1.error_stat_fatal }, false⟩
              else
                ⟨{ g1 with hashmap :=
                    { hm with hash := buildHash hm.maxext 0 g1.grids hm.hash } },
                 { out3 with err := g1.error_stat_noerror }, false⟩

/-- The plotfile passes every check of `read_amrex_header` and no exception leaves the call, so
that the call reaches its last statement. -/
def Dataset.loadable (ds : Dataset) : Bool :=
  match ds.header, ds.cell_h with
  | some h, some c =>
    decide (h.ncomp = 3 ∧ h.spacedim = 3 ∧ h.finest_level = 0 ∧
      0 ≤ c.nboxes ∧ 0 ≤ c.nfabs ∧ c.nfabs = c.nboxes ∧ c.ncomp = 3 ∧ c.ng = 0)
  | _, _ => false

/-! ## The subdomain extraction -/

/-- What the stream operations of `read_amrex_subdomain` decode at the offset of a FAB: the three
characters compared with `F`, `A`, `B`, the box, the component count, and the array `p` of
doubles read after the newline, indexed by element offset. -/
structure FabRecord where
  c1 : Char
  c2 : Char
  c3 : Char
  box : Box
  ncomp : Int
  payload : Int → Dbl

/-- The data files: a path that opens gives, for each byte offset, the record decoded there. -/
abbrev FileSystem := String → Option (Nat → FabRecord)

/-- The caller's array `a`, by element offset. -/
abbrev Buffer := Int → Dbl

/-- The values taken by the variable of `for (int x = lo; x <= hi; ++x)`, in order. -/
def intRange (lo hi : Int) : List Int :=
  (List.range (hi + 1 - lo).toNat).map (fun (n : Nat) => lo + (n : Int))

/-- The three nested loops that copy the cells of `[ilo, ihi]` from the array `p` of a record
with box `box` into the array `a`. -/
def copyBox (alo : IntVect) (jstride_a kstride_a : Int) (box : Box) (p : Int → Dbl)
    (ilo ihi : IntVect) (a : Buffer) : Buffer :=
  let istride_a : Int := 3
  let jstride_p : Int := box.hi.a0 - box.lo.a0 + 1
  let kstride_p : Int := jstride_p * (box.hi.a1 - box.lo.a1 + 1)
  let nstride_p : Int := kstride_p * (box.hi.a2 - box.lo.a2 + 1)
  (intRange ilo.a2 ihi.a2).foldl (fun a k =>
    let ka := k - alo.a2
    let kp := k - box.lo.a2
    (intRange ilo.a1 ihi.a1).foldl (fun a j =>
      let ja := j - alo.a1
      let jp := j - box.lo.a1
      (intRange ilo.a0 ihi.a0).foldl (fun a i =>
        let ia := i - alo.a0
        let ip := i - box.lo.a0
        let aoff := ia * istride_a + ja * jstride_a + ka * kstride_a
        let poff := ip + jp * jstride_p + kp * kstride_p
        Function.update
          (Function.update (Function.update a aoff (p poff)) (aoff + 1) (p (poff + nstride_p)))
          (aoff + 2) (p (poff + nstride_p * 2))) a) a) a

/-- The variables that change while the candidates are processed: the array `a`, the keys of
`ifs_map`, and the sequence of (file, offset) positions at which a record has been read. -/
structure LoopState where
  a : Buffer
  ifs_map : List String
  reads : List (String × Nat)

/-- How the processing of a candidate ends: the loops go on (`next`); the call is left with
`*err = error_stat_fatal`, by the `return` after a failed `open` or by the `throw` that the
`catch` turns into that status (`fatal`); the `assert` fails (`assertFailed`); or an index is
outside `grids` or `fods` (`undefined`). -/
inductive Ctl where
  | next (st : LoopState)
  | fatal (st : LoopState)
  | assertFailed (st : LoopState)
  | undefined

/-- The body of `for (int ibox : it->second)`. -/
def processBox (g : Globals) (fs : FileSystem) (alo ahi : IntVect) (jstride_a kstride_a : Int)
    (ibox : Nat) (st : LoopState) : Ctl :=
  match g.grids[ibox]? with
  | none => .undefined
  | some grid =>
    let ilo : IntVect := ⟨max alo.a0 grid.lo.a0, max alo.a1 grid.lo.a1, max alo.a2 grid.lo.a2⟩
    let ihi : IntVect := ⟨min ahi.a0 grid.hi.a0, min ahi.a1 grid.hi.a1, min ahi.a2 grid.hi.a2⟩
    if ilo.a0 ≤ ihi.a0 ∧ ilo.a1 ≤ ihi.a1 ∧ ilo.a2 ≤ ihi.a2 then
      match g.fods[ibox]? with
      | none => .undefined
      | some fod =>
        let st1 : LoopState :=
          { st with ifs_map := if fod.file ∈ st.ifs_map then st.ifs_map
                               else st.ifs_map ++ [fod.file] }
        match fs fod.file with
        | none => .fatal st1
        | some content =>
          let st2 : LoopState := { st1 with reads := st1.reads ++ [(fod.file, fod.offset)] }
          let rec_ := content fod.offset
          let badfab := rec_.c1 ≠ 'F' ∨ rec_.c2 ≠ 'A' ∨ rec_.c3 ≠ 'B'
          let box := rec_.box
          let badbox :=
            (box.lo.a0 ≠ grid.lo.a0 ∨ box.hi.a0 ≠ grid.hi.a0) ∨
            (box.lo.a1 ≠ grid.lo.a1 ∨ box.hi.a1 ≠ grid.hi.a1) ∨
            (box.lo.a2 ≠ grid.lo.a2 ∨ box.hi.a2 ≠ grid.hi.a2)
          if badfab ∨ badbox then .fatal st2
          else if rec_.ncomp ≠ 3 then .assertFailed st2
          else .next { st2 with
            a := copyBox alo jstride_a kstride_a box rec_.payload ilo ihi st2.a }
    else .next st

/-- The candidates in the order the loops over `kk`, `jj`, `ii` and over the vector of each
bucket found visit them. -/
def candidates (hash : List (IntVect × List Nat)) (clo chi : IntVect) : List Nat :=
  (intRange (clo.a2 - 1) chi.a2).flatMap fun kk =>
    (intRange (clo.a1 - 1) chi.a1).flatMap fun jj =>
      (intRange (clo.a0 - 1) chi.a0).flatMap fun ii =>
        match hashFind ⟨ii, jj, kk⟩ hash with
        | some v => v
        | none => []

/-- The loops run over a sequence of candidates, left at the first candidate that does not end
with `next`. -/
def processBoxes (g : Globals) (fs : FileSystem) (alo ahi : IntVect) (jstride_a kstride_a : Int) :
    List Nat → LoopState → Ctl
  | [], st => .next st
  | ibox :: rest, st =>
    match processBox g fs alo ahi jstride_a kstride_a ibox st with
    | .next st1 => processBoxes g fs alo ahi jstride_a kstride_a rest st1
    | other => other

/-- How a call of `read_amrex_subdomain` ends: it returns with `*err`, the array and the reads
made; the `assert(ncomp == 3)` fails and the process is aborted; or its behaviour is undefined
(a division by zero in `coarsen`, an index outside `grids` or `fods`). -/
inductive Outcome where
  | returned (err : Int) (a : Buffer) (reads : List (String × Nat))
  | assertFailed (a : Buffer) (reads : List (String × Nat))
  | undefined

/-- The function `read_amrex_subdomain` of the source, on the file-scope state `g`, the data
files `fs`, the caller's array `a` and the query corners `a_lo`, `a_hi`. -/
def read_amrex_subdomain (g : Globals) (fs : FileSystem) (a : Buffer) (a_lo a_hi : IntVect) :
    Outcome :=
  if g.error_stat_noerror < 0 then .returned g.error_stat_fatal a []
  else
    let hm := g.hashmap
    let full_contained : Bool :=
      !(decide (a_lo.a0 < 0 ∨ a_hi.a0 > wrap32 (hm.bhi.a0 - hm.blo.a0)) ||
        decide (a_lo.a1 < 0 ∨ a_hi.a1 > wrap32 (hm.bhi.a1 - hm.blo.a1)) ||
        decide (a_lo.a2 < 0 ∨ a_hi.a2 > wrap32 (hm.bhi.a2 - hm.blo.a2)))
    let err := if full_contained then g.error_stat_noerror else g.error_stat_severe
    let istride_a : Int := 3
    let jstride_a : Int := istride_a * (a_hi.a0 - a_lo.a0 + 1)
    let kstride_a : Int := jstride_a * (a_hi.a1 - a_lo.a1 + 1)
    let alo : IntVect := ⟨wrap32 (a_lo.a0 + hm.blo.a0), wrap32 (a_lo.a1 + hm.blo.a1),
                          wrap32 (a_lo.a2 + hm.blo.a2)⟩
    let ahi : IntVect := ⟨wrap32 (a_hi.a0 + hm.blo.a0), wrap32 (a_hi.a1 + hm.blo.a1),
                          wrap32 (a_hi.a2 + hm.blo.a2)⟩
    if hm.maxext.a0 = 0 ∨ hm.maxext.a1 = 0 ∨ hm.maxext.a2 = 0 then .undefined
    else
      let clo : IntVect := ⟨coarsen (max alo.a0 hm.blo.a0) hm.maxext.a0,
                            coarsen (max alo.a1 hm.blo.a1) hm.maxext.a1,
                            coarsen (max alo.a2 hm.blo.a2) hm.maxext.a2⟩
      let chi : IntVect := ⟨coarsen (min ahi.a0 hm.bhi.a0) hm.maxext.a0,
                            coarsen (min ahi.a1 hm.bhi.a1) hm.maxext.a1,
                            coarsen (min ahi.a2 hm.bhi.a2) hm.maxext.a2⟩
      match processBoxes g fs alo ahi jstride_a kstride_a (candidates hm.hash clo chi)
          ⟨a, [], []⟩ with
      | .next st => .returned err st.a st.reads
      | .fatal st => .returned g.error_stat_fatal st.a st.reads
      | .assertFailed st => .assertFailed st.a st.reads
      | .undefined => .undefined

/-! ## Text streams and the text form of `IntVect` and `Box`

The stream operators of the source work on `std::istream` and `std::ostream`.  An input stream
is the list of characters not yet extracted together with the fact that no state bit is set;
the operations `ignore` and `>> int` follow the C++ standard (classic locale): on a stream that
is not good they do nothing. -/

/-- An input stream: the characters not yet extracted, and whether `good()` holds. -/
structure IStream where
  input : List Char
  good : Bool
deriving DecidableEq

/-- The decimal digits of `n`, most significant first, put in front of `acc`; `fuel` bounds the
number of digits. -/
def natDigitsAux : Nat → Nat → List Char → List Char
  | 0, _, acc => acc
  | fuel + 1, n, acc =>
    if n < 10 then Nat.digitChar n :: acc
    else natDigitsAux fuel (n / 10) (Nat.digitChar (n % 10) :: acc)

/-- The decimal digits of a natural number. -/
def natDigits (n : Nat) : List Char := natDigitsAux (n + 1) n []

/-- The characters `os << x` writes for an `int` `x`: a minus sign for a negative value, then
the decimal digits. -/
def writeInt (x : Int) : List Char :=
  if x < 0 then '-' :: natDigits x.natAbs else natDigits x.natAbs

/-- The `operator<<` of the source for `IntVect`: `(a0,a1,a2)`. -/
def writeIntVect (iv : IntVect) : List Char :=
  '(' :: (writeInt iv.a0 ++ ',' :: (writeInt iv.a1 ++ ',' :: (writeInt iv.a2 ++ [')'])))

/-- The `operator<<` of the source for `Box`: `(lo hi)`. -/
def writeBox (box : Box) : List Char :=
  '(' :: (writeIntVect box.lo ++ ' ' :: (writeIntVect box.hi ++ [')']))

/-- The loop of `istream::ignore(n, delim)`: characters are extracted until `n` of them have
been extracted, the end of the input is reached (which sets `eofbit`), or the delimiter has
been extracted. -/
def ignoreLoop (delim : Char) : Nat → List Char → IStream
  | 0, cs => ⟨cs, true⟩
  | _ + 1, [] => ⟨[], false⟩
  | n + 1, c :: cs => if c = delim then ⟨cs, true⟩ else ignoreLoop delim n cs

/-- The call `is.ignore(n, delim)`. -/
def ignore (n : Nat) (delim : Char) (is : IStream) : IStream :=
  if is.good then ignoreLoop delim n is.input else is

/-- The white space of the classic locale: space, tab, line feed, vertical tab, form feed,
carriage return. -/
def isSpace (c : Char) : Bool :=
  c = ' ' || c.toNat = 9 || c.toNat = 10 || c.toNat = 11 || c.toNat = 12 || c.toNat = 13

/-- The value of a run of decimal digits. -/
def digitsValue (ds : List Char) : Nat :=
  ds.foldl (fun v c => v * 10 + (c.toNat - 48)) 0

/-- The extraction `is >> x` of an `int`: on a stream that is not good nothing happens; leading
white space is skipped, and at the end of the input the stream fails with `x` unchanged; an
optional sign and a run of digits are extracted; without digits the stream fails with `x = 0`;
a value outside the range of `int` gives the nearest bound and fails; reaching the end of the
input sets `eofbit`. -/
def extractInt (is : IStream) (x : Int) : IStream × Int :=
  if is.good then
    match is.input.dropWhile isSpace with
    | [] => (⟨[], false⟩, x)
    | c :: cs =>
      let body := if c = '-' ∨ c = '+' then cs else c :: cs
      let ds := body.takeWhile Char.isDigit
      let rest := body.dropWhile Char.isDigit
      if ds = [] then (⟨rest, false⟩, 0)
      else
        let v : Int := if c = '-' then -(digitsValue ds : Int) else (digitsValue ds : Int)
        (⟨rest, decide (inInt32 v) && !rest.isEmpty⟩,
          if v > INT_MAX then INT_MAX else if v < INT_MIN then INT_MIN else v)
  else (is, x)

/-- The `operator>>` of the source for `IntVect`. -/
def readIntVect (is : IStream) (iv : IntVect) : IStream × IntVect :=
  let is1 := ignore 1000000 '(' is
  let r0 := extractInt is1 iv.a0
  let is2 := ignore 1000000 ',' r0.1
  let r1 := extractInt is2 iv.a1
  let is3 := ignore 1000000 ',' r1.1
  let r2 := extractInt is3 iv.a2
  (ignore 1000000 ')' r2.1, ⟨r0.2, r1.2, r2.2⟩)

/-- The `operator>>` of the source for `Box`. -/
def readBox (is : IStream) (box : Box) : IStream × Box :=
  let is1 := ignore 1000000 '(' is
  let rlo := readIntVect is1 box.lo
  let rhi := readIntVect rlo.1 box.hi
  let is2 := ignore 1000000 ')' rhi.1
  (ignore 1000000 ')' is2, ⟨rlo.2, rhi.2⟩)

/-! ## Vocabulary of the statements -/

/-- Every catalog index stored in the map, bucket after bucket. -/
def hashEntries (h : List (IntVect × List Nat)) : List Nat :=
  (h.map Prod.snd).flatten

/-- The catalog indices, counted from `i`, of the boxes of `bs` whose bucket key is `key`. -/
def bucketOf (maxext : IntVect) (key : IntVect) : Nat → List Box → List Nat
  | _, [] => []
  | i, b :: bs =>
    (if bucketKey maxext b = key then [i] else []) ++ bucketOf maxext key (i + 1) bs

/-- The bounds `blo`, `bhi`, `maxext` that `read_amrex_header` computes from the boxes. -/
def loadedBounds (g : Globals) (boxes : List Box) : HashMap :=
  boxes.foldl updateBounds (resetBounds g.hashmap)

/-- The catalog `grids` that `read_amrex_header` builds from the tokens of `Level_0/Cell_H`. -/
def loadedGrids (g : Globals) (c : CellH) : List Box :=
  readGrids g.grids c.nboxes.toNat c.boxes

/-- The file-scope state at the end of a call of `read_amrex_header` that passes every check,
on the tokens of `Level_0/Cell_H`. -/
def loadedGlobals (g : Globals) (name : String) (c : CellH) : Globals :=
  { g with
    grids := loadedGrids g c
    fods := readFods name g.fods c.nfabs.toNat c.fabs
    hashmap :=
      { loadedBounds g (loadedGrids g c) with
        hash := buildHash (loadedBounds g (loadedGrids g c)).maxext 0 (loadedGrids g c)
          g.hashmap.hash } }

/-- The integer `M` is the greatest value of `f` over the boxes `bs`. -/
def IsMaxOf (f : Box → Int) (bs : List Box) (M : Int) : Prop :=
  (∃ b ∈ bs, f b = M) ∧ ∀ b ∈ bs, f b ≤ M

/-- The integer `m` is the least value of `f` over the boxes `bs`. -/
def IsMinOf (f : Box → Int) (bs : List Box) (m : Int) : Prop :=
  (∃ b ∈ bs, f b = m) ∧ ∀ b ∈ bs, m ≤ f b

/-- All six corner components of a box are 32-bit `int`s. -/
def Box.inInt32 (b : Box) : Prop :=
  AmrexSubvol.inInt32 b.lo.a0 ∧ AmrexSubvol.inInt32 b.lo.a1 ∧ AmrexSubvol.inInt32 b.lo.a2 ∧
  AmrexSubvol.inInt32 b.hi.a0 ∧ AmrexSubvol.inInt32 b.hi.a1 ∧ AmrexSubvol.inInt32 b.hi.a2

instance (b : Box) : Decidable b.inInt32 := by
  unfold Box.inInt32; exact inferInstance

/-- The status a call returns, when it returns. -/
def Outcome.status : Outcome → Option Int
  | .returned err _ _ => some err
  | .assertFailed _ _ => none
  | .undefined => none

/-- The call ends in the failure of `assert(ncomp == 3)`. -/
def Outcome.aborted : Outcome → Bool
  | .assertFailed _ _ => true
  | _ => false

/-- The behaviour of the call is undefined. -/
def Outcome.isUndefined : Outcome → Bool
  | .undefined => true
  | _ => false

/-- The positions at which the call has read a record. -/
def Outcome.reads : Outcome → List (String × Nat)
  | .returned _ _ r => r
  | .assertFailed _ r => r
  | .undefined => []

/-- The array after a sequence of element writes `(offset, value)`, applied in order. -/
def applyWrites (a : Buffer) (ws : List (Int × Dbl)) : Buffer :=
  ws.foldl (fun a w => Function.update a w.1 w.2) a

/-- The element writes of the three nested copy loops, in the order they are made. -/
def cellWrites (alo : IntVect) (jstride_a kstride_a : Int) (box : Box) (p : Int → Dbl)
    (ilo ihi : IntVect) : List (Int × Dbl) :=
  (intRange ilo.a2 ihi.a2).flatMap fun k =>
    (intRange ilo.a1 ihi.a1).flatMap fun j =>
      (intRange ilo.a0 ihi.a0).flatMap fun i =>
        [((i - alo.a0) * 3 + (j - alo.a1) * jstride_a + (k - alo.a2) * kstride_a,
            p ((i - box.lo.a0) + (j - box.lo.a1) * (box.hi.a0 - box.lo.a0 + 1) +
              (k - box.lo.a2) * ((box.hi.a0 - box.lo.a0 + 1) * (box.hi.a1 - box.lo.a1 + 1)))),
         ((i - alo.a0) * 3 + (j - alo.a1) * jstride_a + (k - alo.a2) * kstride_a + 1,
            p ((i - box.lo.a0) + (j - box.lo.a1) * (box.hi.a0 - box.lo.a0 + 1) +
              (k - box.lo.a2) * ((box.hi.a0 - box.lo.a0 + 1) * (box.hi.a1 - box.lo.a1 + 1)) +
              (box.hi.a0 - box.lo.a0 + 1) * (box.hi.a1 - box.lo.a1 + 1) *
                (box.hi.a2 - box.lo.a2 + 1))),
         ((i - alo.a0) * 3 + (j - alo.a1) * jstride_a + (k - alo.a2) * kstride_a + 2,
            p ((i - box.lo.a0) + (j - box.lo.a1) * (box.hi.a0 - box.lo.a0 + 1) +
              (k - box.lo.a2) * ((box.hi.a0 - box.lo.a0 + 1) * (box.hi.a1 - box.lo.a1 + 1)) +
              (box.hi.a0 - box.lo.a0 + 1) * (box.hi.a1 - box.lo.a1 + 1) *
                (box.hi.a2 - box.lo.a2 + 1) * 2))]

/-- The cell `(i, j, k)` lies in the box `b`. -/
def Box.contains (b : Box) (i j k : Int) : Prop :=
  b.lo.a0 ≤ i ∧ i ≤ b.hi.a0 ∧ b.lo.a1 ≤ j ∧ j ≤ b.hi.a1 ∧ b.lo.a2 ≤ k ∧ k ≤ b.hi.a2

instance (b : Box) (i j k : Int) : Decidable (b.contains i j k) := by
  unfold Box.contains; exact inferInstance

/-- The number of cells of a box. -/
def Box.ncells (b : Box) : Int :=
  (b.hi.a0 - b.lo.a0 + 1) * (b.hi.a1 - b.lo.a1 + 1) * (b.hi.a2 - b.lo.a2 + 1)

/-- The lower corner of the intersection of the absolute query with a grid (`ilo`). -/
def interLo (alo : IntVect) (grid : Box) : IntVect :=
  ⟨max alo.a0 grid.lo.a0, max alo.a1 grid.lo.a1, max alo.a2 grid.lo.a2⟩

/-- The upper corner of the intersection of the absolute query with a grid (`ihi`). -/
def interHi (ahi : IntVect) (grid : Box) : IntVect :=
  ⟨min ahi.a0 grid.hi.a0, min ahi.a1 grid.hi.a1, min ahi.a2 grid.hi.a2⟩

/-- The intersection of the absolute query `[alo, ahi]` with a grid is not empty (`ok`). -/
def overlaps (alo ahi : IntVect) (grid : Box) : Prop :=
  (interLo alo grid).a0 ≤ (interHi ahi grid).a0 ∧ (interLo alo grid).a1 ≤ (interHi ahi grid).a1 ∧
  (interLo alo grid).a2 ≤ (interHi ahi grid).a2

instance (alo ahi : IntVect) (grid : Box) : Decidable (overlaps alo ahi grid) := by
  unfold overlaps; exact inferInstance

/-- The element writes made for the candidate `ibox` when its record is copied. -/
def boxWrites (g : Globals) (fs : FileSystem) (alo ahi : IntVect) (jstride_a kstride_a : Int)
    (ibox : Nat) : List (Int × Dbl) :=
  match g.grids[ibox]?, g.fods[ibox]? with
  | some grid, some fod =>
    match fs fod.file with
    | some content =>
      cellWrites alo jstride_a kstride_a (content fod.offset).box (content fod.offset).payload
        (interLo alo grid) (interHi ahi grid)
    | none => []
  | _, _ => []

/-- The record of the catalog entry `ibox` passes the validation of `read_amrex_subdomain`:
the entry exists, its file opens, the record at its offset has the magic `FAB`, the box of the
catalog and three components. -/
def validRecord (g : Globals) (fs : FileSystem) (ibox : Nat) : Bool :=
  match g.grids[ibox]?, g.fods[ibox]? with
  | some grid, some fod =>
    match fs fod.file with
    | some content =>
      decide ((content fod.offset).c1 = 'F' ∧ (content fod.offset).c2 = 'A' ∧
        (content fod.offset).c3 = 'B' ∧ (content fod.offset).box = grid ∧
        (content fod.offset).ncomp = 3)
    | none => false
  | _, _ => false

/-- The state in which the processing of a candidate ended, if any. -/
def Ctl.state : Ctl → Option LoopState
  | .next st => some st
  | .fatal st => some st
  | .assertFailed st => some st
  | .undefined => none

/-- A corner of the query in absolute coordinates: the local corner shifted by `blo`, each sum
an `int` (`alo`, `ahi`). -/
def toAbsolute (g : Globals) (v : IntVect) : IntVect :=
  ⟨wrap32 (v.a0 + g.hashmap.blo.a0), wrap32 (v.a1 + g.hashmap.blo.a1),
   wrap32 (v.a2 + g.hashmap.blo.a2)⟩

/-- The bucket coordinates `clo` of the query's lower corner, clamped to the domain. -/
def scanLo (g : Globals) (a_lo : IntVect) : IntVect :=
  ⟨coarsen (max (toAbsolute g a_lo).a0 g.hashmap.blo.a0) g.hashmap.maxext.a0,
   coarsen (max (toAbsolute g a_lo).a1 g.hashmap.blo.a1) g.hashmap.maxext.a1,
   coarsen (max (toAbsolute g a_lo).a2 g.hashmap.blo.a2) g.hashmap.maxext.a2⟩

/-- The bucket coordinates `chi` of the query's upper corner, clamped to the domain. -/
def scanHi (g : Globals) (a_hi : IntVect) : IntVect :=
  ⟨coarsen (min (toAbsolute g a_hi).a0 g.hashmap.bhi.a0) g.hashmap.maxext.a0,
   coarsen (min (toAbsolute g a_hi).a1 g.hashmap.bhi.a1) g.hashmap.maxext.a1,
   coarsen (min (toAbsolute g a_hi).a2 g.hashmap.bhi.a2) g.hashmap.maxext.a2⟩

/-- The stride `jstride_a` of the output array. -/
def jstrideA (a_lo a_hi : IntVect) : Int := 3 * (a_hi.a0 - a_lo.a0 + 1)

/-- The stride `kstride_a` of the output array. -/
def kstrideA (a_lo a_hi : IntVect) : Int := jstrideA a_lo a_hi * (a_hi.a1 - a_lo.a1 + 1)

/-- The query lies inside `[0, bhi - blo]` on every axis, the difference being the `int` the
program computes (`full_contained`). -/
def fullyContained (g : Globals) (a_lo a_hi : IntVect) : Prop :=
  ¬ (a_lo.a0 < 0 ∨ a_hi.a0 > wrap32 (g.hashmap.bhi.a0 - g.hashmap.blo.a0)) ∧
  ¬ (a_lo.a1 < 0 ∨ a_hi.a1 > wrap32 (g.hashmap.bhi.a1 - g.hashmap.blo.a1)) ∧
  ¬ (a_lo.a2 < 0 ∨ a_hi.a2 > wrap32 (g.hashmap.bhi.a2 - g.hashmap.blo.a2))

instance (g : Globals) (a_lo a_hi : IntVect) : Decidable (fullyContained g a_lo a_hi) := by
  unfold fullyContained; exact inferInstance

/-- The candidates of a query, in the order they are processed. -/
def queryCandidates (g : Globals) (a_lo a_hi : IntVect) : List Nat :=
  candidates g.hashmap.hash (scanLo g a_lo) (scanHi g a_hi)

/-- The processing of the candidates of a query, started on the caller's array. -/
def runCandidates (g : Globals) (fs : FileSystem) (a : Buffer) (a_lo a_hi : IntVect) : Ctl :=
  processBoxes g fs (toAbsolute g a_lo) (toAbsolute g a_hi) (jstrideA a_lo a_hi)
    (kstrideA a_lo a_hi) (queryCandidates g a_lo a_hi) ⟨a, [], []⟩

/-- The invariant a call of `read_amrex_header` that passes every check establishes when it
starts with an empty hash index: `maxext` is positive, every grid lies between `blo` and `bhi`,
its extent as the program computes it is no larger than `maxext`, `fods` is as long as `grids`,
and the bucket of a key holds the indices of the grids with that key. -/
structure Loaded (g : Globals) : Prop where
  maxext_pos : 1 ≤ g.hashmap.maxext.a0 ∧ 1 ≤ g.hashmap.maxext.a1 ∧ 1 ≤ g.hashmap.maxext.a2
  fods_length : g.fods.length = g.grids.length
  blo_le : ∀ b ∈ g.grids, g.hashmap.blo.a0 ≤ b.lo.a0 ∧ g.hashmap.blo.a1 ≤ b.lo.a1 ∧
    g.hashmap.blo.a2 ≤ b.lo.a2
  le_bhi : ∀ b ∈ g.grids, b.hi.a0 ≤ g.hashmap.bhi.a0 ∧ b.hi.a1 ≤ g.hashmap.bhi.a1 ∧
    b.hi.a2 ≤ g.hashmap.bhi.a2
  extent_le : ∀ b ∈ g.grids, extent32 b.lo.a0 b.hi.a0 ≤ g.hashmap.maxext.a0 ∧
    extent32 b.lo.a1 b.hi.a1 ≤ g.hashmap.maxext.a1 ∧
    extent32 b.lo.a2 b.hi.a2 ≤ g.hashmap.maxext.a2
  buckets : ∀ key, (hashFind key g.hashmap.hash).getD [] =
    bucketOf g.hashmap.maxext key 0 g.grids

/-- The extent `hi - lo + 1` of a box is a value of type `int` on every axis: the program
computes it without overflow. -/
def Box.extentInInt32 (b : Box) : Prop :=
  AmrexSubvol.inInt32 (b.hi.a0 - b.lo.a0 + 1) ∧ AmrexSubvol.inInt32 (b.hi.a1 - b.lo.a1 + 1) ∧
  AmrexSubvol.inInt32 (b.hi.a2 - b.lo.a2 + 1)

instance (b : Box) : Decidable b.extentInInt32 := by
  unfold Box.extentInInt32; exact inferInstance

/-- The sum `v + blo` is a value of type `int` on every axis: the program computes the absolute
corner of `v` without overflow. -/
def absoluteInInt32 (g : Globals) (v : IntVect) : Prop :=
  inInt32 (v.a0 + g.hashmap.blo.a0) ∧ inInt32 (v.a1 + g.hashmap.blo.a1) ∧
  inInt32 (v.a2 + g.hashmap.blo.a2)

instance (g : Globals) (v : IntVect) : Decidable (absoluteInInt32 g v) := by
  unfold absoluteInInt32; exact inferInstance

/-- The difference `bhi - blo` is a value of type `int` on every axis: the program computes the
bound of the containment test without overflow. -/
def domainInInt32 (g : Globals) : Prop :=
  inInt32 (g.hashmap.bhi.a0 - g.hashmap.blo.a0) ∧ inInt32 (g.hashmap.bhi.a1 - g.hashmap.blo.a1) ∧
  inInt32 (g.hashmap.bhi.a2 - g.hashmap.blo.a2)

instance (g : Globals) : Decidable (domainInInt32 g) := by
  unfold domainInInt32; exact inferInstance

/-- No two different catalog entries share a cell. -/
def PairwiseDisjoint (bs : List Box) : Prop :=
  ∀ (i j : Nat) (b1 b2 : Box), bs[i]? = some b1 → bs[j]? = some b2 → i ≠ j →
    ∀ x y z : Int, ¬ (b1.contains x y z ∧ b2.contains x y z)

/-- The array a call leaves behind, when its behaviour is defined. -/
def Outcome.buffer : Outcome → Option Buffer
  | .returned _ a _ => some a
  | .assertFailed a _ => some a
  | .undefined => none

/-- The pairs (output offset, payload offset) of the element copies of the three nested copy
loops, in the order they are made: `(aoff, poff)`, `(aoff+1, poff+nstride_p)` and
`(aoff+2, poff+nstride_p*2)` for each cell. -/
def cellOffsets (alo : IntVect) (jstride_a kstride_a : Int) (box : Box) (ilo ihi : IntVect) :
    List (Int × Int) :=
  (intRange ilo.a2 ihi.a2).flatMap fun k =>
    (intRange ilo.a1 ihi.a1).flatMap fun j =>
      (intRange ilo.a0 ihi.a0).flatMap fun i =>
        [((i - alo.a0) * 3 + (j - alo.a1) * jstride_a + (k - alo.a2) * kstride_a,
            (i - box.lo.a0) + (j - box.lo.a1) * (box.hi.a0 - box.lo.a0 + 1) +
              (k - box.lo.a2) * ((box.hi.a0 - box.lo.a0 + 1) * (box.hi.a1 - box.lo.a1 + 1))),
         ((i - alo.a0) * 3 + (j - alo.a1) * jstride_a + (k - alo.a2) * kstride_a + 1,
            (i - box.lo.a0) + (j - box.lo.a1) * (box.hi.a0 - box.lo.a0 + 1) +
              (k - box.lo.a2) * ((box.hi.a0 - box.lo.a0 + 1) * (box.hi.a1 - box.lo.a1 + 1)) +
              (box.hi.a0 - box.lo.a0 + 1) * (box.hi.a1 - box.lo.a1 + 1) *
                (box.hi.a2 - box.lo.a2 + 1)),
         ((i - alo.a0) * 3 + (j - alo.a1) * jstride_a + (k - alo.a2) * kstride_a + 2,
            (i - box.lo.a0) + (j - box.lo.a1) * (box.hi.a0 - box.lo.a0 + 1) +
              (k - box.lo.a2) * ((box.hi.a0 - box.lo.a0 + 1) * (box.hi.a1 - box.lo.a1 + 1)) +
              (box.hi.a0 - box.lo.a0 + 1) * (box.hi.a1 - box.lo.a1 + 1) *
                (box.hi.a2 - box.lo.a2 + 1) * 2)]

/-- The number of cells of the query box. -/
def queryCells (a_lo a_hi : IntVect) : Int :=
  (a_hi.a0 - a_lo.a0 + 1) * (a_hi.a1 - a_lo.a1 + 1) * (a_hi.a2 - a_lo.a2 + 1)

/-- The output offset `aoff` of the query cell with the 0-based coordinates `(ia, ja, ka)`:
`ia*istride_a + ja*jstride_a + ka*kstride_a`. -/
def outputOffset (a_lo a_hi : IntVect) (ia ja ka : Int) : Int :=
  ia * 3 + ja * jstrideA a_lo a_hi + ka * kstrideA a_lo a_hi

/-- The 0-based coordinates `(ia, ja, ka)` lie within the extents of the query. -/
def inQueryExtent (a_lo a_hi : IntVect) (ia ja ka : Int) : Prop :=
  (0 ≤ ia ∧ ia ≤ a_hi.a0 - a_lo.a0) ∧ (0 ≤ ja ∧ ja ≤ a_hi.a1 - a_lo.a1) ∧
  (0 ≤ ka ∧ ka ≤ a_hi.a2 - a_lo.a2)

instance (a_lo a_hi : IntVect) (ia ja ka : Int) : Decidable (inQueryExtent a_lo a_hi ia ja ka) := by
  unfold inQueryExtent; exact inferInstance

/-! ## A sample plotfile

Two grids of 4×4×4 cells that share the face between `i = 3` and `i = 4`, their data file, and
variants of both with one defect each.  The plotfiles at the end have grids whose coordinates
take the `int` arithmetic of the reader out of the 32-bit range, an empty catalog, or a negative
count. -/

/-- The grid `(0,0,0)–(3,3,3)`. -/
def sampleBoxA : Box := ⟨⟨0, 0, 0⟩, ⟨3, 3, 3⟩⟩

/-- The grid `(4,0,0)–(7,3,3)`. -/
def sampleBoxB : Box := ⟨⟨4, 0, 0⟩, ⟨7, 3, 3⟩⟩

/-- The tokens of a well-formed `Header`. -/
def sampleHeader : PlotHeader :=
  { ncomp := 3, spacedim := 3, time := 0, finest_level := 0
    prob_lo := ⟨0, 0, 0⟩, prob_hi := ⟨1, 1, 1⟩, dx := ⟨1, 1, 1⟩ }

/-- The tokens of a `Level_0/Cell_H` with the two sample grids. -/
def sampleCellH : CellH :=
  { version := 1, how := 1, ncomp := 3, ng := 0
    nboxes := 2
    boxes := [sampleBoxA, sampleBoxB]
    nfabs := 2
    fabs := [("Cell_D_00000", 0), ("Cell_D_00000", 1600)] }

/-- The sample plotfile. -/
def sampleDataset : Dataset :=
  { name := "plt", header := some sampleHeader, cell_h := some sampleCellH }

/-- Caller variables before the call of `read_amrex_header`. -/
def sampleOut : HeaderOut :=
  { dims := ⟨0, 0, 0⟩, origin := ⟨0, 0, 0⟩, dx := ⟨0, 0, 0⟩, time := 0, err := 0 }

/-- A plotfile with the single grid `(8,0,0)–(11,3,3)`. -/
def sampleDatasetC : Dataset :=
  { name := "plt2", header := some sampleHeader
    cell_h := some { version := 1, how := 1, ncomp := 3, ng := 0
                     nboxes := 1
                     boxes := [⟨⟨8, 0, 0⟩, ⟨11, 3, 3⟩⟩]
                     nfabs := 1
                     fabs := [("Cell_D_00000", 0)] } }

/-- A plotfile whose `Level_0/Cell_H` announces one ghost cell, which `read_amrex_header`
rejects. -/
def sampleDatasetGhost : Dataset :=
  { name := "plt", header := some sampleHeader
    cell_h := some { sampleCellH with ng := 1 } }

/-- A record of the sample data file: magic `FAB`, the given box and component count, and the
payload `base, base+1, base+2, …`. -/
def sampleRecord (box : Box) (ncomp : Int) (base : Int) : FabRecord :=
  { c1 := 'F', c2 := 'A', c3 := 'B', box := box, ncomp := ncomp
    payload := fun n => ((base + n : Int) : Dbl) }

/-- The content of the sample data file: the record of grid A at offset 0 and the record of
grid B elsewhere (it is read at offset 1600). -/
def sampleContent : Nat → FabRecord := fun off =>
  if off = 0 then sampleRecord sampleBoxA 3 0 else sampleRecord sampleBoxB 3 1000

/-- The data files of the sample plotfile: the one file `plt/Level_0/Cell_D_00000`. -/
def sampleFiles : FileSystem := fun path =>
  if path = "plt/Level_0/Cell_D_00000" then some sampleContent else none

/-- The sample data files with the component count of the record of grid A changed to 2. -/
def sampleFilesBadNcomp : FileSystem := fun path =>
  if path = "plt/Level_0/Cell_D_00000" then
    some (fun off => if off = 0 then sampleRecord sampleBoxA 2 0
                     else sampleRecord sampleBoxB 3 1000)
  else none

/-- The sample state: codes `0`, `1`, `2` registered, then the sample plotfile loaded. -/
def sampleGlobals : Globals :=
  (read_amrex_header (set_error_code initialGlobals 0 1 2) sampleDataset sampleOut).1

/-- The content of the sample data file with the box of the record of grid B enlarged by one
cell: the record of grid A at offset 0, the altered record elsewhere. -/
def sampleContentBadBox : Nat → FabRecord := fun off =>
  if off = 0 then sampleRecord sampleBoxA 3 0
  else sampleRecord ⟨⟨4, 0, 0⟩, ⟨7, 3, 4⟩⟩ 3 1000

/-- The sample data files with the box of the record of grid B enlarged by one cell. -/
def sampleFilesBadBox : FileSystem := fun path =>
  if path = "plt/Level_0/Cell_D_00000" then some sampleContentBadBox else none

/-- The loop state after the record of grid A has been copied for the query
`(2,0,0)–(5,0,0)` into an array of zeros. -/
def sampleStateAfterA : LoopState :=
  { a := copyBox ⟨2, 0, 0⟩ 12 12 sampleBoxA (sampleRecord sampleBoxA 3 0).payload
      ⟨2, 0, 0⟩ ⟨3, 0, 0⟩ (fun _ => 0)
    ifs_map := ["plt/Level_0/Cell_D_00000"]
    reads := [("plt/Level_0/Cell_D_00000", 0)] }

/-- A plotfile whose `Level_0/Cell_H` lists the two sample grids but a single FabOnDisk line. -/
def sampleDatasetFabMismatch : Dataset :=
  { name := "plt", header := some sampleHeader
    cell_h := some { sampleCellH with nfabs := 1, fabs := [("Cell_D_00000", 0)] } }

/-- A plotfile with the single grid `(2,0,0)–(5,3,3)`, whose lower corner is not a multiple of
the maximum extent 4. -/
def sampleDatasetOffset : Dataset :=
  { name := "plt3", header := some sampleHeader
    cell_h := some { version := 1, how := 1, ncomp := 3, ng := 0
                     nboxes := 1
                     boxes := [⟨⟨2, 0, 0⟩, ⟨5, 3, 3⟩⟩]
                     nfabs := 1
                     fabs := [("Cell_D_00000", 0)] } }

/-- The state after the codes `0`, `1`, `2` are registered and the plotfile with the single grid
`(2,0,0)–(5,3,3)` is loaded. -/
def sampleGlobalsOffset : Globals :=
  (read_amrex_header (set_error_code initialGlobals 0 1 2) sampleDatasetOffset sampleOut).1


/-- The grid `(-2000000000,0,0)–(2000000000,3,3)`, of 4000000001 cells along the axis 0. -/
def sampleBoxWide : Box := ⟨⟨-2000000000, 0, 0⟩, ⟨2000000000, 3, 3⟩⟩

/-- A plotfile with the single grid `(-2000000000,0,0)–(2000000000,3,3)`. -/
def sampleDatasetWide : Dataset :=
  { name := "pltw", header := some sampleHeader
    cell_h := some { version := 1, how := 1, ncomp := 3, ng := 0
                     nboxes := 1
                     boxes := [sampleBoxWide]
                     nfabs := 1
                     fabs := [("Cell_D_00000", 0)] } }

/-- The state after the codes `0`, `1`, `2` are registered and the plotfile with the single grid
`(-2000000000,0,0)–(2000000000,3,3)` is loaded. -/
def sampleGlobalsWide : Globals :=
  (read_amrex_header (set_error_code initialGlobals 0 1 2) sampleDatasetWide sampleOut).1

/-- The data files of the plotfile with the wide grid: the one file
`pltw/Level_0/Cell_D_00000`, with the valid record of the grid and the payload `0, 1, 2, …`. -/
def sampleFilesWide : FileSystem := fun path =>
  if path = "pltw/Level_0/Cell_D_00000" then some (fun _ => sampleRecord sampleBoxWide 3 0)
  else none

/-- The grid `(-2000000000,0,0)–(-1999999997,3,3)`. -/
def sampleBoxFarA : Box := ⟨⟨-2000000000, 0, 0⟩, ⟨-1999999997, 3, 3⟩⟩

/-- The grid `(147483648,0,0)–(147483651,3,3)`. -/
def sampleBoxFarB : Box := ⟨⟨147483648, 0, 0⟩, ⟨147483651, 3, 3⟩⟩

/-- A plotfile with the two grids `(-2000000000,0,0)–(-1999999997,3,3)` and
`(147483648,0,0)–(147483651,3,3)`, which lie `2147483648 = 2^31` cells apart. -/
def sampleDatasetFar : Dataset :=
  { name := "pltf", header := some sampleHeader
    cell_h := some { version := 1, how := 1, ncomp := 3, ng := 0
                     nboxes := 2
                     boxes := [sampleBoxFarA, sampleBoxFarB]
                     nfabs := 2
                     fabs := [("Cell_D_00000", 0), ("Cell_D_00000", 1600)] } }

/-- The state after the codes `0`, `1`, `2` are registered and the plotfile with the two far
grids is loaded. -/
def sampleGlobalsFar : Globals :=
  (read_amrex_header (set_error_code initialGlobals 0 1 2) sampleDatasetFar sampleOut).1

/-- The data files of the plotfile with the two far grids: the one file
`pltf/Level_0/Cell_D_00000`, with the valid record of the first grid at offset 0 (payload
`0, 1, 2, …`) and the valid record of the second grid elsewhere (payload `1000, 1001, …`). -/
def sampleFilesFar : FileSystem := fun path =>
  if path = "pltf/Level_0/Cell_D_00000" then
    some (fun off => if off = 0 then sampleRecord sampleBoxFarA 3 0
                     else sampleRecord sampleBoxFarB 3 1000)
  else none

/-- The grid `(2000000000,0,0)–(2000000003,3,3)`. -/
def sampleBoxHigh : Box := ⟨⟨2000000000, 0, 0⟩, ⟨2000000003, 3, 3⟩⟩

/-- A plotfile with the single grid `(2000000000,0,0)–(2000000003,3,3)`. -/
def sampleDatasetHigh : Dataset :=
  { name := "plth", header := some sampleHeader
    cell_h := some { version := 1, how := 1, ncomp := 3, ng := 0
                     nboxes := 1
                     boxes := [sampleBoxHigh]
                     nfabs := 1
                     fabs := [("Cell_D_00000", 0)] } }

/-- The state after the codes `0`, `1`, `2` are registered and the plotfile with the single grid
`(2000000000,0,0)–(2000000003,3,3)` is loaded. -/
def sampleGlobalsHigh : Globals :=
  (read_amrex_header (set_error_code initialGlobals 0 1 2) sampleDatasetHigh sampleOut).1

/-- The data files of the plotfile with the grid `(2000000000,0,0)–(2000000003,3,3)`: the one
file `plth/Level_0/Cell_D_00000`, with the valid record of the grid and the payload
`0, 1, 2, …`. -/
def sampleFilesHigh : FileSystem := fun path =>
  if path = "plth/Level_0/Cell_D_00000" then some (fun _ => sampleRecord sampleBoxHigh 3 0)
  else none

/-- A plotfile whose `Level_0/Cell_H` announces no box and no FAB. -/
def sampleDatasetEmpty : Dataset :=
  { name := "plte", header := some sampleHeader
    cell_h := some { version := 1, how := 1, ncomp := 3, ng := 0
                     nboxes := 0, boxes := [], nfabs := 0, fabs := [] } }

/-- The state after the codes `0`, `1`, `2` are registered and the plotfile with the empty
catalog is loaded. -/
def sampleGlobalsEmpty : Globals :=
  (read_amrex_header (set_error_code initialGlobals 0 1 2) sampleDatasetEmpty sampleOut).1

/-- The data files of the plotfile with the single grid `(8,0,0)–(11,3,3)`: the one file
`plt2/Level_0/Cell_D_00000`, with the valid record of the grid. -/
def sampleFilesC : FileSystem := fun path =>
  if path = "plt2/Level_0/Cell_D_00000" then
    some (fun _ => sampleRecord ⟨⟨8, 0, 0⟩, ⟨11, 3, 3⟩⟩ 3 0)
  else none

/-- A plotfile whose `Level_0/Cell_H` lists the two sample grids and announces the FAB count
`-1`. -/
def sampleDatasetNegFabs : Dataset :=
  { name := "plt", header := some sampleHeader
    cell_h := some { sampleCellH with nfabs := -1, fabs := [] } }
/-! ## Coarsening -/

theorem coarsen_eq_ediv (i ratio : Int) (hr : 0 < ratio) : coarsen i ratio = i / ratio := by
  unfold coarsen
  split
  · rename_i hi
    have hn : ((i + 1).natAbs : Int) = -i - 1 := by omega
    rw [hn, Int.neg_tdiv, Int.tdiv_eq_ediv (by omega) (le_of_lt hr)]
    symm
    have key := (Int.ediv_emod_unique (a := i) (r := ratio - 1 - (-i - 1) % ratio)
      (q := -((-i - 1) / ratio) - 1) hr).2
    refine (key ⟨?_, ?_, ?_⟩).1
    · have h1 := Int.emod_add_ediv (-i - 1) ratio
      linarith
    · have := Int.emod_lt_of_pos (-i - 1) hr
      omega
    · have := Int.emod_nonneg (-i - 1) (ne_of_gt hr)
      omega
  · rename_i hi
    exact Int.tdiv_eq_ediv (by omega) (le_of_lt hr)

theorem wrap32_of_inInt32 (x : Int) (h : inInt32 x) : wrap32 x = x := by
  unfold inInt32 INT_MIN INT_MAX at h
  unfold wrap32
  omega

theorem wrap32_eq_iff (x : Int) : wrap32 x = x ↔ inInt32 x := by
  unfold wrap32 inInt32 INT_MIN INT_MAX
  omega

theorem extent32_eq_wrap32 (lo hi : Int) : extent32 lo hi = wrap32 (hi - lo + 1) := by
  unfold extent32 wrap32
  omega

theorem extent32_of_inInt32 (lo hi : Int) (h : inInt32 (hi - lo + 1)) :
    extent32 lo hi = hi - lo + 1 := by
  rw [extent32_eq_wrap32]
  exact (wrap32_eq_iff _).2 h

theorem wrap32_span (x y b : Int) (hxy : x ≤ y) :
    wrap32 (y + b) - wrap32 (x + b) ≤ y - x := by
  unfold wrap32
  omega

theorem ediv_inInt32 (i ratio : Int) (hi : inInt32 i) (hr : 0 < ratio) : inInt32 (i / ratio) := by
  unfold inInt32 INT_MIN INT_MAX at *
  constructor
  · have h1 : (-2147483648 : Int) / ratio ≤ i / ratio := Int.ediv_le_ediv hr hi.1
    have h2 : (-2147483648 : Int) ≤ (-2147483648 : Int) / ratio := by
      have := Int.emod_add_ediv (-2147483648) ratio
      have := Int.emod_lt_of_pos (-2147483648) hr
      have := Int.emod_nonneg (-2147483648) (ne_of_gt hr)
      nlinarith
    omega
  · have h1 : i / ratio ≤ (2147483647 : Int) / ratio := Int.ediv_le_ediv hr hi.2
    have h2 : (2147483647 : Int) / ratio ≤ 2147483647 := Int.ediv_le_self _ (by norm_num)
    omega


theorem floor_div_eq_ediv (i ratio : Int) (hr : 0 < ratio) :
    ⌊(i : ℚ) / (ratio : ℚ)⌋ = i / ratio := by
  lift ratio to ℕ using hr.le
  exact_mod_cast Rat.floor_intCast_div_natCast i ratio

/-- C7. For every 32-bit integer `i` and every positive `ratio`, `coarsen i ratio` is the floor
of the quotient `i / ratio` (rounding toward negative infinity), every intermediate result of the
expression lies in the 32-bit range so that the machine evaluation `coarsen32` gives the same
value, and `coarsen (-1) 4 = -1`, `coarsen (-5) 4 = -2`, `coarsen 3 4 = 0`. -/
theorem coarsen_is_floor_division (i ratio : Int) (hi : inInt32 i) (hr : 0 < ratio) :
    coarsen i ratio = ⌊(i : ℚ) / (ratio : ℚ)⌋ ∧
    coarsen i ratio = Int.fdiv i ratio ∧
    (i < 0 → inInt32 (i + 1) ∧ inInt32 ((i + 1).natAbs : Int) ∧
      inInt32 (-((i + 1).natAbs : Int)) ∧
      inInt32 (Int.tdiv (-((i + 1).natAbs : Int)) ratio) ∧
      inInt32 (Int.tdiv (-((i + 1).natAbs : Int)) ratio - 1)) ∧
    (0 ≤ i → inInt32 (Int.tdiv i ratio)) ∧
    coarsen32 i ratio = coarsen i ratio ∧
    coarsen (-1) 4 = -1 ∧ coarsen (-5) 4 = -2 ∧ coarsen 3 4 = 0 := by
  have hfloor := coarsen_eq_ediv i ratio hr
  have hneg : i < 0 → inInt32 (i + 1) ∧ inInt32 ((i + 1).natAbs : Int) ∧
      inInt32 (-((i + 1).natAbs : Int)) ∧
      inInt32 (Int.tdiv (-((i + 1).natAbs : Int)) ratio) ∧
      inInt32 (Int.tdiv (-((i + 1).natAbs : Int)) ratio - 1) := by
    intro hlt
    have hc : coarsen i ratio = Int.tdiv (-((i + 1).natAbs : Int)) ratio - 1 := by
      unfold coarsen; rw [if_pos hlt]
    have hres : inInt32 (Int.tdiv (-((i + 1).natAbs : Int)) ratio - 1) := by
      rw [← hc, hfloor]; exact ediv_inInt32 i ratio hi hr
    have hq : Int.tdiv (-((i + 1).natAbs : Int)) ratio ≤ 0 := by
      rw [Int.neg_tdiv]
      have := Int.tdiv_nonneg (a := ((i + 1).natAbs : Int)) (b := ratio) (by omega) hr.le
      omega
    unfold inInt32 INT_MIN INT_MAX at *
    refine ⟨by omega, by omega, by omega, by omega, hres⟩
  have hpos : 0 ≤ i → inInt32 (Int.tdiv i ratio) := by
    intro hge
    rw [Int.tdiv_eq_ediv hge hr.le]
    exact ediv_inInt32 i ratio hi hr
  refine ⟨?_, ?_, hneg, hpos, ?_, by decide, by decide, by decide⟩
  · rw [hfloor, floor_div_eq_ediv i ratio hr]
  · rw [hfloor, Int.fdiv_eq_ediv i hr.le]
  · unfold coarsen32 coarsen
    split
    · rename_i hlt
      obtain ⟨h1, h2, h3, h4, h5⟩ := hneg hlt
      rw [wrap32_of_inInt32 _ h1, wrap32_of_inInt32 _ h2, wrap32_of_inInt32 _ h3,
        wrap32_of_inInt32 _ h4, wrap32_of_inInt32 _ h5]
    · rename_i hge
      exact wrap32_of_inInt32 _ (hpos (by omega))

/-- Witness of C7 at `i = -5`, `ratio = 4`. -/
theorem coarsen_is_floor_division_witness :
    inInt32 (-5) ∧ (0 : Int) < 4 ∧
    coarsen (-5) 4 = ⌊((-5 : Int) : ℚ) / ((4 : Int) : ℚ)⌋ ∧ coarsen32 (-5) 4 = coarsen (-5) 4 :=
  ⟨by decide, by decide, (coarsen_is_floor_division (-5) 4 (by decide) (by decide)).1,
   (coarsen_is_floor_division (-5) 4 (by decide) (by decide)).2.2.2.2.1⟩


/-! ## The spatial hash index -/

theorem hashFind_hashPushBack (key key' : IntVect) (i : Nat) (h : List (IntVect × List Nat)) :
    hashFind key' (hashPushBack key i h) =
      if key = key' then some ((hashFind key h).getD [] ++ [i]) else hashFind key' h := by
  induction h with
  | nil =>
    simp only [hashPushBack, hashFind]
    split <;> simp
  | cons e rest ih =>
    obtain ⟨k, v⟩ := e
    by_cases hk : k = key
    · subst hk
      by_cases hk' : k = key'
      · simp [hashPushBack, hashFind, hk']
      · simp [hashPushBack, hashFind, hk']
    · by_cases hk' : k = key'
      · have h1 : ¬ key = key' := fun h => hk (hk'.trans h.symm)
        subst hk'
        simp [hashPushBack, hashFind, hk, h1]
      · simp only [hashPushBack, hashFind, hk, hk', if_false, ih]

theorem count_hashEntries_hashPushBack (key : IntVect) (i j : Nat)
    (h : List (IntVect × List Nat)) :
    (hashEntries (hashPushBack key i h)).count j =
      (hashEntries h).count j + (if i = j then 1 else 0) := by
  induction h with
  | nil =>
    by_cases hij : i = j <;> simp [hashPushBack, hashEntries, List.count_cons, hij]
  | cons e rest ih =>
    obtain ⟨k, v⟩ := e
    by_cases hk : k = key
    · by_cases hij : i = j
      · simp [hashPushBack, hashEntries, hk, hij]; omega
      · simp [hashPushBack, hashEntries, hk, List.count_cons, hij]
    · simp only [hashEntries] at ih
      simp only [hashPushBack, hk, if_false, hashEntries, List.map_cons, List.flatten_cons,
        List.count_append, ih]
      omega

theorem keys_hashPushBack (key : IntVect) (i : Nat) (h : List (IntVect × List Nat)) :
    (hashPushBack key i h).map Prod.fst =
      if key ∈ h.map Prod.fst then h.map Prod.fst else h.map Prod.fst ++ [key] := by
  induction h with
  | nil => simp [hashPushBack]
  | cons e rest ih =>
    obtain ⟨k, v⟩ := e
    by_cases hk : k = key
    · simp [hashPushBack, hk]
    · have hk' : ¬ key = k := fun h => hk h.symm
      simp only [hashPushBack, hk, if_false, List.map_cons, ih, List.mem_cons, hk', false_or]
      split <;> simp

theorem nodup_keys_hashPushBack (key : IntVect) (i : Nat) (h : List (IntVect × List Nat))
    (hn : (h.map Prod.fst).Nodup) : ((hashPushBack key i h).map Prod.fst).Nodup := by
  rw [keys_hashPushBack]
  split
  · exact hn
  · rename_i hmem
    rw [List.nodup_append]
    refine ⟨hn, List.nodup_singleton _, ?_⟩
    intro a ha hb
    simp only [List.mem_singleton] at hb
    subst hb
    exact hmem ha

theorem mem_of_hashFind {key : IntVect} {h : List (IntVect × List Nat)} {l : List Nat}
    (hf : hashFind key h = some l) : (key, l) ∈ h := by
  induction h with
  | nil => simp [hashFind] at hf
  | cons e rest ih =>
    obtain ⟨k, v⟩ := e
    by_cases hk : k = key
    · simp [hashFind, hk] at hf
      simp [hk, hf]
    · simp only [hashFind, hk, if_false] at hf
      exact List.mem_cons_of_mem _ (ih hf)

theorem mem_hashEntries_of_hashFind {key : IntVect} {h : List (IntVect × List Nat)}
    {l : List Nat} {x : Nat} (hf : hashFind key h = some l) (hx : x ∈ l) :
    x ∈ hashEntries h := by
  unfold hashEntries
  simp only [List.mem_flatten, List.mem_map]
  exact ⟨l, ⟨(key, l), mem_of_hashFind hf, rfl⟩, hx⟩


theorem hashFind_buildHash (maxext key : IntVect) (bs : List Box) :
    ∀ (i : Nat) (h : List (IntVect × List Nat)),
      (hashFind key (buildHash maxext i bs h)).getD [] =
        (hashFind key h).getD [] ++ bucketOf maxext key i bs := by
  induction bs with
  | nil => intro i h; simp [buildHash, bucketOf]
  | cons b bs ih =>
    intro i h
    rw [buildHash, ih, hashFind_hashPushBack, bucketOf]
    by_cases hk : bucketKey maxext b = key
    · subst hk; simp
    · simp [hk]

theorem mem_bucketOf (maxext key : IntVect) (bs : List Box) :
    ∀ (i x : Nat), x ∈ bucketOf maxext key i bs ↔
      i ≤ x ∧ ∃ b, bs[x - i]? = some b ∧ bucketKey maxext b = key := by
  induction bs with
  | nil => intro i x; simp [bucketOf]
  | cons b bs ih =>
    intro i x
    rw [bucketOf, List.mem_append, ih]
    constructor
    · rintro (h | ⟨h1, b', h2, h3⟩)
      · by_cases hk : bucketKey maxext b = key
        · simp only [hk, if_true, List.mem_singleton] at h
          subst h
          exact ⟨le_refl _, b, by simp, hk⟩
        · simp [hk] at h
      · refine ⟨by omega, b', ?_, h3⟩
        have : x - i = (x - (i + 1)) + 1 := by omega
        rw [this, List.getElem?_cons_succ]
        exact h2
    · rintro ⟨h1, b', h2, h3⟩
      by_cases hx : x = i
      · subst hx
        simp only [Nat.sub_self, List.getElem?_cons_zero, Option.some.injEq] at h2
        subst h2
        left; simp [h3]
      · right
        refine ⟨by omega, b', ?_, h3⟩
        have : x - i = (x - (i + 1)) + 1 := by omega
        rw [this, List.getElem?_cons_succ] at h2
        exact h2

theorem count_bucketOf_le (maxext key : IntVect) (bs : List Box) :
    ∀ (i x : Nat), (bucketOf maxext key i bs).count x ≤ 1 ∧
      (x < i → (bucketOf maxext key i bs).count x = 0) := by
  induction bs with
  | nil => intro i x; simp [bucketOf]
  | cons b bs ih =>
    intro i x
    obtain ⟨h1, h2⟩ := ih (i + 1) x
    rw [bucketOf, List.count_append]
    by_cases hk : bucketKey maxext b = key
    · by_cases hx : i = x
      · subst hx
        have := h2 (by omega)
        simp [hk, this]
      · simp only [hk, if_true, List.count_cons, List.count_nil, beq_iff_eq, hx, if_false]
        refine ⟨by omega, fun hlt => ?_⟩
        have := h2 (by omega)
        omega
    · simp only [hk, if_false, List.count_nil, Nat.zero_add]
      exact ⟨h1, fun hlt => h2 (by omega)⟩

theorem count_hashEntries_buildHash (maxext : IntVect) (bs : List Box) :
    ∀ (i : Nat) (h : List (IntVect × List Nat)) (j : Nat),
      (hashEntries (buildHash maxext i bs h)).count j =
        (hashEntries h).count j + (if i ≤ j ∧ j < i + bs.length then 1 else 0) := by
  induction bs with
  | nil => intro i h j; simp [buildHash]
  | cons b bs ih =>
    intro i h j
    rw [buildHash, ih, count_hashEntries_hashPushBack]
    simp only [List.length_cons]
    by_cases h1 : i = j
    · subst h1; simp
    · by_cases h2 : i + 1 ≤ j ∧ j < i + 1 + bs.length
      · have : i ≤ j ∧ j < i + (bs.length + 1) := by omega
        simp [h1, h2, this]
      · have : ¬ (i ≤ j ∧ j < i + (bs.length + 1)) := by omega
        simp [h1, h2, this]

theorem nodup_keys_buildHash (maxext : IntVect) (bs : List Box) :
    ∀ (i : Nat) (h : List (IntVect × List Nat)), (h.map Prod.fst).Nodup →
      ((buildHash maxext i bs h).map Prod.fst).Nodup := by
  induction bs with
  | nil => intro i h hn; simpa [buildHash] using hn
  | cons b bs ih =>
    intro i h hn
    rw [buildHash]
    exact ih _ _ (nodup_keys_hashPushBack _ _ _ hn)

/-! ## The header loader -/

theorem foldl_updateBounds_hash (bs : List Box) :
    ∀ hm : HashMap, (bs.foldl updateBounds hm).hash = hm.hash := by
  induction bs with
  | nil => intro hm; rfl
  | cons b bs ih => intro hm; rw [List.foldl_cons, ih]; rfl

theorem loadedBounds_hash (g : Globals) (boxes : List Box) :
    (loadedBounds g boxes).hash = g.hashmap.hash := by
  unfold loadedBounds
  rw [foldl_updateBounds_hash]; rfl

theorem loadable_iff (ds : Dataset) :
    ds.loadable = true ↔ ∃ h c, ds.header = some h ∧ ds.cell_h = some c ∧
      h.ncomp = 3 ∧ h.spacedim = 3 ∧ h.finest_level = 0 ∧
      0 ≤ c.nboxes ∧ 0 ≤ c.nfabs ∧ c.nfabs = c.nboxes ∧ c.ncomp = 3 ∧ c.ng = 0 := by
  unfold Dataset.loadable
  cases hh : ds.header with
  | none => simp
  | some h =>
    cases hc : ds.cell_h with
    | none => simp
    | some c => simp

theorem readGrids_length (old : List Box) (n : Nat) (boxes : List Box) :
    (readGrids old n boxes).length = n := by
  simp [readGrids]

theorem readFods_length (name : String) (old : List FOD) (n : Nat) (fabs : List (String × Nat)) :
    (readFods name old n fabs).length = n := by
  simp [readFods]

theorem readGrids_of_length (old : List Box) (boxes : List Box) :
    readGrids old boxes.length boxes = boxes := by
  apply List.ext_getElem
  · simp [readGrids]
  · intro i h1 h2
    simp [readGrids, List.getElem?_eq_getElem h2]

theorem readFods_of_length (name : String) (old : List FOD) (fabs : List (String × Nat)) :
    readFods name old fabs.length fabs = fabs.map (mkFOD name) := by
  apply List.ext_getElem
  · simp [readFods]
  · intro i h1 h2
    have h3 : i < fabs.length := by simpa using h2
    simp [readFods, List.getElem?_eq_getElem h3]

theorem read_amrex_header_loadable (g : Globals) (ds : Dataset) (out : HeaderOut)
    (hl : ds.loadable = true) :
    ∃ h c, ds.header = some h ∧ ds.cell_h = some c ∧ c.nfabs = c.nboxes ∧
      (read_amrex_header g ds out).1 = loadedGlobals g ds.name c ∧
      (read_amrex_header g ds out).2.err = g.error_stat_noerror ∧
      (read_amrex_header g ds out).2.dims =
        ⟨extent32 (loadedBounds g (loadedGrids g c)).blo.a0
           (loadedBounds g (loadedGrids g c)).bhi.a0,
         extent32 (loadedBounds g (loadedGrids g c)).blo.a1
           (loadedBounds g (loadedGrids g c)).bhi.a1,
         extent32 (loadedBounds g (loadedGrids g c)).blo.a2
           (loadedBounds g (loadedGrids g c)).bhi.a2⟩ ∧
      (read_amrex_header g ds out).uncaught = false := by
  obtain ⟨h, c, hh, hc, h1, h2, h3, h4, h5, h6, h7, h8⟩ := (loadable_iff ds).1 hl
  have h4' : ¬ c.nboxes < 0 := by omega
  have h5' : ¬ c.nfabs < 0 := by omega
  refine ⟨h, c, hh, hc, h6, ?_, ?_, ?_, ?_⟩
  · simp [read_amrex_header, hh, hc, h1, h2, h3, h4', h5', h6, h7, h8, loadedGlobals,
      loadedGrids, loadedBounds, foldl_updateBounds_hash, resetBounds]
  · simp [read_amrex_header, hh, hc, h1, h2, h3, h4', h5', h6, h7, h8]
  · simp [read_amrex_header, hh, hc, h1, h2, h3, h4', h5', h6, h7, h8, loadedBounds,
      loadedGrids]
  · simp [read_amrex_header, hh, hc, h1, h2, h3, h4', h5', h6, h7, h8]

theorem loadedGlobals_hashFind (n s f : Int) (name : String) (c : CellH) (key : IntVect) :
    (hashFind key (loadedGlobals (set_error_code initialGlobals n s f) name c).hashmap.hash).getD []
      = bucketOf (loadedGlobals (set_error_code initialGlobals n s f) name c).hashmap.maxext
          key 0 (loadedGlobals (set_error_code initialGlobals n s f) name c).grids := by
  simp [loadedGlobals, set_error_code, initialGlobals, hashFind_buildHash, hashFind]

/-- C8. After a call of `read_amrex_header` that passes every check, started from the initial
state (with any status codes registered), every catalog index `i` occurs exactly once in the
whole hash index, it occurs in the list of the bucket whose key is the lower corner of grid `i`
coarsened by `maxext`, and in the list of no bucket with another key; every index stored in the
hash index is a valid catalog index, and no key has two entries. -/
theorem index_membership (n s f : Int) (ds : Dataset) (out : HeaderOut)
    (hl : ds.loadable = true) :
    let g := (read_amrex_header (set_error_code initialGlobals n s f) ds out).1
    (∀ (i : Nat) (hi : i < g.grids.length),
      (hashEntries g.hashmap.hash).count i = 1 ∧
      (∃ l, hashFind ⟨coarsen g.grids[i].lo.a0 g.hashmap.maxext.a0,
                      coarsen g.grids[i].lo.a1 g.hashmap.maxext.a1,
                      coarsen g.grids[i].lo.a2 g.hashmap.maxext.a2⟩ g.hashmap.hash = some l ∧
            i ∈ l ∧ l.count i = 1) ∧
      (∀ key l, hashFind key g.hashmap.hash = some l → i ∈ l →
        key = ⟨coarsen g.grids[i].lo.a0 g.hashmap.maxext.a0,
               coarsen g.grids[i].lo.a1 g.hashmap.maxext.a1,
               coarsen g.grids[i].lo.a2 g.hashmap.maxext.a2⟩)) ∧
    (∀ i ∈ hashEntries g.hashmap.hash, i < g.grids.length) ∧
    (g.hashmap.hash.map Prod.fst).Nodup := by
  intro g
  obtain ⟨h, c, hh, hc, hlen, hg, -, -, -⟩ :=
    read_amrex_header_loadable (set_error_code initialGlobals n s f) ds out hl
  have hgdef : g = loadedGlobals (set_error_code initialGlobals n s f) ds.name c := hg
  have hfind : ∀ key, (hashFind key g.hashmap.hash).getD [] =
      bucketOf g.hashmap.maxext key 0 g.grids := by
    intro key; rw [hgdef]; exact loadedGlobals_hashFind n s f ds.name c key
  have hcount : ∀ j, (hashEntries g.hashmap.hash).count j =
      if j < g.grids.length then 1 else 0 := by
    intro j
    have := count_hashEntries_buildHash (loadedBounds (set_error_code initialGlobals n s f)
      (loadedGrids (set_error_code initialGlobals n s f) c)).maxext
      (loadedGrids (set_error_code initialGlobals n s f) c) 0 [] j
    rw [hgdef]
    simpa [loadedGlobals, set_error_code, initialGlobals, hashEntries] using this
  refine ⟨?_, ?_, ?_⟩
  · intro i hi
    have hgi : g.grids[i]? = some g.grids[i] := List.getElem?_eq_getElem hi
    refine ⟨by rw [hcount, if_pos hi], ?_, ?_⟩
    · have hmem : i ∈ bucketOf g.hashmap.maxext (bucketKey g.hashmap.maxext g.grids[i]) 0
          g.grids := by
        rw [mem_bucketOf]
        exact ⟨Nat.zero_le _, g.grids[i], by simp, rfl⟩
      rw [← hfind] at hmem
      cases hf : hashFind (bucketKey g.hashmap.maxext g.grids[i]) g.hashmap.hash with
      | none => rw [hf] at hmem; simp at hmem
      | some l =>
        rw [hf] at hmem
        refine ⟨l, hf, hmem, ?_⟩
        have h1 : l.count i ≤ 1 := by
          have := (count_bucketOf_le g.hashmap.maxext (bucketKey g.hashmap.maxext g.grids[i])
            g.grids 0 i).1
          rw [← hfind, hf] at this
          exact this
        have h2 : 0 < l.count i := List.count_pos_iff.2 hmem
        omega
    · intro key l hf hmem
      have := hfind key
      rw [hf] at this
      simp only [Option.getD_some] at this
      rw [this, mem_bucketOf] at hmem
      obtain ⟨-, b, hb, hkey⟩ := hmem
      simp only [Nat.sub_zero] at hb
      rw [hgi] at hb
      cases hb
      exact hkey.symm
  · intro i hi
    have hpos : 0 < (hashEntries g.hashmap.hash).count i := List.count_pos_iff.2 hi
    rw [hcount] at hpos
    by_contra hcon
    rw [if_neg hcon] at hpos
    exact absurd hpos (by decide)
  · rw [hgdef]
    simp only [loadedGlobals]
    apply nodup_keys_buildHash
    simp [set_error_code, initialGlobals]

/-- Witness of C8 on the sample plotfile, for the catalog index 1. -/
theorem index_membership_witness :
    sampleDataset.loadable = true ∧
    (hashEntries (read_amrex_header (set_error_code initialGlobals 0 1 2) sampleDataset
      sampleOut).1.hashmap.hash).count 1 = 1 :=
  ⟨by decide, ((index_membership 0 1 2 sampleDataset sampleOut (by decide)).1 1 (by decide)).1⟩


theorem foldl_min_spec (f : Box → Int) (bs : List Box) :
    ∀ x0 : Int, bs.foldl (fun x b => min x (f b)) x0 ≤ x0 ∧
      (∀ b ∈ bs, bs.foldl (fun x b => min x (f b)) x0 ≤ f b) ∧
      (bs.foldl (fun x b => min x (f b)) x0 = x0 ∨
        ∃ b ∈ bs, bs.foldl (fun x b => min x (f b)) x0 = f b) := by
  induction bs with
  | nil => intro x0; simp
  | cons b bs ih =>
    intro x0
    obtain ⟨h1, h2, h3⟩ := ih (min x0 (f b))
    simp only [List.foldl_cons, List.mem_cons, forall_eq_or_imp, exists_eq_or_imp]
    refine ⟨by omega, ⟨by omega, h2⟩, ?_⟩
    rcases h3 with h3 | ⟨b', hb', h3⟩
    · by_cases hx : x0 ≤ f b
      · left; omega
      · right; left; omega
    · right; right; exact ⟨b', hb', h3⟩

theorem foldl_max_spec (f : Box → Int) (bs : List Box) :
    ∀ x0 : Int, x0 ≤ bs.foldl (fun x b => max x (f b)) x0 ∧
      (∀ b ∈ bs, f b ≤ bs.foldl (fun x b => max x (f b)) x0) ∧
      (bs.foldl (fun x b => max x (f b)) x0 = x0 ∨
        ∃ b ∈ bs, bs.foldl (fun x b => max x (f b)) x0 = f b) := by
  induction bs with
  | nil => intro x0; simp
  | cons b bs ih =>
    intro x0
    obtain ⟨h1, h2, h3⟩ := ih (max x0 (f b))
    simp only [List.foldl_cons, List.mem_cons, forall_eq_or_imp, exists_eq_or_imp]
    refine ⟨by omega, ⟨by omega, h2⟩, ?_⟩
    rcases h3 with h3 | ⟨b', hb', h3⟩
    · by_cases hx : f b ≤ x0
      · left; omega
      · right; left; omega
    · right; right; exact ⟨b', hb', h3⟩

theorem foldl_updateBounds (bs : List Box) :
    ∀ hm : HashMap, bs.foldl updateBounds hm =
      { hm with
        blo := ⟨bs.foldl (fun x b => min x b.lo.a0) hm.blo.a0,
                bs.foldl (fun x b => min x b.lo.a1) hm.blo.a1,
                bs.foldl (fun x b => min x b.lo.a2) hm.blo.a2⟩
        bhi := ⟨bs.foldl (fun x b => max x b.hi.a0) hm.bhi.a0,
                bs.foldl (fun x b => max x b.hi.a1) hm.bhi.a1,
                bs.foldl (fun x b => max x b.hi.a2) hm.bhi.a2⟩
        maxext := ⟨bs.foldl (fun x b => max x (extent32 b.lo.a0 b.hi.a0)) hm.maxext.a0,
                   bs.foldl (fun x b => max x (extent32 b.lo.a1 b.hi.a1)) hm.maxext.a1,
                   bs.foldl (fun x b => max x (extent32 b.lo.a2 b.hi.a2)) hm.maxext.a2⟩ } := by
  induction bs with
  | nil => intro hm; rfl
  | cons b bs ih =>
    intro hm
    rw [List.foldl_cons, ih]
    simp [updateBounds]

theorem loadedBounds_eq (g : Globals) (bs : List Box) :
    loadedBounds g bs =
      { g.hashmap with
        blo := ⟨bs.foldl (fun x b => min x b.lo.a0) INT_MAX,
                bs.foldl (fun x b => min x b.lo.a1) INT_MAX,
                bs.foldl (fun x b => min x b.lo.a2) INT_MAX⟩
        bhi := ⟨bs.foldl (fun x b => max x b.hi.a0) INT_MIN,
                bs.foldl (fun x b => max x b.hi.a1) INT_MIN,
                bs.foldl (fun x b => max x b.hi.a2) INT_MIN⟩
        maxext := ⟨bs.foldl (fun x b => max x (extent32 b.lo.a0 b.hi.a0)) 1,
                   bs.foldl (fun x b => max x (extent32 b.lo.a1 b.hi.a1)) 1,
                   bs.foldl (fun x b => max x (extent32 b.lo.a2 b.hi.a2)) 1⟩ } := by
  unfold loadedBounds
  rw [foldl_updateBounds]
  rfl

theorem isMinOf_foldl (f : Box → Int) (bs : List Box) (hne : bs ≠ [])
    (hr : ∀ b ∈ bs, f b ≤ INT_MAX) :
    IsMinOf f bs (bs.foldl (fun x b => min x (f b)) INT_MAX) := by
  obtain ⟨h1, h2, h3⟩ := foldl_min_spec f bs INT_MAX
  refine ⟨?_, h2⟩
  rcases h3 with h3 | ⟨b, hb, h3⟩
  · obtain ⟨b, hb⟩ := List.exists_mem_of_ne_nil bs hne
    refine ⟨b, hb, ?_⟩
    have := h2 b hb
    have := hr b hb
    omega
  · exact ⟨b, hb, h3.symm⟩

theorem isMaxOf_foldl (f : Box → Int) (bs : List Box) (hne : bs ≠ [])
    (hr : ∀ b ∈ bs, INT_MIN ≤ f b) :
    IsMaxOf f bs (bs.foldl (fun x b => max x (f b)) INT_MIN) := by
  obtain ⟨h1, h2, h3⟩ := foldl_max_spec f bs INT_MIN
  refine ⟨?_, h2⟩
  rcases h3 with h3 | ⟨b, hb, h3⟩
  · obtain ⟨b, hb⟩ := List.exists_mem_of_ne_nil bs hne
    refine ⟨b, hb, ?_⟩
    have := h2 b hb
    have := hr b hb
    omega
  · exact ⟨b, hb, h3.symm⟩

/-- C10 (counterexample). With the codes `(0,1,2)` registered, the plotfile with the single
grid `(-2000000000,0,0)–(2000000000,3,3)` loads with the no-error status; the greatest `hi[0]`
and the least `lo[0]` of its catalog are `2000000000` and `-2000000000`, so the extent of the
bounding box on axis 0 is `4000000001`, and the reported `dims[0]` is `-294967295`. -/
theorem reported_dims_wide_grid :
    (read_amrex_header (set_error_code initialGlobals 0 1 2) sampleDatasetWide sampleOut).2.err
      = 0 ∧
    (read_amrex_header (set_error_code initialGlobals 0 1 2) sampleDatasetWide sampleOut).1.grids
      = [⟨⟨-2000000000, 0, 0⟩, ⟨2000000000, 3, 3⟩⟩] ∧
    (2000000000 : Int) - (-2000000000) + 1 = 4000000001 ∧
    (read_amrex_header (set_error_code initialGlobals 0 1 2) sampleDatasetWide
      sampleOut).2.dims.a0 = -294967295 ∧
    (read_amrex_header (set_error_code initialGlobals 0 1 2) sampleDatasetWide
      sampleOut).2.dims.a0 ≠ 2000000000 - (-2000000000) + 1 := by
  refine ⟨by decide, by decide, by decide, by decide, by decide⟩

/-- C10 (amended). A call of `read_amrex_header` that passes every check, from any state, on a
catalog with at least one grid whose corner components are 32-bit integers: on each axis `d`,
with `M` the greatest `hi[d]` and `m` the least `lo[d]` over the boxes of the catalog, the
reported `dims[d]` equals `M - m + 1` if and only if `M - m + 1` is representable as a 32-bit
`int`. -/
theorem reported_domain_dims (g : Globals) (ds : Dataset) (out : HeaderOut)
    (hl : ds.loadable = true) (hne : (read_amrex_header g ds out).1.grids ≠ [])
    (hr : ∀ b ∈ (read_amrex_header g ds out).1.grids, b.inInt32) :
    (∃ M m, IsMaxOf (fun b => b.hi.a0) (read_amrex_header g ds out).1.grids M ∧
      IsMinOf (fun b => b.lo.a0) (read_amrex_header g ds out).1.grids m ∧
      ((read_amrex_header g ds out).2.dims.a0 = M - m + 1 ↔ inInt32 (M - m + 1))) ∧
    (∃ M m, IsMaxOf (fun b => b.hi.a1) (read_amrex_header g ds out).1.grids M ∧
      IsMinOf (fun b => b.lo.a1) (read_amrex_header g ds out).1.grids m ∧
      ((read_amrex_header g ds out).2.dims.a1 = M - m + 1 ↔ inInt32 (M - m + 1))) ∧
    (∃ M m, IsMaxOf (fun b => b.hi.a2) (read_amrex_header g ds out).1.grids M ∧
      IsMinOf (fun b => b.lo.a2) (read_amrex_header g ds out).1.grids m ∧
      ((read_amrex_header g ds out).2.dims.a2 = M - m + 1 ↔ inInt32 (M - m + 1))) := by
  obtain ⟨h, c, hh, hc, hlen, hg, herr, hdims, -⟩ := read_amrex_header_loadable g ds out hl
  rw [hg] at hne hr
  have hgr : (loadedGlobals g ds.name c).grids = loadedGrids g c := rfl
  rw [hgr] at hne hr
  rw [hg, hgr, hdims, loadedBounds_eq]
  simp only [extent32_eq_wrap32]
  refine ⟨⟨_, _, isMaxOf_foldl _ _ hne (fun b hb => (hr b hb).2.2.2.1.1),
      isMinOf_foldl _ _ hne (fun b hb => (hr b hb).1.2), wrap32_eq_iff _⟩,
    ⟨_, _, isMaxOf_foldl _ _ hne (fun b hb => (hr b hb).2.2.2.2.1.1),
      isMinOf_foldl _ _ hne (fun b hb => (hr b hb).2.1.2), wrap32_eq_iff _⟩,
    ⟨_, _, isMaxOf_foldl _ _ hne (fun b hb => (hr b hb).2.2.2.2.2.1),
      isMinOf_foldl _ _ hne (fun b hb => (hr b hb).2.2.1.2), wrap32_eq_iff _⟩⟩

/-- Witness of C10 (amended) on the sample plotfile: the two grids span `0..7` on axis 0, and
`8` is representable. -/
theorem reported_domain_dims_witness :
    sampleDataset.loadable = true ∧
    (read_amrex_header initialGlobals sampleDataset sampleOut).1.grids ≠ [] ∧
    (∀ b ∈ (read_amrex_header initialGlobals sampleDataset sampleOut).1.grids, b.inInt32) ∧
    ∃ M m, IsMaxOf (fun b => b.hi.a0)
        (read_amrex_header initialGlobals sampleDataset sampleOut).1.grids M ∧
      IsMinOf (fun b => b.lo.a0)
        (read_amrex_header initialGlobals sampleDataset sampleOut).1.grids m ∧
      ((read_amrex_header initialGlobals sampleDataset sampleOut).2.dims.a0 = M - m + 1 ↔
        inInt32 (M - m + 1)) :=
  ⟨by decide, by decide, by decide,
   (reported_domain_dims initialGlobals sampleDataset sampleOut (by decide) (by decide)
     (by decide)).1⟩

/-- C9 (evaluation). Loading the sample plotfile and then the plotfile with the single grid
`(8,0,0)–(11,3,3)` leaves a state that differs from the state after loading the second plotfile
alone: the bucket `(1,0,0)` filled by the first load is still in the hash index and holds the
index 1, which is not an index of the new one-grid catalog; an extraction of the cell `(0,0,0)`
then indexes `grids` out of bounds. -/
theorem reload_keeps_stale_buckets :
    (read_amrex_header sampleGlobals sampleDatasetC sampleOut).1 ≠
      (read_amrex_header (set_error_code initialGlobals 0 1 2) sampleDatasetC sampleOut).1 ∧
    (read_amrex_header sampleGlobals sampleDatasetC sampleOut).2.err = 0 ∧
    hashFind ⟨1, 0, 0⟩ (read_amrex_header sampleGlobals sampleDatasetC sampleOut).1.hashmap.hash
      = some [1] ∧
    hashFind ⟨1, 0, 0⟩ (read_amrex_header (set_error_code initialGlobals 0 1 2) sampleDatasetC
      sampleOut).1.hashmap.hash = none ∧
    (read_amrex_header sampleGlobals sampleDatasetC sampleOut).1.grids.length = 1 ∧
    (read_amrex_subdomain (read_amrex_header sampleGlobals sampleDatasetC sampleOut).1
      sampleFiles (fun _ => 0) ⟨0, 0, 0⟩ ⟨0, 0, 0⟩).isUndefined = true := by
  refine ⟨by decide, by decide, by decide, by decide, by decide, by decide⟩

/-- C4 (evaluation). With the codes `0`, `1`, `2` registered and no plotfile loaded, the
extraction of the cell `(0,0,0)` does not return the fatal status: `maxext` is still zero and
`coarsen` divides by it.  After a call of `read_amrex_header` that fails with the fatal status
(ghost cells announced), the same extraction returns the no-error status `0`. -/
theorem extraction_before_load_passes_guard :
    (read_amrex_subdomain (set_error_code initialGlobals 0 1 2) sampleFiles (fun _ => 0)
      ⟨0, 0, 0⟩ ⟨0, 0, 0⟩).isUndefined = true ∧
    (read_amrex_header (set_error_code initialGlobals 0 1 2) sampleDatasetGhost sampleOut).2.err
      = 2 ∧
    (read_amrex_subdomain
      (read_amrex_header (set_error_code initialGlobals 0 1 2) sampleDatasetGhost sampleOut).1
      sampleFiles (fun _ => 0) ⟨0, 0, 0⟩ ⟨0, 0, 0⟩).status = some 0 := by
  refine ⟨by decide, by decide, by decide⟩

/-- C6 (evaluation). On the sample plotfile, with the component count of the record of grid A
equal to 2 and its magic and box correct, the extraction of the cell `(0,0,0)` does not return
the fatal status `2`: it ends in the failure of `assert(ncomp == 3)`, after reading the record. -/
theorem bad_component_count_asserts :
    (read_amrex_subdomain sampleGlobals sampleFilesBadNcomp (fun _ => 0) ⟨0, 0, 0⟩
      ⟨0, 0, 0⟩).status = none ∧
    (read_amrex_subdomain sampleGlobals sampleFilesBadNcomp (fun _ => 0) ⟨0, 0, 0⟩
      ⟨0, 0, 0⟩).aborted = true ∧
    (read_amrex_subdomain sampleGlobals sampleFilesBadNcomp (fun _ => 0) ⟨0, 0, 0⟩
      ⟨0, 0, 0⟩).reads = [("plt/Level_0/Cell_D_00000", 0)] := by
  refine ⟨by decide, by decide, by decide⟩

/-! ## The copy loops -/

theorem mem_intRange (lo hi x : Int) : x ∈ intRange lo hi ↔ lo ≤ x ∧ x ≤ hi := by
  unfold intRange
  constructor
  · intro h
    obtain ⟨n, hn, rfl⟩ := List.mem_map.1 h
    rw [List.mem_range] at hn
    omega
  · rintro ⟨h1, h2⟩
    refine List.mem_map.2 ⟨(x - lo).toNat, ?_, ?_⟩
    · rw [List.mem_range]
      omega
    · omega

theorem foldl_flatMap_eq {α β γ : Type} (f : γ → β → γ) (g : α → List β) (l : List α) :
    ∀ c : γ, (l.flatMap g).foldl f c = l.foldl (fun c x => (g x).foldl f c) c := by
  induction l with
  | nil => intro c; rfl
  | cons x xs ih =>
    intro c
    rw [List.flatMap_cons, List.foldl_append, ih, List.foldl_cons]

theorem applyWrites_append (a : Buffer) (w1 w2 : List (Int × Dbl)) :
    applyWrites a (w1 ++ w2) = applyWrites (applyWrites a w1) w2 := by
  unfold applyWrites
  rw [List.foldl_append]

theorem applyWrites_not_mem (ws : List (Int × Dbl)) (x : Int) :
    ∀ a : Buffer, (∀ w ∈ ws, w.1 ≠ x) → applyWrites a ws x = a x := by
  induction ws with
  | nil => intro a _; rfl
  | cons w rest ih =>
    intro a h
    have h1 : applyWrites a (w :: rest) = applyWrites (Function.update a w.1 w.2) rest := rfl
    rw [h1, ih _ (fun w' hw' => h w' (List.mem_cons_of_mem _ hw'))]
    exact Function.update_noteq (Ne.symm (h w (List.mem_cons_self _ _))) _ _

theorem applyWrites_mem (ws : List (Int × Dbl)) (x : Int) (v : Dbl) :
    ∀ a : Buffer, (∃ w ∈ ws, w.1 = x) → (∀ w ∈ ws, w.1 = x → w.2 = v) →
      applyWrites a ws x = v := by
  induction ws with
  | nil => intro a h; obtain ⟨w, hw, -⟩ := h; cases hw
  | cons w rest ih =>
    intro a hex hall
    have h1 : applyWrites a (w :: rest) = applyWrites (Function.update a w.1 w.2) rest := rfl
    rw [h1]
    by_cases hrest : ∃ w' ∈ rest, w'.1 = x
    · exact ih _ hrest (fun w' hw' => hall w' (List.mem_cons_of_mem _ hw'))
    · have hno : ∀ w' ∈ rest, w'.1 ≠ x := fun w' hw' he => hrest ⟨w', hw', he⟩
      rw [applyWrites_not_mem rest x _ hno]
      obtain ⟨w', hw', he⟩ := hex
      rcases List.mem_cons.1 hw' with rfl | hw'
      · rw [← he, Function.update_same]
        exact hall _ (List.mem_cons_self _ _) he
      · exact absurd he (hno w' hw')

theorem copyBox_eq_applyWrites (alo : IntVect) (jstride_a kstride_a : Int) (box : Box)
    (p : Int → Dbl) (ilo ihi : IntVect) (a : Buffer) :
    copyBox alo jstride_a kstride_a box p ilo ihi a =
      applyWrites a (cellWrites alo jstride_a kstride_a box p ilo ihi) := by
  unfold copyBox applyWrites cellWrites
  simp only [foldl_flatMap_eq, List.foldl_cons, List.foldl_nil]

theorem mem_cellWrites (alo : IntVect) (jstride_a kstride_a : Int) (box : Box)
    (p : Int → Dbl) (ilo ihi : IntVect) (w : Int × Dbl) :
    w ∈ cellWrites alo jstride_a kstride_a box p ilo ihi ↔
      ∃ i j k c : Int, (ilo.a0 ≤ i ∧ i ≤ ihi.a0) ∧ (ilo.a1 ≤ j ∧ j ≤ ihi.a1) ∧
        (ilo.a2 ≤ k ∧ k ≤ ihi.a2) ∧ (0 ≤ c ∧ c ≤ 2) ∧
        w = ((i - alo.a0) * 3 + (j - alo.a1) * jstride_a + (k - alo.a2) * kstride_a + c,
             p ((i - box.lo.a0) + (j - box.lo.a1) * (box.hi.a0 - box.lo.a0 + 1) +
               (k - box.lo.a2) * ((box.hi.a0 - box.lo.a0 + 1) * (box.hi.a1 - box.lo.a1 + 1)) +
               box.ncells * c)) := by
  unfold cellWrites Box.ncells
  simp only [List.mem_flatMap, mem_intRange, List.mem_cons, List.mem_singleton,
    List.not_mem_nil, or_false]
  constructor
  · rintro ⟨k, hk, j, hj, i, hi, h | h | h⟩
    · exact ⟨i, j, k, 0, hi, hj, hk, by omega, by rw [h]; simp⟩
    · exact ⟨i, j, k, 1, hi, hj, hk, by omega, by rw [h]; simp⟩
    · exact ⟨i, j, k, 2, hi, hj, hk, by omega, by rw [h]⟩
  · rintro ⟨i, j, k, c, hi, hj, hk, hc, h⟩
    refine ⟨k, hk, j, hj, i, hi, ?_⟩
    have hc' : c = 0 ∨ c = 1 ∨ c = 2 := by omega
    rcases hc' with rfl | rfl | rfl
    · left; rw [h]; simp
    · right; left; rw [h]; simp
    · right; right; rw [h]

/-! ## Processing of the candidates -/

theorem cellWrites_eq_nil (alo : IntVect) (jstride_a kstride_a : Int) (box : Box)
    (p : Int → Dbl) (ilo ihi : IntVect)
    (h : ¬ (ilo.a0 ≤ ihi.a0 ∧ ilo.a1 ≤ ihi.a1 ∧ ilo.a2 ≤ ihi.a2)) :
    cellWrites alo jstride_a kstride_a box p ilo ihi = [] := by
  rw [List.eq_nil_iff_forall_not_mem]
  intro w hw
  rw [mem_cellWrites] at hw
  obtain ⟨i, j, k, c, hi, hj, hk, -, -⟩ := hw
  exact h ⟨by omega, by omega, by omega⟩

theorem validRecord_iff (g : Globals) (fs : FileSystem) (ibox : Nat) :
    validRecord g fs ibox = true ↔
      ∃ grid fod content, g.grids[ibox]? = some grid ∧ g.fods[ibox]? = some fod ∧
        fs fod.file = some content ∧ (content fod.offset).c1 = 'F' ∧
        (content fod.offset).c2 = 'A' ∧ (content fod.offset).c3 = 'B' ∧
        (content fod.offset).box = grid ∧ (content fod.offset).ncomp = 3 := by
  unfold validRecord
  cases hg : g.grids[ibox]? with
  | none => simp
  | some grid =>
    cases hf : g.fods[ibox]? with
    | none => simp
    | some fod =>
      cases hc : fs fod.file with
      | none => simp [hc]
      | some content => simp [hc]

theorem processBox_state (g : Globals) (fs : FileSystem) (alo ahi : IntVect)
    (jstride_a kstride_a : Int) (ibox : Nat) (st st1 : LoopState)
    (h : (processBox g fs alo ahi jstride_a kstride_a ibox st).state = some st1) :
    st1.a = st.a ∨
      st1.a = applyWrites st.a (boxWrites g fs alo ahi jstride_a kstride_a ibox) := by
  unfold processBox at h
  cases hg : g.grids[ibox]? with
  | none => simp [hg, Ctl.state] at h
  | some grid =>
    simp only [hg] at h
    split at h
    · cases hf : g.fods[ibox]? with
      | none => simp [hf, Ctl.state] at h
      | some fod =>
        simp only [hf] at h
        cases hc : fs fod.file with
        | none =>
          simp only [hc, Ctl.state, Option.some.injEq] at h
          left; rw [← h]
        | some content =>
          simp only [hc] at h
          split at h
          · simp only [Ctl.state, Option.some.injEq] at h
            left; rw [← h]
          · split at h
            · simp only [Ctl.state, Option.some.injEq] at h
              left; rw [← h]
            · simp only [Ctl.state, Option.some.injEq] at h
              right
              rw [← h]
              simp only [boxWrites, hg, hf, hc, copyBox_eq_applyWrites, interLo, interHi]
    · simp only [Ctl.state, Option.some.injEq] at h
      left; rw [← h]

theorem processBox_valid (g : Globals) (fs : FileSystem) (alo ahi : IntVect)
    (jstride_a kstride_a : Int) (ibox : Nat) (st : LoopState) (grid : Box)
    (hg : g.grids[ibox]? = some grid)
    (hv : overlaps alo ahi grid → validRecord g fs ibox = true) :
    ∃ st1, processBox g fs alo ahi jstride_a kstride_a ibox st = .next st1 ∧
      st1.a = applyWrites st.a (boxWrites g fs alo ahi jstride_a kstride_a ibox) := by
  by_cases hov : overlaps alo ahi grid
  · obtain ⟨grid', fod, content, hg', hf, hc, h1, h2, h3, hb, hn⟩ :=
      (validRecord_iff g fs ibox).1 (hv hov)
    rw [hg] at hg'
    cases hg'
    have hov' := hov
    unfold overlaps interLo interHi at hov'
    have hp : processBox g fs alo ahi jstride_a kstride_a ibox st =
        .next ⟨copyBox alo jstride_a kstride_a grid (content fod.offset).payload
          (interLo alo grid) (interHi ahi grid) st.a,
          if fod.file ∈ st.ifs_map then st.ifs_map else st.ifs_map ++ [fod.file],
          st.reads ++ [(fod.file, fod.offset)]⟩ := by
      unfold processBox
      simp only [hg, hf, hc, if_pos hov', h1, h2, h3, hb, hn]
      simp [interLo, interHi]
    refine ⟨_, hp, ?_⟩
    simp only [boxWrites, hg, hf, hc, copyBox_eq_applyWrites, interLo, interHi, hb]
  · refine ⟨st, ?_, ?_⟩
    · have hov' := hov
      unfold overlaps interLo interHi at hov'
      unfold processBox
      simp only [hg, if_neg hov']
    · have hnil : boxWrites g fs alo ahi jstride_a kstride_a ibox = [] := by
        unfold boxWrites
        cases hf : g.fods[ibox]? with
        | none => simp [hg]
        | some fod =>
          cases hc : fs fod.file with
          | none => simp [hg, hc]
          | some content =>
            simp only [hg, hc]
            exact cellWrites_eq_nil _ _ _ _ _ _ _ hov
      rw [hnil]; rfl

theorem processBox_defined (g : Globals) (fs : FileSystem) (alo ahi : IntVect)
    (jstride_a kstride_a : Int) (ibox : Nat) (st : LoopState)
    (h1 : ibox < g.grids.length) (h2 : ibox < g.fods.length) :
    ∃ st1, (processBox g fs alo ahi jstride_a kstride_a ibox st).state = some st1 := by
  unfold processBox
  rw [List.getElem?_eq_getElem h1, List.getElem?_eq_getElem h2]
  simp only
  split
  · cases hc : fs g.fods[ibox].file with
    | none => exact ⟨_, rfl⟩
    | some content =>
      simp only
      split
      · exact ⟨_, rfl⟩
      · split
        · exact ⟨_, rfl⟩
        · exact ⟨_, rfl⟩
  · exact ⟨_, rfl⟩

theorem processBoxes_append (g : Globals) (fs : FileSystem) (alo ahi : IntVect)
    (jstride_a kstride_a : Int) (l1 l2 : List Nat) :
    ∀ st st1, processBoxes g fs alo ahi jstride_a kstride_a l1 st = .next st1 →
      processBoxes g fs alo ahi jstride_a kstride_a (l1 ++ l2) st =
        processBoxes g fs alo ahi jstride_a kstride_a l2 st1 := by
  induction l1 with
  | nil =>
    intro st st1 h
    simp only [processBoxes, Ctl.next.injEq] at h
    rw [h]; rfl
  | cons i rest ih =>
    intro st st1 h
    simp only [List.cons_append, processBoxes] at h ⊢
    cases hp : processBox g fs alo ahi jstride_a kstride_a i st with
    | next st2 =>
      rw [hp] at h
      simp only at h ⊢
      exact ih st2 st1 h
    | fatal st2 => rw [hp] at h; simp at h
    | assertFailed st2 => rw [hp] at h; simp at h
    | undefined => rw [hp] at h; simp at h

theorem processBoxes_state (g : Globals) (fs : FileSystem) (alo ahi : IntVect)
    (jstride_a kstride_a : Int) (l : List Nat) :
    ∀ st st1, (processBoxes g fs alo ahi jstride_a kstride_a l st).state = some st1 →
      ∃ ws, st1.a = applyWrites st.a ws ∧
        ∀ w ∈ ws, ∃ ibox ∈ l, w ∈ boxWrites g fs alo ahi jstride_a kstride_a ibox := by
  induction l with
  | nil =>
    intro st st1 h
    simp only [processBoxes, Ctl.state, Option.some.injEq] at h
    exact ⟨[], by rw [← h]; rfl, by simp⟩
  | cons i rest ih =>
    intro st st1 h
    simp only [processBoxes] at h
    cases hp : processBox g fs alo ahi jstride_a kstride_a i st with
    | next st2 =>
      rw [hp] at h
      simp only at h
      obtain ⟨ws, hws, hmem⟩ := ih st2 st1 h
      rcases processBox_state g fs alo ahi jstride_a kstride_a i st st2 (by rw [hp]; rfl) with
        h2 | h2
      · refine ⟨ws, by rw [hws, h2], fun w hw => ?_⟩
        obtain ⟨ibox, hi, hw'⟩ := hmem w hw
        exact ⟨ibox, List.mem_cons_of_mem _ hi, hw'⟩
      · refine ⟨boxWrites g fs alo ahi jstride_a kstride_a i ++ ws,
          by rw [hws, h2, applyWrites_append], fun w hw => ?_⟩
        rcases List.mem_append.1 hw with hw | hw
        · exact ⟨i, List.mem_cons_self _ _, hw⟩
        · obtain ⟨ibox, hi, hw'⟩ := hmem w hw
          exact ⟨ibox, List.mem_cons_of_mem _ hi, hw'⟩
    | fatal st2 =>
      rw [hp] at h
      simp only at h
      rcases processBox_state g fs alo ahi jstride_a kstride_a i st st1 (by rw [hp]; exact h) with
        h2 | h2
      · exact ⟨[], by rw [h2]; rfl, by simp⟩
      · exact ⟨_, h2, fun w hw => ⟨i, List.mem_cons_self _ _, hw⟩⟩
    | assertFailed st2 =>
      rw [hp] at h
      simp only at h
      rcases processBox_state g fs alo ahi jstride_a kstride_a i st st1 (by rw [hp]; exact h) with
        h2 | h2
      · exact ⟨[], by rw [h2]; rfl, by simp⟩
      · exact ⟨_, h2, fun w hw => ⟨i, List.mem_cons_self _ _, hw⟩⟩
    | undefined =>
      rw [hp] at h
      simp [Ctl.state] at h

theorem processBoxes_defined (g : Globals) (fs : FileSystem) (alo ahi : IntVect)
    (jstride_a kstride_a : Int) (l : List Nat)
    (hl : ∀ i ∈ l, i < g.grids.length ∧ i < g.fods.length) :
    ∀ st, ∃ st1, (processBoxes g fs alo ahi jstride_a kstride_a l st).state = some st1 := by
  induction l with
  | nil => intro st; exact ⟨st, rfl⟩
  | cons i rest ih =>
    intro st
    simp only [processBoxes]
    obtain ⟨st2, h2⟩ := processBox_defined g fs alo ahi jstride_a kstride_a i st
      (hl i (List.mem_cons_self _ _)).1 (hl i (List.mem_cons_self _ _)).2
    cases hp : processBox g fs alo ahi jstride_a kstride_a i st with
    | next st3 => exact ih (fun j hj => hl j (List.mem_cons_of_mem _ hj)) st3
    | fatal st3 => exact ⟨st3, rfl⟩
    | assertFailed st3 => exact ⟨st3, rfl⟩
    | undefined => rw [hp] at h2; simp [Ctl.state] at h2

theorem processBoxes_valid (g : Globals) (fs : FileSystem) (alo ahi : IntVect)
    (jstride_a kstride_a : Int) (l : List Nat)
    (hl : ∀ i ∈ l, ∃ grid, g.grids[i]? = some grid ∧
      (overlaps alo ahi grid → validRecord g fs i = true)) :
    ∀ st, ∃ st1, processBoxes g fs alo ahi jstride_a kstride_a l st = .next st1 ∧
      st1.a = applyWrites st.a (l.flatMap (boxWrites g fs alo ahi jstride_a kstride_a)) := by
  induction l with
  | nil => intro st; exact ⟨st, rfl, rfl⟩
  | cons i rest ih =>
    intro st
    obtain ⟨grid, hg, hv⟩ := hl i (List.mem_cons_self _ _)
    obtain ⟨st2, hp, ha⟩ := processBox_valid g fs alo ahi jstride_a kstride_a i st grid hg hv
    obtain ⟨st3, hp3, ha3⟩ := ih (fun j hj => hl j (List.mem_cons_of_mem _ hj)) st2
    refine ⟨st3, ?_, ?_⟩
    · simp only [processBoxes, hp]
      exact hp3
    · rw [ha3, ha, List.flatMap_cons, applyWrites_append]

/-! ## The extraction call -/

theorem read_amrex_subdomain_eq (g : Globals) (fs : FileSystem) (a : Buffer)
    (a_lo a_hi : IntVect) (hcode : 0 ≤ g.error_stat_noerror)
    (hext : g.hashmap.maxext.a0 ≠ 0 ∧ g.hashmap.maxext.a1 ≠ 0 ∧ g.hashmap.maxext.a2 ≠ 0) :
    read_amrex_subdomain g fs a a_lo a_hi =
      match runCandidates g fs a a_lo a_hi with
      | .next st => .returned (if fullyContained g a_lo a_hi then g.error_stat_noerror
                               else g.error_stat_severe) st.a st.reads
      | .fatal st => .returned g.error_stat_fatal st.a st.reads
      | .assertFailed st => .assertFailed st.a st.reads
      | .undefined => .undefined := by
  have h1 : ¬ g.error_stat_noerror < 0 := by omega
  have h2 : ¬ (g.hashmap.maxext.a0 = 0 ∨ g.hashmap.maxext.a1 = 0 ∨ g.hashmap.maxext.a2 = 0) := by
    rintro (h | h | h)
    · exact hext.1 h
    · exact hext.2.1 h
    · exact hext.2.2 h
  unfold read_amrex_subdomain
  simp only [if_neg h1, if_neg h2]
  have h3 : processBoxes g fs
      ⟨wrap32 (a_lo.a0 + g.hashmap.blo.a0), wrap32 (a_lo.a1 + g.hashmap.blo.a1),
       wrap32 (a_lo.a2 + g.hashmap.blo.a2)⟩
      ⟨wrap32 (a_hi.a0 + g.hashmap.blo.a0), wrap32 (a_hi.a1 + g.hashmap.blo.a1),
       wrap32 (a_hi.a2 + g.hashmap.blo.a2)⟩
      (3 * (a_hi.a0 - a_lo.a0 + 1)) (3 * (a_hi.a0 - a_lo.a0 + 1) * (a_hi.a1 - a_lo.a1 + 1))
      (candidates g.hashmap.hash
        ⟨coarsen (max (wrap32 (a_lo.a0 + g.hashmap.blo.a0)) g.hashmap.blo.a0)
           g.hashmap.maxext.a0,
         coarsen (max (wrap32 (a_lo.a1 + g.hashmap.blo.a1)) g.hashmap.blo.a1)
           g.hashmap.maxext.a1,
         coarsen (max (wrap32 (a_lo.a2 + g.hashmap.blo.a2)) g.hashmap.blo.a2)
           g.hashmap.maxext.a2⟩
        ⟨coarsen (min (wrap32 (a_hi.a0 + g.hashmap.blo.a0)) g.hashmap.bhi.a0)
           g.hashmap.maxext.a0,
         coarsen (min (wrap32 (a_hi.a1 + g.hashmap.blo.a1)) g.hashmap.bhi.a1)
           g.hashmap.maxext.a1,
         coarsen (min (wrap32 (a_hi.a2 + g.hashmap.blo.a2)) g.hashmap.bhi.a2)
           g.hashmap.maxext.a2⟩)
      ⟨a, [], []⟩ = runCandidates g fs a a_lo a_hi := rfl
  rw [h3]
  cases runCandidates g fs a a_lo a_hi with
  | next st =>
    simp only
    by_cases hf : fullyContained g a_lo a_hi
    · have hf' := hf
      unfold fullyContained at hf'
      simp [hf, hf'.1, hf'.2.1, hf'.2.2]
    · have hf' := hf
      unfold fullyContained at hf'
      simp only [if_neg hf]
      have : (!(decide (a_lo.a0 < 0 ∨ a_hi.a0 > wrap32 (g.hashmap.bhi.a0 - g.hashmap.blo.a0)) ||
          decide (a_lo.a1 < 0 ∨ a_hi.a1 > wrap32 (g.hashmap.bhi.a1 - g.hashmap.blo.a1)) ||
          decide (a_lo.a2 < 0 ∨ a_hi.a2 > wrap32 (g.hashmap.bhi.a2 - g.hashmap.blo.a2)))) =
          false := by
        simp only [Bool.not_eq_false', Bool.or_eq_true, decide_eq_true_eq]
        by_contra hcon
        apply hf'
        refine ⟨fun h => hcon (Or.inl (Or.inl h)), fun h => hcon (Or.inl (Or.inr h)),
          fun h => hcon (Or.inr h)⟩
      rw [this]
      rfl
  | fatal st => rfl
  | assertFailed st => rfl
  | undefined => rfl

theorem read_amrex_subdomain_guard (g : Globals) (fs : FileSystem) (a : Buffer)
    (a_lo a_hi : IntVect) (hcode : g.error_stat_noerror < 0) :
    read_amrex_subdomain g fs a a_lo a_hi = .returned g.error_stat_fatal a [] := by
  unfold read_amrex_subdomain
  rw [if_pos hcode]

theorem loaded_of_loadable (n s f : Int) (ds : Dataset) (out : HeaderOut)
    (hl : ds.loadable = true) :
    Loaded (read_amrex_header (set_error_code initialGlobals n s f) ds out).1 := by
  obtain ⟨h, c, hh, hc, hlen, hg, -, -, -⟩ :=
    read_amrex_header_loadable (set_error_code initialGlobals n s f) ds out hl
  rw [hg]
  have hb := loadedBounds_eq (set_error_code initialGlobals n s f)
    (loadedGrids (set_error_code initialGlobals n s f) c)
  have e0 := foldl_max_spec (fun b => extent32 b.lo.a0 b.hi.a0)
    (loadedGrids (set_error_code initialGlobals n s f) c) 1
  have e1 := foldl_max_spec (fun b => extent32 b.lo.a1 b.hi.a1)
    (loadedGrids (set_error_code initialGlobals n s f) c) 1
  have e2 := foldl_max_spec (fun b => extent32 b.lo.a2 b.hi.a2)
    (loadedGrids (set_error_code initialGlobals n s f) c) 1
  have l0 := foldl_min_spec (fun b => b.lo.a0)
    (loadedGrids (set_error_code initialGlobals n s f) c) INT_MAX
  have l1 := foldl_min_spec (fun b => b.lo.a1)
    (loadedGrids (set_error_code initialGlobals n s f) c) INT_MAX
  have l2 := foldl_min_spec (fun b => b.lo.a2)
    (loadedGrids (set_error_code initialGlobals n s f) c) INT_MAX
  have u0 := foldl_max_spec (fun b => b.hi.a0)
    (loadedGrids (set_error_code initialGlobals n s f) c) INT_MIN
  have u1 := foldl_max_spec (fun b => b.hi.a1)
    (loadedGrids (set_error_code initialGlobals n s f) c) INT_MIN
  have u2 := foldl_max_spec (fun b => b.hi.a2)
    (loadedGrids (set_error_code initialGlobals n s f) c) INT_MIN
  constructor
  · simp only [loadedGlobals, hb]
    exact ⟨e0.1, e1.1, e2.1⟩
  · simp [loadedGlobals, loadedGrids, readGrids_length, readFods_length, hlen]
  · intro b hb'
    simp only [loadedGlobals, hb]
    exact ⟨l0.2.1 b hb', l1.2.1 b hb', l2.2.1 b hb'⟩
  · intro b hb'
    simp only [loadedGlobals, hb]
    exact ⟨u0.2.1 b hb', u1.2.1 b hb', u2.2.1 b hb'⟩
  · intro b hb'
    simp only [loadedGlobals, hb]
    exact ⟨e0.2.1 b hb', e1.2.1 b hb', e2.2.1 b hb'⟩
  · intro key
    exact loadedGlobals_hashFind n s f ds.name c key

/-! ## The layout of the output array -/

theorem radix_injective (n x y x' y' : Int) (hx : 0 ≤ x ∧ x < n) (hx' : 0 ≤ x' ∧ x' < n)
    (h : x + n * y = x' + n * y') : x = x' ∧ y = y' := by
  have hn : 0 < n := by omega
  have e1 : (x + n * y) % n = x := by
    rw [Int.add_mul_emod_self_left]; exact Int.emod_eq_of_lt hx.1 hx.2
  have e2 : (x' + n * y') % n = x' := by
    rw [Int.add_mul_emod_self_left]; exact Int.emod_eq_of_lt hx'.1 hx'.2
  have hxx : x = x' := by rw [← e1, ← e2, h]
  refine ⟨hxx, ?_⟩
  subst hxx
  have h3 : n * y = n * y' := by omega
  exact mul_left_cancel₀ (ne_of_gt hn) h3

theorem offset_injective (a_lo a_hi : IntVect) (i j k c i' j' k' c' : Int)
    (hi : 0 ≤ i ∧ i ≤ a_hi.a0 - a_lo.a0) (hj : 0 ≤ j ∧ j ≤ a_hi.a1 - a_lo.a1)
    (hc : 0 ≤ c ∧ c ≤ 2)
    (hi' : 0 ≤ i' ∧ i' ≤ a_hi.a0 - a_lo.a0) (hj' : 0 ≤ j' ∧ j' ≤ a_hi.a1 - a_lo.a1)
    (hc' : 0 ≤ c' ∧ c' ≤ 2)
    (h : i * 3 + j * jstrideA a_lo a_hi + k * kstrideA a_lo a_hi + c =
         i' * 3 + j' * jstrideA a_lo a_hi + k' * kstrideA a_lo a_hi + c') :
    i = i' ∧ j = j' ∧ k = k' ∧ c = c' := by
  unfold kstrideA jstrideA at h
  have e : c + 3 * (i + (a_hi.a0 - a_lo.a0 + 1) * (j + (a_hi.a1 - a_lo.a1 + 1) * k)) =
      c' + 3 * (i' + (a_hi.a0 - a_lo.a0 + 1) * (j' + (a_hi.a1 - a_lo.a1 + 1) * k')) := by
    linear_combination h
  obtain ⟨h1, h2⟩ := radix_injective 3 c _ c' _ (by omega) (by omega) e
  obtain ⟨h3, h4⟩ := radix_injective (a_hi.a0 - a_lo.a0 + 1) i _ i' _ (by omega) (by omega) h2
  obtain ⟨h5, h6⟩ := radix_injective (a_hi.a1 - a_lo.a1 + 1) j _ j' _ (by omega) (by omega) h4
  exact ⟨h3, h5, h6, h1⟩

/-! ## The candidate scan -/

theorem coarsen_mono (a b r : Int) (hr : 0 < r) (h : a ≤ b) : coarsen a r ≤ coarsen b r := by
  rw [coarsen_eq_ediv a r hr, coarsen_eq_ediv b r hr]
  exact Int.ediv_le_ediv hr h

theorem coarsen_pred_le (a b r : Int) (hr : 0 < r) (h : a - r ≤ b) :
    coarsen a r - 1 ≤ coarsen b r := by
  rw [coarsen_eq_ediv a r hr, coarsen_eq_ediv b r hr]
  have h1 : (a - r) / r = a / r - 1 := by
    have : a - r = a + r * (-1) := by ring
    rw [this, Int.add_mul_ediv_left a (-1) (ne_of_gt hr)]
    ring
  rw [← h1]
  exact Int.ediv_le_ediv hr h

theorem mem_candidates (hash : List (IntVect × List Nat)) (clo chi key : IntVect)
    (l : List Nat) (x : Nat) (hf : hashFind key hash = some l) (hx : x ∈ l)
    (h0 : clo.a0 - 1 ≤ key.a0 ∧ key.a0 ≤ chi.a0) (h1 : clo.a1 - 1 ≤ key.a1 ∧ key.a1 ≤ chi.a1)
    (h2 : clo.a2 - 1 ≤ key.a2 ∧ key.a2 ≤ chi.a2) : x ∈ candidates hash clo chi := by
  unfold candidates
  simp only [List.mem_flatMap, mem_intRange]
  refine ⟨key.a2, h2, key.a1, h1, key.a0, h0, ?_⟩
  have : (⟨key.a0, key.a1, key.a2⟩ : IntVect) = key := rfl
  rw [this, hf]
  exact hx

theorem candidates_subset (hash : List (IntVect × List Nat)) (clo chi : IntVect) (x : Nat)
    (hx : x ∈ candidates hash clo chi) :
    ∃ key l, hashFind key hash = some l ∧ x ∈ l := by
  unfold candidates at hx
  simp only [List.mem_flatMap, mem_intRange] at hx
  obtain ⟨kk, -, jj, -, ii, -, h⟩ := hx
  cases hf : hashFind ⟨ii, jj, kk⟩ hash with
  | none => rw [hf] at h; simp at h
  | some l => rw [hf] at h; exact ⟨_, l, hf, h⟩

theorem Loaded.candidate_lt {g : Globals} (hg : Loaded g) (clo chi : IntVect) (x : Nat)
    (hx : x ∈ candidates g.hashmap.hash clo chi) :
    x < g.grids.length ∧ x < g.fods.length := by
  obtain ⟨key, l, hf, hxl⟩ := candidates_subset _ _ _ _ hx
  have hb := hg.buckets key
  rw [hf] at hb
  simp only [Option.getD_some] at hb
  rw [hb, mem_bucketOf] at hxl
  obtain ⟨-, b, hb', -⟩ := hxl
  simp only [Nat.sub_zero] at hb'
  have hlt : x < g.grids.length := by
    by_contra hcon
    rw [List.getElem?_eq_none (by omega)] at hb'
    cases hb'
  exact ⟨hlt, by rw [hg.fods_length]; exact hlt⟩

theorem Loaded.bucketKey_in_scan {g : Globals} (hg : Loaded g) (alo ahi : IntVect)
    (grid : Box) (hmem : grid ∈ g.grids) (hfit : grid.extentInInt32)
    (hov : overlaps alo ahi grid) :
    (coarsen (max alo.a0 g.hashmap.blo.a0) g.hashmap.maxext.a0 - 1 ≤
        coarsen grid.lo.a0 g.hashmap.maxext.a0 ∧
      coarsen grid.lo.a0 g.hashmap.maxext.a0 ≤
        coarsen (min ahi.a0 g.hashmap.bhi.a0) g.hashmap.maxext.a0) ∧
    (coarsen (max alo.a1 g.hashmap.blo.a1) g.hashmap.maxext.a1 - 1 ≤
        coarsen grid.lo.a1 g.hashmap.maxext.a1 ∧
      coarsen grid.lo.a1 g.hashmap.maxext.a1 ≤
        coarsen (min ahi.a1 g.hashmap.bhi.a1) g.hashmap.maxext.a1) ∧
    (coarsen (max alo.a2 g.hashmap.blo.a2) g.hashmap.maxext.a2 - 1 ≤
        coarsen grid.lo.a2 g.hashmap.maxext.a2 ∧
      coarsen grid.lo.a2 g.hashmap.maxext.a2 ≤
        coarsen (min ahi.a2 g.hashmap.bhi.a2) g.hashmap.maxext.a2) := by
  obtain ⟨m0, m1, m2⟩ := hg.maxext_pos
  obtain ⟨b0, b1, b2⟩ := hg.blo_le grid hmem
  obtain ⟨u0, u1, u2⟩ := hg.le_bhi grid hmem
  obtain ⟨e0, e1, e2⟩ := hg.extent_le grid hmem
  obtain ⟨f0, f1, f2⟩ := hfit
  rw [extent32_of_inInt32 _ _ f0] at e0
  rw [extent32_of_inInt32 _ _ f1] at e1
  rw [extent32_of_inInt32 _ _ f2] at e2
  obtain ⟨o0, o1, o2⟩ := hov
  simp only [interLo, interHi] at o0 o1 o2
  exact ⟨⟨coarsen_pred_le _ _ _ (by omega) (by omega), coarsen_mono _ _ _ (by omega) (by omega)⟩,
    ⟨coarsen_pred_le _ _ _ (by omega) (by omega), coarsen_mono _ _ _ (by omega) (by omega)⟩,
    ⟨coarsen_pred_le _ _ _ (by omega) (by omega), coarsen_mono _ _ _ (by omega) (by omega)⟩⟩

theorem Loaded.mem_scan {g : Globals} (hg : Loaded g) (alo ahi : IntVect)
    (ibox : Nat) (grid : Box) (hgrid : g.grids[ibox]? = some grid) (hfit : grid.extentInInt32)
    (hov : overlaps alo ahi grid) :
    ibox ∈ candidates g.hashmap.hash
      ⟨coarsen (max alo.a0 g.hashmap.blo.a0) g.hashmap.maxext.a0,
       coarsen (max alo.a1 g.hashmap.blo.a1) g.hashmap.maxext.a1,
       coarsen (max alo.a2 g.hashmap.blo.a2) g.hashmap.maxext.a2⟩
      ⟨coarsen (min ahi.a0 g.hashmap.bhi.a0) g.hashmap.maxext.a0,
       coarsen (min ahi.a1 g.hashmap.bhi.a1) g.hashmap.maxext.a1,
       coarsen (min ahi.a2 g.hashmap.bhi.a2) g.hashmap.maxext.a2⟩ := by
  have hmem : grid ∈ g.grids := List.getElem?_mem hgrid
  obtain ⟨k0, k1, k2⟩ := hg.bucketKey_in_scan alo ahi grid hmem hfit hov
  have hin : ibox ∈ bucketOf g.hashmap.maxext (bucketKey g.hashmap.maxext grid) 0 g.grids := by
    rw [mem_bucketOf]
    exact ⟨Nat.zero_le _, grid, by simpa using hgrid, rfl⟩
  rw [← hg.buckets] at hin
  cases hf : hashFind (bucketKey g.hashmap.maxext grid) g.hashmap.hash with
  | none => rw [hf] at hin; simp at hin
  | some l =>
    rw [hf] at hin
    simp only [Option.getD_some] at hin
    exact mem_candidates _ _ _ (bucketKey g.hashmap.maxext grid) l ibox hf hin k0 k1 k2

theorem Loaded.mem_queryCandidates {g : Globals} (hg : Loaded g) (a_lo a_hi : IntVect)
    (ibox : Nat) (grid : Box) (hgrid : g.grids[ibox]? = some grid) (hfit : grid.extentInInt32)
    (hov : overlaps (toAbsolute g a_lo) (toAbsolute g a_hi) grid) :
    ibox ∈ queryCandidates g a_lo a_hi :=
  hg.mem_scan (toAbsolute g a_lo) (toAbsolute g a_hi) ibox grid hgrid hfit hov

/-! ## Frame and fill of the output array -/

theorem mem_boxWrites (g : Globals) (fs : FileSystem) (alo ahi : IntVect)
    (jstride_a kstride_a : Int) (ibox : Nat) (w : Int × Dbl) :
    w ∈ boxWrites g fs alo ahi jstride_a kstride_a ibox ↔
      ∃ grid fod content, g.grids[ibox]? = some grid ∧ g.fods[ibox]? = some fod ∧
        fs fod.file = some content ∧
        ∃ i j k c : Int,
          ((interLo alo grid).a0 ≤ i ∧ i ≤ (interHi ahi grid).a0) ∧
          ((interLo alo grid).a1 ≤ j ∧ j ≤ (interHi ahi grid).a1) ∧
          ((interLo alo grid).a2 ≤ k ∧ k ≤ (interHi ahi grid).a2) ∧ (0 ≤ c ∧ c ≤ 2) ∧
          w = ((i - alo.a0) * 3 + (j - alo.a1) * jstride_a + (k - alo.a2) * kstride_a + c,
               (content fod.offset).payload
                 ((i - (content fod.offset).box.lo.a0) +
                  (j - (content fod.offset).box.lo.a1) *
                    ((content fod.offset).box.hi.a0 - (content fod.offset).box.lo.a0 + 1) +
                  (k - (content fod.offset).box.lo.a2) *
                    (((content fod.offset).box.hi.a0 - (content fod.offset).box.lo.a0 + 1) *
                     ((content fod.offset).box.hi.a1 - (content fod.offset).box.lo.a1 + 1)) +
                  (content fod.offset).box.ncells * c)) := by
  unfold boxWrites
  cases hg : g.grids[ibox]? with
  | none => simp
  | some grid =>
    cases hf : g.fods[ibox]? with
    | none => simp
    | some fod =>
      cases hc : fs fod.file with
      | none => simp [hc]
      | some content =>
        simp only [hc, mem_cellWrites]
        constructor
        · rintro ⟨i, j, k, c, h⟩
          exact ⟨grid, fod, content, rfl, rfl, hc, i, j, k, c, h⟩
        · rintro ⟨grid', fod', content', h1, h2, h3, i, j, k, c, h⟩
          cases h1
          cases h2
          rw [hc] at h3
          cases h3
          exact ⟨i, j, k, c, h⟩

theorem interval_of_inter (alo ahi : IntVect) (grid : Box) (i j k : Int)
    (hi : (interLo alo grid).a0 ≤ i ∧ i ≤ (interHi ahi grid).a0)
    (hj : (interLo alo grid).a1 ≤ j ∧ j ≤ (interHi ahi grid).a1)
    (hk : (interLo alo grid).a2 ≤ k ∧ k ≤ (interHi ahi grid).a2) :
    grid.contains i j k ∧ (alo.a0 ≤ i ∧ i ≤ ahi.a0) ∧ (alo.a1 ≤ j ∧ j ≤ ahi.a1) ∧
      (alo.a2 ≤ k ∧ k ≤ ahi.a2) := by
  simp only [interLo, interHi] at hi hj hk
  unfold Box.contains
  omega

theorem inter_of_interval (alo ahi : IntVect) (grid : Box) (i j k : Int)
    (hc : grid.contains i j k) (hi : alo.a0 ≤ i ∧ i ≤ ahi.a0) (hj : alo.a1 ≤ j ∧ j ≤ ahi.a1)
    (hk : alo.a2 ≤ k ∧ k ≤ ahi.a2) :
    ((interLo alo grid).a0 ≤ i ∧ i ≤ (interHi ahi grid).a0) ∧
    ((interLo alo grid).a1 ≤ j ∧ j ≤ (interHi ahi grid).a1) ∧
    ((interLo alo grid).a2 ≤ k ∧ k ≤ (interHi ahi grid).a2) := by
  simp only [interLo, interHi]
  unfold Box.contains at hc
  omega

theorem toAbsolute_of_inInt32 (g : Globals) (v : IntVect) (h : absoluteInInt32 g v) :
    toAbsolute g v = ⟨v.a0 + g.hashmap.blo.a0, v.a1 + g.hashmap.blo.a1,
      v.a2 + g.hashmap.blo.a2⟩ := by
  obtain ⟨h0, h1, h2⟩ := h
  simp only [toAbsolute, (wrap32_eq_iff _).2 h0, (wrap32_eq_iff _).2 h1, (wrap32_eq_iff _).2 h2]

theorem toAbsolute_span (g : Globals) (a_lo a_hi : IntVect)
    (hq : a_lo.a0 ≤ a_hi.a0 ∧ a_lo.a1 ≤ a_hi.a1) :
    (toAbsolute g a_hi).a0 - (toAbsolute g a_lo).a0 ≤ a_hi.a0 - a_lo.a0 ∧
    (toAbsolute g a_hi).a1 - (toAbsolute g a_lo).a1 ≤ a_hi.a1 - a_lo.a1 :=
  ⟨wrap32_span _ _ _ hq.1, wrap32_span _ _ _ hq.2⟩

theorem local_offset_eq (a_lo a_hi : IntVect) (i j k c : Int) :
    3 * ((i - a_lo.a0) + (j - a_lo.a1) * (a_hi.a0 - a_lo.a0 + 1) +
        (k - a_lo.a2) * (a_hi.a0 - a_lo.a0 + 1) * (a_hi.a1 - a_lo.a1 + 1)) + c =
      (i - a_lo.a0) * 3 + (j - a_lo.a1) * jstrideA a_lo a_hi +
        (k - a_lo.a2) * kstrideA a_lo a_hi + c := by
  simp only [jstrideA, kstrideA]
  ring

theorem frame_core (g : Globals) (fs : FileSystem) (a : Buffer) (a_lo a_hi : IntVect)
    (st1 : LoopState) (h : (runCandidates g fs a a_lo a_hi).state = some st1)
    (hlo : absoluteInInt32 g a_lo) (i j k c : Int)
    (hi : a_lo.a0 ≤ i ∧ i ≤ a_hi.a0) (hj : a_lo.a1 ≤ j ∧ j ≤ a_hi.a1)
    (hc : 0 ≤ c ∧ c ≤ 2)
    (hno : ∀ b ∈ g.grids, ¬ b.contains (i + g.hashmap.blo.a0) (j + g.hashmap.blo.a1)
      (k + g.hashmap.blo.a2)) :
    st1.a ((i - a_lo.a0) * 3 + (j - a_lo.a1) * jstrideA a_lo a_hi +
        (k - a_lo.a2) * kstrideA a_lo a_hi + c) =
      a ((i - a_lo.a0) * 3 + (j - a_lo.a1) * jstrideA a_lo a_hi +
        (k - a_lo.a2) * kstrideA a_lo a_hi + c) := by
  obtain ⟨ws, hws, hmem⟩ := processBoxes_state _ _ _ _ _ _ _ _ _ h
  rw [hws]
  apply applyWrites_not_mem
  intro w hw heq
  obtain ⟨ibox, -, hwb⟩ := hmem w hw
  rw [mem_boxWrites] at hwb
  obtain ⟨grid, fod, content, hg, hf, hfile, x, y, z, c', hx, hy, hz, hc', rfl⟩ := hwb
  obtain ⟨hcont, hx', hy', hz'⟩ := interval_of_inter _ _ _ _ _ _ hx hy hz
  obtain ⟨s0, s1⟩ := toAbsolute_span g a_lo a_hi ⟨by omega, by omega⟩
  obtain ⟨e1, e2, e3, e4⟩ := offset_injective a_lo a_hi _ _ _ _ _ _ _ _
    (by omega) (by omega) hc' (by omega) (by omega) hc heq
  rw [toAbsolute_of_inInt32 g a_lo hlo] at e1 e2 e3
  simp only at e1 e2 e3
  have ex : x = i + g.hashmap.blo.a0 := by omega
  have ey : y = j + g.hashmap.blo.a1 := by omega
  have ez : z = k + g.hashmap.blo.a2 := by omega
  subst ex ey ez
  exact hno grid (List.getElem?_mem hg) hcont

theorem payload_offset_eq (grid : Box) (x y z c : Int) :
    c * grid.ncells + (x - grid.lo.a0) + (y - grid.lo.a1) * (grid.hi.a0 - grid.lo.a0 + 1) +
        (z - grid.lo.a2) * (grid.hi.a0 - grid.lo.a0 + 1) * (grid.hi.a1 - grid.lo.a1 + 1) =
      (x - grid.lo.a0) + (y - grid.lo.a1) * (grid.hi.a0 - grid.lo.a0 + 1) +
        (z - grid.lo.a2) * ((grid.hi.a0 - grid.lo.a0 + 1) * (grid.hi.a1 - grid.lo.a1 + 1)) +
        grid.ncells * c := by
  ring

theorem Loaded.runCandidates_state {g : Globals} (hg : Loaded g) (fs : FileSystem) (a : Buffer)
    (a_lo a_hi : IntVect) : ∃ st1, (runCandidates g fs a a_lo a_hi).state = some st1 :=
  processBoxes_defined g fs _ _ _ _ _ (fun i hi => hg.candidate_lt _ _ i hi) _

theorem Loaded.maxext_ne {g : Globals} (hg : Loaded g) :
    g.hashmap.maxext.a0 ≠ 0 ∧ g.hashmap.maxext.a1 ≠ 0 ∧ g.hashmap.maxext.a2 ≠ 0 := by
  obtain ⟨h0, h1, h2⟩ := hg.maxext_pos
  exact ⟨by omega, by omega, by omega⟩

theorem codes_of_loaded (n s f : Int) (ds : Dataset) (out : HeaderOut)
    (hl : ds.loadable = true) :
    (read_amrex_header (set_error_code initialGlobals n s f) ds out).1.error_stat_noerror = n ∧
    (read_amrex_header (set_error_code initialGlobals n s f) ds out).1.error_stat_severe = s ∧
    (read_amrex_header (set_error_code initialGlobals n s f) ds out).1.error_stat_fatal = f := by
  obtain ⟨h, c, hh, hc, hlen, hg, -, -, -⟩ :=
    read_amrex_header_loadable (set_error_code initialGlobals n s f) ds out hl
  rw [hg]
  exact ⟨rfl, rfl, rfl⟩

theorem applyWrites_last (ws : List (Int × Dbl)) (x : Int) :
    ∀ a : Buffer, (∃ w ∈ ws, w.1 = x) → ∃ w ∈ ws, w.1 = x ∧ applyWrites a ws x = w.2 := by
  induction ws with
  | nil => intro a h; obtain ⟨w, hw, -⟩ := h; cases hw
  | cons w rest ih =>
    intro a hex
    have h1 : applyWrites a (w :: rest) = applyWrites (Function.update a w.1 w.2) rest := rfl
    rw [h1]
    by_cases hrest : ∃ w' ∈ rest, w'.1 = x
    · obtain ⟨w', hw', he, hv⟩ := ih (Function.update a w.1 w.2) hrest
      exact ⟨w', List.mem_cons_of_mem _ hw', he, hv⟩
    · have hno : ∀ w' ∈ rest, w'.1 ≠ x := fun w' hw' he => hrest ⟨w', hw', he⟩
      rw [applyWrites_not_mem rest x _ hno]
      obtain ⟨w', hw', he⟩ := hex
      rcases List.mem_cons.1 hw' with rfl | hw'
      · refine ⟨w', List.mem_cons_self _ _, he, ?_⟩
        rw [← he, Function.update_same]
      · exact absurd he (hno w' hw')

theorem Loaded.run_valid {g : Globals} (hg : Loaded g) (fs : FileSystem) (a : Buffer)
    (a_lo a_hi : IntVect)
    (hvalid : ∀ ibox grid, g.grids[ibox]? = some grid →
      overlaps (toAbsolute g a_lo) (toAbsolute g a_hi) grid → validRecord g fs ibox = true) :
    ∃ st1, runCandidates g fs a a_lo a_hi = .next st1 ∧
      st1.a = applyWrites a ((queryCandidates g a_lo a_hi).flatMap
        (boxWrites g fs (toAbsolute g a_lo) (toAbsolute g a_hi) (jstrideA a_lo a_hi)
          (kstrideA a_lo a_hi))) := by
  have hcand : ∀ i ∈ queryCandidates g a_lo a_hi, ∃ grid, g.grids[i]? = some grid ∧
      (overlaps (toAbsolute g a_lo) (toAbsolute g a_hi) grid → validRecord g fs i = true) := by
    intro i hi
    have hlt := (hg.candidate_lt _ _ i hi).1
    exact ⟨g.grids[i], List.getElem?_eq_getElem hlt,
      hvalid i _ (List.getElem?_eq_getElem hlt)⟩
  exact processBoxes_valid g fs (toAbsolute g a_lo) (toAbsolute g a_hi)
    (jstrideA a_lo a_hi) (kstrideA a_lo a_hi) (queryCandidates g a_lo a_hi) hcand ⟨a, [], []⟩

theorem fill_core {g : Globals} (hg : Loaded g) (fs : FileSystem) (a : Buffer)
    (a_lo a_hi : IntVect) (hq : a_lo.a0 ≤ a_hi.a0 ∧ a_lo.a1 ≤ a_hi.a1)
    (hdisj : PairwiseDisjoint g.grids)
    (hvalid : ∀ ibox grid, g.grids[ibox]? = some grid →
      overlaps (toAbsolute g a_lo) (toAbsolute g a_hi) grid → validRecord g fs ibox = true)
    (st1 : LoopState)
    (hbuf : st1.a = applyWrites a ((queryCandidates g a_lo a_hi).flatMap
        (boxWrites g fs (toAbsolute g a_lo) (toAbsolute g a_hi) (jstrideA a_lo a_hi)
          (kstrideA a_lo a_hi))))
    (ibox : Nat) (grid : Box) (fod : FOD) (content : Nat → FabRecord)
    (hgrid : g.grids[ibox]? = some grid) (hfod : g.fods[ibox]? = some fod)
    (hfile : fs fod.file = some content) (hfit : grid.extentInInt32) (x y z c : Int)
    (hx : (toAbsolute g a_lo).a0 ≤ x ∧ x ≤ (toAbsolute g a_hi).a0)
    (hy : (toAbsolute g a_lo).a1 ≤ y ∧ y ≤ (toAbsolute g a_hi).a1)
    (hz : (toAbsolute g a_lo).a2 ≤ z ∧ z ≤ (toAbsolute g a_hi).a2)
    (hcont : grid.contains x y z) (hc : 0 ≤ c ∧ c ≤ 2) :
    st1.a ((x - (toAbsolute g a_lo).a0) * 3 +
        (y - (toAbsolute g a_lo).a1) * jstrideA a_lo a_hi +
        (z - (toAbsolute g a_lo).a2) * kstrideA a_lo a_hi + c) =
      (content fod.offset).payload
        ((x - grid.lo.a0) + (y - grid.lo.a1) * (grid.hi.a0 - grid.lo.a0 + 1) +
          (z - grid.lo.a2) *
            ((grid.hi.a0 - grid.lo.a0 + 1) * (grid.hi.a1 - grid.lo.a1 + 1)) +
          grid.ncells * c) := by
  have hov : overlaps (toAbsolute g a_lo) (toAbsolute g a_hi) grid := by
    obtain ⟨h0, h1, h2⟩ := inter_of_interval _ _ _ _ _ _ hcont hx hy hz
    exact ⟨by omega, by omega, by omega⟩
  have hbox : (content fod.offset).box = grid := by
    obtain ⟨grid', fod', content', h1, h2, h3, -, -, -, hb, -⟩ :=
      (validRecord_iff g fs ibox).1 (hvalid ibox grid hgrid hov)
    rw [hgrid] at h1; cases h1
    rw [hfod] at h2; cases h2
    rw [hfile] at h3; cases h3
    exact hb
  rw [hbuf]
  apply applyWrites_mem
  · refine ⟨((x - (toAbsolute g a_lo).a0) * 3 +
        (y - (toAbsolute g a_lo).a1) * jstrideA a_lo a_hi +
        (z - (toAbsolute g a_lo).a2) * kstrideA a_lo a_hi + c,
      (content fod.offset).payload
        ((x - grid.lo.a0) + (y - grid.lo.a1) * (grid.hi.a0 - grid.lo.a0 + 1) +
          (z - grid.lo.a2) * ((grid.hi.a0 - grid.lo.a0 + 1) * (grid.hi.a1 - grid.lo.a1 + 1)) +
          grid.ncells * c)), ?_, rfl⟩
    rw [List.mem_flatMap]
    refine ⟨ibox, hg.mem_queryCandidates a_lo a_hi ibox grid hgrid hfit hov, ?_⟩
    rw [mem_boxWrites]
    obtain ⟨h0, h1, h2⟩ := inter_of_interval _ _ _ _ _ _ hcont hx hy hz
    refine ⟨grid, fod, content, hgrid, hfod, hfile, x, y, z, c, h0, h1, h2, hc, ?_⟩
    rw [hbox]
  · intro w hw heq
    rw [List.mem_flatMap] at hw
    obtain ⟨ibox', -, hwb⟩ := hw
    rw [mem_boxWrites] at hwb
    obtain ⟨grid', fod', content', hgrid', hfod', hfile', i, j, k, c', hi, hj, hk, hc', rfl⟩ := hwb
    obtain ⟨hcont', hi', hj', hk'⟩ := interval_of_inter _ _ _ _ _ _ hi hj hk
    obtain ⟨s0, s1⟩ := toAbsolute_span g a_lo a_hi hq
    obtain ⟨e1, e2, e3, e4⟩ := offset_injective a_lo a_hi _ _ _ _ _ _ _ _
      (by omega) (by omega) hc' (by omega) (by omega) hc heq
    have ex : i = x := by omega
    have ey : j = y := by omega
    have ez : k = z := by omega
    subst ex ey ez e4
    have hsame : ibox' = ibox := by
      by_contra hne
      exact hdisj ibox' ibox grid' grid hgrid' hgrid hne i j k ⟨hcont', hcont⟩
    subst hsame
    rw [hgrid] at hgrid'; cases hgrid'
    rw [hfod] at hfod'; cases hfod'
    rw [hfile] at hfile'; cases hfile'
    simp only [hbox]

theorem fill_some_grid {g : Globals} (hg : Loaded g) (fs : FileSystem) (a : Buffer)
    (a_lo a_hi : IntVect) (hq : a_lo.a0 ≤ a_hi.a0 ∧ a_lo.a1 ≤ a_hi.a1)
    (hvalid : ∀ ibox grid, g.grids[ibox]? = some grid →
      overlaps (toAbsolute g a_lo) (toAbsolute g a_hi) grid → validRecord g fs ibox = true)
    (st1 : LoopState)
    (hbuf : st1.a = applyWrites a ((queryCandidates g a_lo a_hi).flatMap
        (boxWrites g fs (toAbsolute g a_lo) (toAbsolute g a_hi) (jstrideA a_lo a_hi)
          (kstrideA a_lo a_hi))))
    (x y z c : Int)
    (hx : (toAbsolute g a_lo).a0 ≤ x ∧ x ≤ (toAbsolute g a_hi).a0)
    (hy : (toAbsolute g a_lo).a1 ≤ y ∧ y ≤ (toAbsolute g a_hi).a1)
    (hz : (toAbsolute g a_lo).a2 ≤ z ∧ z ≤ (toAbsolute g a_hi).a2)
    (hex : ∃ b ∈ g.grids, b.extentInInt32 ∧ b.contains x y z) (hc : 0 ≤ c ∧ c ≤ 2) :
    ∃ (ibox : Nat) (grid : Box) (fod : FOD) (content : Nat → FabRecord),
      g.grids[ibox]? = some grid ∧ g.fods[ibox]? = some fod ∧ fs fod.file = some content ∧
      grid.contains x y z ∧
      st1.a ((x - (toAbsolute g a_lo).a0) * 3 +
          (y - (toAbsolute g a_lo).a1) * jstrideA a_lo a_hi +
          (z - (toAbsolute g a_lo).a2) * kstrideA a_lo a_hi + c) =
        (content fod.offset).payload
          ((x - grid.lo.a0) + (y - grid.lo.a1) * (grid.hi.a0 - grid.lo.a0 + 1) +
            (z - grid.lo.a2) *
              ((grid.hi.a0 - grid.lo.a0 + 1) * (grid.hi.a1 - grid.lo.a1 + 1)) +
            grid.ncells * c) := by
  obtain ⟨b, hb, hfit, hcont⟩ := hex
  obtain ⟨ibox, hgrid⟩ := List.mem_iff_getElem?.1 hb
  have hov : overlaps (toAbsolute g a_lo) (toAbsolute g a_hi) b := by
    obtain ⟨h0, h1, h2⟩ := inter_of_interval _ _ _ _ _ _ hcont hx hy hz
    exact ⟨by omega, by omega, by omega⟩
  obtain ⟨grid0, fod0, content0, h1, hfod0, hfile0, -, -, -, hb0, -⟩ :=
    (validRecord_iff g fs ibox).1 (hvalid ibox b hgrid hov)
  have hexw : ∃ w ∈ (queryCandidates g a_lo a_hi).flatMap
      (boxWrites g fs (toAbsolute g a_lo) (toAbsolute g a_hi) (jstrideA a_lo a_hi)
        (kstrideA a_lo a_hi)),
      w.1 = (x - (toAbsolute g a_lo).a0) * 3 +
        (y - (toAbsolute g a_lo).a1) * jstrideA a_lo a_hi +
        (z - (toAbsolute g a_lo).a2) * kstrideA a_lo a_hi + c := by
    refine ⟨((x - (toAbsolute g a_lo).a0) * 3 +
        (y - (toAbsolute g a_lo).a1) * jstrideA a_lo a_hi +
        (z - (toAbsolute g a_lo).a2) * kstrideA a_lo a_hi + c,
      (content0 fod0.offset).payload
        ((x - (content0 fod0.offset).box.lo.a0) +
          (y - (content0 fod0.offset).box.lo.a1) *
            ((content0 fod0.offset).box.hi.a0 - (content0 fod0.offset).box.lo.a0 + 1) +
          (z - (content0 fod0.offset).box.lo.a2) *
            (((content0 fod0.offset).box.hi.a0 - (content0 fod0.offset).box.lo.a0 + 1) *
             ((content0 fod0.offset).box.hi.a1 - (content0 fod0.offset).box.lo.a1 + 1)) +
          (content0 fod0.offset).box.ncells * c)), ?_, rfl⟩
    rw [List.mem_flatMap]
    refine ⟨ibox, hg.mem_queryCandidates a_lo a_hi ibox b hgrid hfit hov, ?_⟩
    rw [mem_boxWrites]
    obtain ⟨h0, h1', h2⟩ := inter_of_interval _ _ _ _ _ _ hcont hx hy hz
    exact ⟨b, fod0, content0, hgrid, hfod0, hfile0, x, y, z, c, h0, h1', h2, hc, rfl⟩
  obtain ⟨w, hw, heq, hval⟩ := applyWrites_last _ _ a hexw
  rw [List.mem_flatMap] at hw
  obtain ⟨ibox', -, hwb⟩ := hw
  rw [mem_boxWrites] at hwb
  obtain ⟨grid', fod', content', hgrid', hfod', hfile', i, j, k, c', hi, hj, hk, hc', rfl⟩ := hwb
  obtain ⟨hcont', hi', hj', hk'⟩ := interval_of_inter _ _ _ _ _ _ hi hj hk
  have hov' : overlaps (toAbsolute g a_lo) (toAbsolute g a_hi) grid' :=
    ⟨by omega, by omega, by omega⟩
  have hbox' : (content' fod'.offset).box = grid' := by
    obtain ⟨grid2, fod2, content2, e1, e2, e3, -, -, -, hb2, -⟩ :=
      (validRecord_iff g fs ibox').1 (hvalid ibox' grid' hgrid' hov')
    rw [hgrid'] at e1; cases e1
    rw [hfod'] at e2; cases e2
    rw [hfile'] at e3; cases e3
    exact hb2
  obtain ⟨s0, s1⟩ := toAbsolute_span g a_lo a_hi hq
  simp only at heq
  obtain ⟨e1, e2, e3, e4⟩ := offset_injective a_lo a_hi _ _ _ _ _ _ _ _
    (by omega) (by omega) hc' (by omega) (by omega) hc heq
  have ex : i = x := by omega
  have ey : j = y := by omega
  have ez : k = z := by omega
  subst ex ey ez e4
  refine ⟨ibox', grid', fod', content', hgrid', hfod', hfile', hcont', ?_⟩
  change applyWrites a _ _ = _ at hval
  rw [hbuf]
  simp only [hbox'] at hval ⊢
  exact hval

theorem extraction_core (n s f : Int) (ds : Dataset) (out : HeaderOut) (fs : FileSystem)
    (a : Buffer) (a_lo a_hi : IntVect) (g : Globals)
    (hg : g = (read_amrex_header (set_error_code initialGlobals n s f) ds out).1)
    (hl : ds.loadable = true) (hcode : 0 ≤ n)
    (hfit : ∀ b ∈ g.grids, b.extentInInt32)
    (hvalid : ∀ ibox grid, g.grids[ibox]? = some grid →
      overlaps (toAbsolute g a_lo) (toAbsolute g a_hi) grid → validRecord g fs ibox = true) :
    ∃ a' reads, read_amrex_subdomain g fs a a_lo a_hi =
        .returned (if fullyContained g a_lo a_hi then n else s) a' reads ∧
      (absoluteInInt32 g a_lo → absoluteInInt32 g a_hi →
        (∀ i j k c : Int, (a_lo.a0 ≤ i ∧ i ≤ a_hi.a0) → (a_lo.a1 ≤ j ∧ j ≤ a_hi.a1) →
          (a_lo.a2 ≤ k ∧ k ≤ a_hi.a2) →
          (∃ b ∈ g.grids, b.contains (i + g.hashmap.blo.a0) (j + g.hashmap.blo.a1) (k + g.hashmap.blo.a2)) →
          (0 ≤ c ∧ c ≤ 2) →
          ∃ (ibox : Nat) (grid : Box) (fod : FOD) (content : Nat → FabRecord),
            g.grids[ibox]? = some grid ∧ g.fods[ibox]? = some fod ∧
            fs fod.file = some content ∧ grid.contains (i + g.hashmap.blo.a0) (j + g.hashmap.blo.a1) (k + g.hashmap.blo.a2) ∧
            a' (3 * ((i - a_lo.a0) + (j - a_lo.a1) * (a_hi.a0 - a_lo.a0 + 1) +
              (k - a_lo.a2) * (a_hi.a0 - a_lo.a0 + 1) * (a_hi.a1 - a_lo.a1 + 1)) + c) =
              (content fod.offset).payload
                (c * grid.ncells + (i + g.hashmap.blo.a0 - grid.lo.a0) +
                (j + g.hashmap.blo.a1 - grid.lo.a1) * (grid.hi.a0 - grid.lo.a0 + 1) +
                (k + g.hashmap.blo.a2 - grid.lo.a2) * (grid.hi.a0 - grid.lo.a0 + 1) *
                  (grid.hi.a1 - grid.lo.a1 + 1))) ∧
        (PairwiseDisjoint g.grids →
        ∀ (ibox : Nat) (grid : Box) (fod : FOD) (content : Nat → FabRecord),
          g.grids[ibox]? = some grid → g.fods[ibox]? = some fod → fs fod.file = some content →
          ∀ i j k c : Int, (a_lo.a0 ≤ i ∧ i ≤ a_hi.a0) → (a_lo.a1 ≤ j ∧ j ≤ a_hi.a1) →
          (a_lo.a2 ≤ k ∧ k ≤ a_hi.a2) →
            grid.contains (i + g.hashmap.blo.a0) (j + g.hashmap.blo.a1) (k + g.hashmap.blo.a2) →
            (0 ≤ c ∧ c ≤ 2) →
            a' (3 * ((i - a_lo.a0) + (j - a_lo.a1) * (a_hi.a0 - a_lo.a0 + 1) +
              (k - a_lo.a2) * (a_hi.a0 - a_lo.a0 + 1) * (a_hi.a1 - a_lo.a1 + 1)) + c) =
              (content fod.offset).payload
                (c * grid.ncells + (i + g.hashmap.blo.a0 - grid.lo.a0) +
                (j + g.hashmap.blo.a1 - grid.lo.a1) * (grid.hi.a0 - grid.lo.a0 + 1) +
                (k + g.hashmap.blo.a2 - grid.lo.a2) * (grid.hi.a0 - grid.lo.a0 + 1) *
                  (grid.hi.a1 - grid.lo.a1 + 1)))) := by
  have hL : Loaded g := by rw [hg]; exact loaded_of_loadable n s f ds out hl
  obtain ⟨hn, hs, -⟩ := codes_of_loaded n s f ds out hl
  rw [← hg] at hn hs
  obtain ⟨st1, hrun, hbuf⟩ := hL.run_valid fs a a_lo a_hi hvalid
  refine ⟨st1.a, st1.reads, ?_, ?_⟩
  · rw [read_amrex_subdomain_eq g fs a a_lo a_hi (by omega) hL.maxext_ne, hrun, hn, hs]
  · intro hlo hhi
    have elo := toAbsolute_of_inInt32 g a_lo hlo
    have ehi := toAbsolute_of_inInt32 g a_hi hhi
    refine ⟨?_, ?_⟩
    · intro i j k c hi hj hk hex hc
      obtain ⟨b, hb, hcont⟩ := hex
      obtain ⟨ibox, grid, fod, content, h1, h2, h3, h4, h5⟩ :=
        fill_some_grid hL fs a a_lo a_hi ⟨by omega, by omega⟩ hvalid st1 hbuf
          (i + g.hashmap.blo.a0) (j + g.hashmap.blo.a1) (k + g.hashmap.blo.a2) c
          (by rw [elo, ehi]; simp only; omega) (by rw [elo, ehi]; simp only; omega)
          (by rw [elo, ehi]; simp only; omega) ⟨b, hb, hfit b hb, hcont⟩ hc
      refine ⟨ibox, grid, fod, content, h1, h2, h3, h4, ?_⟩
      rw [local_offset_eq a_lo a_hi i j k c, payload_offset_eq]
      rw [elo] at h5
      simp only [add_sub_add_right_eq_sub] at h5
      exact h5
    · intro hdisj ibox grid fod content hgrid hfod hfile i j k c hi hj hk hcont hc
      have h5 := fill_core hL fs a a_lo a_hi ⟨by omega, by omega⟩ hdisj hvalid st1 hbuf
        ibox grid fod content hgrid hfod hfile (hfit grid (List.getElem?_mem hgrid))
        (i + g.hashmap.blo.a0) (j + g.hashmap.blo.a1) (k + g.hashmap.blo.a2) c
        (by rw [elo, ehi]; simp only; omega) (by rw [elo, ehi]; simp only; omega)
        (by rw [elo, ehi]; simp only; omega) hcont hc
      rw [local_offset_eq a_lo a_hi i j k c, payload_offset_eq]
      rw [elo] at h5
      simp only [add_sub_add_right_eq_sub] at h5
      exact h5

theorem pairwiseDisjoint_singleton (b : Box) : PairwiseDisjoint [b] := by
  intro i j b1 b2 h1 h2 hne
  rcases i with _ | i <;> rcases j with _ | j <;> simp at h1 h2 hne

theorem sampleGlobals_disjoint : PairwiseDisjoint sampleGlobals.grids := by
  have hgr : sampleGlobals.grids = [sampleBoxA, sampleBoxB] := by decide
  rw [hgr]
  intro i j b1 b2 h1 h2 hne x y z hc
  obtain ⟨c1, c2⟩ := hc
  rcases i with _ | _ | i <;> rcases j with _ | _ | j <;>
    simp at h1 h2 hne <;> subst h1 <;> subst h2 <;>
    simp only [Box.contains, sampleBoxA, sampleBoxB] at c1 c2 <;> omega

theorem sampleGlobalsFar_disjoint : PairwiseDisjoint sampleGlobalsFar.grids := by
  have hgr : sampleGlobalsFar.grids = [sampleBoxFarA, sampleBoxFarB] := by decide
  rw [hgr]
  intro i j b1 b2 h1 h2 hne x y z hc
  obtain ⟨c1, c2⟩ := hc
  rcases i with _ | _ | i <;> rcases j with _ | _ | j <;>
    simp at h1 h2 hne <;> subst h1 <;> subst h2 <;>
    simp only [Box.contains, sampleBoxFarA, sampleBoxFarB] at c1 c2 <;> omega

theorem box_ne_iff (b1 b2 : Box) :
    b1 ≠ b2 ↔ (b1.lo.a0 ≠ b2.lo.a0 ∨ b1.hi.a0 ≠ b2.hi.a0) ∨
      (b1.lo.a1 ≠ b2.lo.a1 ∨ b1.hi.a1 ≠ b2.hi.a1) ∨
      (b1.lo.a2 ≠ b2.lo.a2 ∨ b1.hi.a2 ≠ b2.hi.a2) := by
  obtain ⟨⟨l0, l1, l2⟩, ⟨h0, h1, h2⟩⟩ := b1
  obtain ⟨⟨l0', l1', l2'⟩, ⟨h0', h1', h2'⟩⟩ := b2
  simp only [ne_eq, Box.mk.injEq, IntVect.mk.injEq]
  tauto

/-- C5. In a state with a non-negative no-error code and a non-zero `maxext`, let the candidates
of the query be `pre ++ ibox :: post`, let the processing of `pre` from the caller's array go
through and leave the state `st`, and let the grid of `ibox` overlap the query, its file open,
and the box decoded from its record differ from the catalog box.  Then `read_amrex_subdomain`
returns the fatal status, its array is the array `st.a` left by the candidates of `pre`, and its
reads are those of `pre` followed by the read of the failing record: no candidate of `post` is
read or copied. -/
theorem box_mismatch_aborts (g : Globals) (fs : FileSystem) (a : Buffer) (a_lo a_hi : IntVect)
    (pre post : List Nat) (ibox : Nat) (st : LoopState) (grid : Box) (fod : FOD)
    (content : Nat → FabRecord)
    (hcode : 0 ≤ g.error_stat_noerror)
    (hext : g.hashmap.maxext.a0 ≠ 0 ∧ g.hashmap.maxext.a1 ≠ 0 ∧ g.hashmap.maxext.a2 ≠ 0)
    (hcands : queryCandidates g a_lo a_hi = pre ++ ibox :: post)
    (hpre : processBoxes g fs (toAbsolute g a_lo) (toAbsolute g a_hi) (jstrideA a_lo a_hi)
      (kstrideA a_lo a_hi) pre ⟨a, [], []⟩ = .next st)
    (hgrid : g.grids[ibox]? = some grid) (hfod : g.fods[ibox]? = some fod)
    (hfile : fs fod.file = some content)
    (hov : overlaps (toAbsolute g a_lo) (toAbsolute g a_hi) grid)
    (hbox : (content fod.offset).box ≠ grid) :
    read_amrex_subdomain g fs a a_lo a_hi =
      .returned g.error_stat_fatal st.a (st.reads ++ [(fod.file, fod.offset)]) := by
  rw [read_amrex_subdomain_eq g fs a a_lo a_hi hcode hext]
  have hov' := hov
  unfold overlaps interLo interHi at hov'
  have hbad := (box_ne_iff _ _).1 hbox
  have hp : processBox g fs (toAbsolute g a_lo) (toAbsolute g a_hi) (jstrideA a_lo a_hi)
      (kstrideA a_lo a_hi) ibox st =
      .fatal ⟨st.a, if fod.file ∈ st.ifs_map then st.ifs_map else st.ifs_map ++ [fod.file],
        st.reads ++ [(fod.file, fod.offset)]⟩ := by
    unfold processBox
    simp only [hgrid, hfod, hfile, if_pos hov']
    rw [if_pos (Or.inr hbad)]
  have hrun : runCandidates g fs a a_lo a_hi =
      .fatal ⟨st.a, if fod.file ∈ st.ifs_map then st.ifs_map else st.ifs_map ++ [fod.file],
        st.reads ++ [(fod.file, fod.offset)]⟩ := by
    unfold runCandidates
    rw [hcands, processBoxes_append _ _ _ _ _ _ pre (ibox :: post) _ st hpre]
    simp only [processBoxes, hp]
  rw [hrun]

/-- Witness of C5 on the sample plotfile with the box of the record of grid B altered, for the
query `(2,0,0)–(5,0,0)`: grid A is copied, the record of grid B fails. -/
theorem box_mismatch_aborts_witness :
    (0 : Int) ≤ sampleGlobals.error_stat_noerror ∧
    (sampleGlobals.hashmap.maxext.a0 ≠ 0 ∧ sampleGlobals.hashmap.maxext.a1 ≠ 0 ∧
      sampleGlobals.hashmap.maxext.a2 ≠ 0) ∧
    queryCandidates sampleGlobals ⟨2, 0, 0⟩ ⟨5, 0, 0⟩ = [0] ++ 1 :: [] ∧
    processBoxes sampleGlobals sampleFilesBadBox (toAbsolute sampleGlobals ⟨2, 0, 0⟩)
      (toAbsolute sampleGlobals ⟨5, 0, 0⟩) (jstrideA ⟨2, 0, 0⟩ ⟨5, 0, 0⟩)
      (kstrideA ⟨2, 0, 0⟩ ⟨5, 0, 0⟩) [0] ⟨fun _ => 0, [], []⟩ = .next sampleStateAfterA ∧
    sampleGlobals.grids[1]? = some sampleBoxB ∧
    sampleGlobals.fods[1]? = some ⟨"plt/Level_0/Cell_D_00000", 1600⟩ ∧
    sampleFilesBadBox "plt/Level_0/Cell_D_00000" = some sampleContentBadBox ∧
    overlaps (toAbsolute sampleGlobals ⟨2, 0, 0⟩) (toAbsolute sampleGlobals ⟨5, 0, 0⟩)
      sampleBoxB ∧
    (sampleContentBadBox 1600).box ≠ sampleBoxB ∧
    read_amrex_subdomain sampleGlobals sampleFilesBadBox (fun _ => 0) ⟨2, 0, 0⟩ ⟨5, 0, 0⟩ =
      .returned 2 sampleStateAfterA.a
        [("plt/Level_0/Cell_D_00000", 0), ("plt/Level_0/Cell_D_00000", 1600)] :=
  ⟨by decide, by decide, by decide, rfl, by decide, by decide, rfl, by decide, by decide,
   box_mismatch_aborts sampleGlobals sampleFilesBadBox (fun _ => 0) ⟨2, 0, 0⟩ ⟨5, 0, 0⟩
     [0] [] 1 sampleStateAfterA sampleBoxB ⟨"plt/Level_0/Cell_D_00000", 1600⟩
     sampleContentBadBox (by decide) (by decide) (by decide) rfl (by decide) (by decide) rfl
     (by decide) (by decide)⟩



/-! ## Status codes and the checks of the header loader -/

theorem read_amrex_header_uncaught (g : Globals) (ds : Dataset) (out : HeaderOut) :
    (read_amrex_header g ds out).uncaught = true ↔
      ∃ h c, ds.header = some h ∧ ds.cell_h = some c ∧
        h.ncomp = 3 ∧ h.spacedim = 3 ∧ h.finest_level = 0 ∧ (c.nboxes < 0 ∨ c.nfabs < 0) := by
  unfold read_amrex_header
  cases hh : ds.header with
  | none => simp
  | some h =>
    cases hc : ds.cell_h with
    | none =>
      simp only
      split
      · simp
      · split <;> simp
    | some c =>
      simp only
      by_cases h1 : h.ncomp = 3
      · by_cases h2 : h.spacedim = 3
        · by_cases h3 : h.finest_level = 0
          · by_cases h4 : c.nboxes < 0
            · simp [h1, h2, h3, h4]
            · by_cases h5 : c.nfabs < 0
              · simp [h1, h2, h3, h4, h5]
              · simp only [h1, h2, h3, h4, h5, ne_eq, not_true_eq_false, or_self, if_false,
                  false_or, and_false, exists_false, Option.some.injEq, exists_and_left,
                  exists_eq_left', true_and]
                split <;> simp [h4, h5]
          · simp [h1, h2, h3]
        · simp [h1, h2]
      · simp [h1]

theorem read_amrex_header_err (g : Globals) (ds : Dataset) (out : HeaderOut)
    (hu : (read_amrex_header g ds out).uncaught = false) :
    (read_amrex_header g ds out).2.err =
      if ds.loadable = true then g.error_stat_noerror else g.error_stat_fatal := by
  have hu' := hu
  unfold read_amrex_header at hu' ⊢
  unfold Dataset.loadable
  cases hh : ds.header with
  | none => simp
  | some h =>
    cases hc : ds.cell_h with
    | none =>
      simp only
      split
      · simp
      · split <;> simp
    | some c =>
      simp only [hh, hc] at hu' ⊢
      by_cases h1 : h.ncomp = 3
      · by_cases h2 : h.spacedim = 3
        · by_cases h3 : h.finest_level = 0
          · by_cases h4 : c.nboxes < 0
            · simp [h1, h2, h3, h4] at hu'
            · by_cases h5 : c.nfabs < 0
              · simp [h1, h2, h3, h4, h5] at hu'
              · have h4' : 0 ≤ c.nboxes := by omega
                have h5' : 0 ≤ c.nfabs := by omega
                by_cases h6 : c.nfabs = c.nboxes
                · by_cases h7 : c.ncomp = 3
                  · by_cases h8 : c.ng = 0
                    · simp [h1, h2, h3, h4, h5, h4', h5', h6, h7, h8]
                    · simp [h1, h2, h3, h4, h5, h4', h5', h6, h7, h8]
                  · simp [h1, h2, h3, h4, h5, h4', h5', h6, h7]
                · simp [h1, h2, h3, h4, h5, h4', h5', h6]
          · simp [h1, h2, h3]
        · simp [h1, h2]
      · simp [h1]

/-- C11 (evaluation). With the codes `(-5, 1, 2)` registered, the sample plotfile loads (the
loader returns `-5`), and the extraction of the cell `(0,0,0)`, which is fully contained and
whose record is valid, returns the fatal code `2` and not the registered no-error code `-5`: it
is left at the guard `error_stat_noerror < 0`, without reading any record. -/
theorem negative_noerror_returns_fatal :
    (read_amrex_header (set_error_code initialGlobals (-5) 1 2) sampleDataset sampleOut).2.err
      = -5 ∧
    fullyContained
      (read_amrex_header (set_error_code initialGlobals (-5) 1 2) sampleDataset sampleOut).1
      ⟨0, 0, 0⟩ ⟨0, 0, 0⟩ ∧
    (∀ ibox, ibox < 2 → validRecord
      (read_amrex_header (set_error_code initialGlobals (-5) 1 2) sampleDataset sampleOut).1
      sampleFiles ibox = true) ∧
    (read_amrex_subdomain
      (read_amrex_header (set_error_code initialGlobals (-5) 1 2) sampleDataset sampleOut).1
      sampleFiles (fun _ => 0) ⟨0, 0, 0⟩ ⟨0, 0, 0⟩).status = some 2 ∧
    (read_amrex_subdomain
      (read_amrex_header (set_error_code initialGlobals (-5) 1 2) sampleDataset sampleOut).1
      sampleFiles (fun _ => 0) ⟨0, 0, 0⟩ ⟨0, 0, 0⟩).reads = [] := by
  refine ⟨by decide, by decide, by decide, by decide, by decide⟩

theorem read_amrex_header_status (g : Globals) (ds : Dataset) (out : HeaderOut)
    (hu : (read_amrex_header g ds out).uncaught = false) :
    ((∃ h, ds.header = some h ∧ (h.ncomp ≠ 3 ∨ h.spacedim ≠ 3 ∨ h.finest_level ≠ 0)) →
      (read_amrex_header g ds out).2.err = g.error_stat_fatal) ∧
    ((∃ c, ds.cell_h = some c ∧ (c.nfabs ≠ c.nboxes ∨ c.ncomp ≠ 3 ∨ c.ng ≠ 0)) →
      (read_amrex_header g ds out).2.err = g.error_stat_fatal) ∧
    (ds.loadable = true → (read_amrex_header g ds out).2.err = g.error_stat_noerror) := by
  have herr := read_amrex_header_err g ds out hu
  have hiff := loadable_iff ds
  refine ⟨?_, ?_, ?_⟩
  · rintro ⟨h, hh, hbad⟩
    have hnl : ¬ ds.loadable = true := by
      intro hl
      obtain ⟨h', c, hh', -, h1, h2, h3, -⟩ := hiff.1 hl
      rw [hh] at hh'
      cases hh'
      rcases hbad with hb | hb | hb
      · exact hb h1
      · exact hb h2
      · exact hb h3
    rw [herr, if_neg hnl]
  · rintro ⟨c, hc, hbad⟩
    have hnl : ¬ ds.loadable = true := by
      intro hl
      obtain ⟨h, c', -, hc', -, -, -, -, -, h6, h7, h8⟩ := hiff.1 hl
      rw [hc] at hc'
      cases hc'
      rcases hbad with hb | hb | hb
      · exact hb h6
      · exact hb h7
      · exact hb h8
    rw [herr, if_neg hnl]
  · intro hl
    rw [herr, if_pos hl]

/-- C12 (evaluation). With the codes `(0,1,2)` registered, the loader is called on a plotfile
whose `Header` passes the checks and whose `Level_0/Cell_H` lists the two sample grids and
announces the FAB count `-1`, which differs from the box count 2.  The call does not return the
fatal code 2: `fods.resize(-1)` throws `std::length_error`, which the handler for
`std::runtime_error` does not catch, and the exception leaves the function with the caller's
status variable still holding the value 99 it had before the call. -/
theorem negative_fab_count_escapes_handler :
    (∃ c, sampleDatasetNegFabs.cell_h = some c ∧ c.nboxes = 2 ∧ c.nfabs = -1 ∧
      c.nfabs ≠ c.nboxes) ∧
    (read_amrex_header (set_error_code initialGlobals 0 1 2) sampleDatasetNegFabs
      { sampleOut with err := 99 }).uncaught = true ∧
    (read_amrex_header (set_error_code initialGlobals 0 1 2) sampleDatasetNegFabs
      { sampleOut with err := 99 }).2.err = 99 ∧
    (read_amrex_header (set_error_code initialGlobals 0 1 2) sampleDatasetNegFabs
      { sampleOut with err := 99 }).2.err ≠ 2 := by
  refine ⟨⟨_, rfl, by decide, by decide, by decide⟩, by decide, by decide, by decide⟩

theorem read_amrex_header_origin (g : Globals) (ds : Dataset) (out : HeaderOut)
    (hl : ds.loadable = true) :
    ∃ h, ds.header = some h ∧
      (read_amrex_header g ds out).2.origin =
        ⟨h.prob_lo.x0 + 0 * h.dx.x0, h.prob_lo.x1 + 1 * h.dx.x1, h.prob_lo.x2 + 2 * h.dx.x2⟩ ∧
      (read_amrex_header g ds out).2.dx = h.dx ∧
      (read_amrex_header g ds out).2.time = h.time := by
  obtain ⟨h, c, hh, hc, h1, h2, h3, h4, h5, h6, h7, h8⟩ := (loadable_iff ds).1 hl
  have h4' : ¬ c.nboxes < 0 := by omega
  have h5' : ¬ c.nfabs < 0 := by omega
  refine ⟨h, hh, ?_, ?_, ?_⟩ <;>
    simp [read_amrex_header, hh, hc, h1, h2, h3, h4', h5', h6, h7, h8]

/-- C13 (evaluation). On the sample plotfile, whose `Header` has `prob_lo = (0,0,0)` and the
cell spacing `dx = (1,1,1)`, the loader succeeds and reports the origin `(0,1,2)`: on the axes 1
and 2 the reported origin differs from `prob_lo`. -/
theorem reported_origin_adds_axis_times_dx :
    (read_amrex_header (set_error_code initialGlobals 0 1 2) sampleDataset sampleOut).2.err = 0 ∧
    sampleHeader.prob_lo = ⟨0, 0, 0⟩ ∧ sampleHeader.dx = ⟨1, 1, 1⟩ ∧
    (read_amrex_header (set_error_code initialGlobals 0 1 2) sampleDataset sampleOut).2.origin
      = ⟨0, 1, 2⟩ ∧
    (read_amrex_header (set_error_code initialGlobals 0 1 2) sampleDataset sampleOut).2.origin.x1
      ≠ sampleHeader.prob_lo.x1 ∧
    (read_amrex_header (set_error_code initialGlobals 0 1 2) sampleDataset sampleOut).2.origin.x2
      ≠ sampleHeader.prob_lo.x2 := by
  obtain ⟨h, hh, ho, -, -⟩ := read_amrex_header_origin (set_error_code initialGlobals 0 1 2)
    sampleDataset sampleOut (by decide)
  have hs : h = sampleHeader := by
    have : sampleDataset.header = some sampleHeader := rfl
    rw [this] at hh
    exact (Option.some.inj hh).symm
  subst hs
  refine ⟨by decide, rfl, rfl, ?_, ?_, ?_⟩
  · rw [ho]; simp [sampleHeader]
  · rw [ho]; simp [sampleHeader]
  · rw [ho]; simp [sampleHeader]

/-! ## The derived bounds and a failed load -/

theorem read_amrex_header_parsed (g : Globals) (ds : Dataset) (out : HeaderOut)
    (h : PlotHeader) (c : CellH) (hh : ds.header = some h) (hc : ds.cell_h = some c)
    (hok : h.ncomp = 3 ∧ h.spacedim = 3 ∧ h.finest_level = 0) (hnb : 0 ≤ c.nboxes) :
    (read_amrex_header g ds out).1.grids = loadedGrids g c ∧
    (read_amrex_header g ds out).1.hashmap.blo = (loadedBounds g (loadedGrids g c)).blo ∧
    (read_amrex_header g ds out).1.hashmap.bhi = (loadedBounds g (loadedGrids g c)).bhi ∧
    (read_amrex_header g ds out).1.hashmap.maxext = (loadedBounds g (loadedGrids g c)).maxext ∧
    (0 ≤ c.nfabs →
      (read_amrex_header g ds out).1.fods = readFods ds.name g.fods c.nfabs.toNat c.fabs ∧
      (read_amrex_header g ds out).uncaught = false ∧
      ((c.nfabs ≠ c.nboxes ∨ c.ncomp ≠ 3 ∨ c.ng ≠ 0) →
        (read_amrex_header g ds out).1.hashmap.hash = g.hashmap.hash)) := by
  obtain ⟨h1, h2, h3⟩ := hok
  have hnb' : ¬ c.nboxes < 0 := by omega
  by_cases hnf : c.nfabs < 0
  · simp only [read_amrex_header, hh, hc, h1, h2, h3, ne_eq, not_true_eq_false, or_self,
      if_false, hnb', if_pos hnf, loadedBounds, loadedGrids]
    exact ⟨trivial, trivial, trivial, trivial, fun h0 => absurd hnf (by omega)⟩
  · by_cases hbad : c.nfabs ≠ c.nboxes ∨ c.ncomp ≠ 3 ∨ c.ng ≠ 0
    · simp only [read_amrex_header, hh, hc, h1, h2, h3, ne_eq, not_true_eq_false, or_self,
        if_false, hnb', hnf, if_pos hbad, loadedBounds, loadedGrids]
      exact ⟨trivial, trivial, trivial, trivial,
        fun _ => ⟨trivial, trivial, fun _ => foldl_updateBounds_hash _ _⟩⟩
    · simp only [read_amrex_header, hh, hc, h1, h2, h3, ne_eq, not_true_eq_false, or_self,
        if_false, hnb', hnf, if_neg hbad, loadedBounds, loadedGrids]
      exact ⟨trivial, trivial, trivial, trivial,
        fun _ => ⟨trivial, trivial, fun hb => absurd hb hbad⟩⟩

theorem foldl_max_congr (f f' : Box → Int) (bs : List Box) (hff : ∀ b ∈ bs, f b = f' b) :
    ∀ x0 : Int, bs.foldl (fun x b => max x (f b)) x0 = bs.foldl (fun x b => max x (f' b)) x0 := by
  induction bs with
  | nil => intro x0; rfl
  | cons b rest ih =>
    intro x0
    simp only [List.foldl_cons]
    rw [hff b (List.mem_cons_self _ _)]
    exact ih (fun b' hb' => hff b' (List.mem_cons_of_mem _ hb')) _

theorem exists_isMaxOf (f : Box → Int) (bs : List Box) (hne : bs ≠ []) :
    ∃ M, IsMaxOf f bs M := by
  induction bs with
  | nil => exact absurd rfl hne
  | cons b rest ih =>
    by_cases hr : rest = []
    · subst hr
      exact ⟨f b, ⟨b, List.mem_cons_self _ _, rfl⟩, fun b' hb' => by
        rw [List.mem_singleton] at hb'; rw [hb']⟩
    · obtain ⟨M, ⟨b0, hb0, hM⟩, hle⟩ := ih hr
      by_cases hcmp : f b ≤ M
      · refine ⟨M, ⟨b0, List.mem_cons_of_mem _ hb0, hM⟩, fun b' hb' => ?_⟩
        rcases List.mem_cons.1 hb' with rfl | hb'
        · exact hcmp
        · exact hle b' hb'
      · refine ⟨f b, ⟨b, List.mem_cons_self _ _, rfl⟩, fun b' hb' => ?_⟩
        rcases List.mem_cons.1 hb' with rfl | hb'
        · exact le_refl _
        · have := hle b' hb'
          omega

theorem foldl_max_one (f : Box → Int) (bs : List Box) (M : Int) (hM : IsMaxOf f bs M) :
    bs.foldl (fun x b => max x (f b)) 1 = max 1 M := by
  obtain ⟨h1, h2, h3⟩ := foldl_max_spec f bs 1
  obtain ⟨⟨b0, hb0, hf0⟩, hle⟩ := hM
  have h4 := h2 b0 hb0
  rcases h3 with h3 | ⟨b, hb, h3⟩
  · omega
  · have := hle b hb
    omega

/-- C16 (counterexample). With the codes `(0,1,2)` registered, the loader parses the catalog
with the single well-formed grid `(-2000000000,0,0)–(2000000000,3,3)`, whose extent
`hi[0]-lo[0]+1` on axis 0 is `4000000001`; the stored `maxext[0]` is 1, which is neither
`max(1, 4000000001)` nor at least the extent of the grid. -/
theorem maxext_of_wide_grid :
    (read_amrex_header (set_error_code initialGlobals 0 1 2) sampleDatasetWide sampleOut).1.grids
      = [sampleBoxWide] ∧
    sampleBoxWide.lo.a0 ≤ sampleBoxWide.hi.a0 ∧
    sampleBoxWide.hi.a0 - sampleBoxWide.lo.a0 + 1 = 4000000001 ∧
    (read_amrex_header (set_error_code initialGlobals 0 1 2) sampleDatasetWide
      sampleOut).1.hashmap.maxext.a0 = 1 ∧
    (read_amrex_header (set_error_code initialGlobals 0 1 2) sampleDatasetWide
      sampleOut).1.hashmap.maxext.a0 ≠ max 1 (sampleBoxWide.hi.a0 - sampleBoxWide.lo.a0 + 1) ∧
    ¬ (sampleBoxWide.hi.a0 - sampleBoxWide.lo.a0 + 1 ≤
      (read_amrex_header (set_error_code initialGlobals 0 1 2) sampleDatasetWide
        sampleOut).1.hashmap.maxext.a0) := by
  refine ⟨by decide, by decide, by decide, by decide, by decide, by decide⟩

/-- C16 (amended). Let `read_amrex_header`, from any state, read a `Header` that passes its
checks and a `Cell_H` with a non-negative box count, and let the catalog it parses be non-empty,
with corner components that are 32-bit integers.  Then, whether or not the later checks of
`Cell_H` pass, on each axis `d` the stored `blo[d]` is the least `lo[d]` and `bhi[d]` the
greatest `hi[d]` over the boxes of the catalog, `maxext[d] >= 1`, and every grid has
`blo[d] <= lo[d]` and `hi[d] <= bhi[d]`; if `hi[d]-lo[d]+1` is representable as a 32-bit `int`
for every box of the catalog, then `maxext[d] = max(1, M)` with `M` the greatest `hi[d]-lo[d]+1`;
and every grid whose `hi[d]-lo[d]+1` is representable as a 32-bit `int` has
`hi[d]-lo[d]+1 <= maxext[d]`. -/
theorem derived_bounds (g : Globals) (ds : Dataset) (out : HeaderOut) (h : PlotHeader)
    (c : CellH) (hh : ds.header = some h) (hc : ds.cell_h = some c)
    (hok : h.ncomp = 3 ∧ h.spacedim = 3 ∧ h.finest_level = 0) (hnb : 0 ≤ c.nboxes)
    (hne : (read_amrex_header g ds out).1.grids ≠ [])
    (hr : ∀ b ∈ (read_amrex_header g ds out).1.grids, b.inInt32) :
    (IsMinOf (fun b => b.lo.a0) (read_amrex_header g ds out).1.grids (read_amrex_header g ds out).1.hashmap.blo.a0 ∧
     IsMinOf (fun b => b.lo.a1) (read_amrex_header g ds out).1.grids (read_amrex_header g ds out).1.hashmap.blo.a1 ∧
     IsMinOf (fun b => b.lo.a2) (read_amrex_header g ds out).1.grids (read_amrex_header g ds out).1.hashmap.blo.a2) ∧
    (IsMaxOf (fun b => b.hi.a0) (read_amrex_header g ds out).1.grids (read_amrex_header g ds out).1.hashmap.bhi.a0 ∧
     IsMaxOf (fun b => b.hi.a1) (read_amrex_header g ds out).1.grids (read_amrex_header g ds out).1.hashmap.bhi.a1 ∧
     IsMaxOf (fun b => b.hi.a2) (read_amrex_header g ds out).1.grids (read_amrex_header g ds out).1.hashmap.bhi.a2) ∧
    (((∀ b ∈ (read_amrex_header g ds out).1.grids, inInt32 (b.hi.a0 - b.lo.a0 + 1)) →
        ∃ M, IsMaxOf (fun b => b.hi.a0 - b.lo.a0 + 1) (read_amrex_header g ds out).1.grids M ∧
          (read_amrex_header g ds out).1.hashmap.maxext.a0 = max 1 M) ∧
     ((∀ b ∈ (read_amrex_header g ds out).1.grids, inInt32 (b.hi.a1 - b.lo.a1 + 1)) →
        ∃ M, IsMaxOf (fun b => b.hi.a1 - b.lo.a1 + 1) (read_amrex_header g ds out).1.grids M ∧
          (read_amrex_header g ds out).1.hashmap.maxext.a1 = max 1 M) ∧
     ((∀ b ∈ (read_amrex_header g ds out).1.grids, inInt32 (b.hi.a2 - b.lo.a2 + 1)) →
        ∃ M, IsMaxOf (fun b => b.hi.a2 - b.lo.a2 + 1) (read_amrex_header g ds out).1.grids M ∧
          (read_amrex_header g ds out).1.hashmap.maxext.a2 = max 1 M)) ∧
    (1 ≤ (read_amrex_header g ds out).1.hashmap.maxext.a0 ∧ 1 ≤ (read_amrex_header g ds out).1.hashmap.maxext.a1 ∧
     1 ≤ (read_amrex_header g ds out).1.hashmap.maxext.a2) ∧
    (∀ b ∈ (read_amrex_header g ds out).1.grids,
      ((read_amrex_header g ds out).1.hashmap.blo.a0 ≤ b.lo.a0 ∧ b.hi.a0 ≤ (read_amrex_header g ds out).1.hashmap.bhi.a0 ∧
       (inInt32 (b.hi.a0 - b.lo.a0 + 1) →
         b.hi.a0 - b.lo.a0 + 1 ≤ (read_amrex_header g ds out).1.hashmap.maxext.a0)) ∧
      ((read_amrex_header g ds out).1.hashmap.blo.a1 ≤ b.lo.a1 ∧ b.hi.a1 ≤ (read_amrex_header g ds out).1.hashmap.bhi.a1 ∧
       (inInt32 (b.hi.a1 - b.lo.a1 + 1) →
         b.hi.a1 - b.lo.a1 + 1 ≤ (read_amrex_header g ds out).1.hashmap.maxext.a1)) ∧
      ((read_amrex_header g ds out).1.hashmap.blo.a2 ≤ b.lo.a2 ∧ b.hi.a2 ≤ (read_amrex_header g ds out).1.hashmap.bhi.a2 ∧
       (inInt32 (b.hi.a2 - b.lo.a2 + 1) →
         b.hi.a2 - b.lo.a2 + 1 ≤ (read_amrex_header g ds out).1.hashmap.maxext.a2))) := by
  obtain ⟨hgr, hblo, hbhi, hext, -⟩ := read_amrex_header_parsed g ds out h c hh hc hok hnb
  rw [hgr] at hne hr
  rw [hgr, hblo, hbhi, hext, loadedBounds_eq]
  simp only
  generalize loadedGrids g c = bs at hne hr ⊢
  have m0 := isMinOf_foldl (fun b => b.lo.a0) bs hne (fun b hb => (hr b hb).1.2)
  have m1 := isMinOf_foldl (fun b => b.lo.a1) bs hne (fun b hb => (hr b hb).2.1.2)
  have m2 := isMinOf_foldl (fun b => b.lo.a2) bs hne (fun b hb => (hr b hb).2.2.1.2)
  have x0 := isMaxOf_foldl (fun b => b.hi.a0) bs hne (fun b hb => (hr b hb).2.2.2.1.1)
  have x1 := isMaxOf_foldl (fun b => b.hi.a1) bs hne (fun b hb => (hr b hb).2.2.2.2.1.1)
  have x2 := isMaxOf_foldl (fun b => b.hi.a2) bs hne (fun b hb => (hr b hb).2.2.2.2.2.1)
  obtain ⟨M0, hM0⟩ := exists_isMaxOf (fun b => b.hi.a0 - b.lo.a0 + 1) bs hne
  obtain ⟨M1, hM1⟩ := exists_isMaxOf (fun b => b.hi.a1 - b.lo.a1 + 1) bs hne
  obtain ⟨M2, hM2⟩ := exists_isMaxOf (fun b => b.hi.a2 - b.lo.a2 + 1) bs hne
  have e0 := foldl_max_spec (fun b => extent32 b.lo.a0 b.hi.a0) bs 1
  have e1 := foldl_max_spec (fun b => extent32 b.lo.a1 b.hi.a1) bs 1
  have e2 := foldl_max_spec (fun b => extent32 b.lo.a2 b.hi.a2) bs 1
  refine ⟨⟨m0, m1, m2⟩, ⟨x0, x1, x2⟩, ⟨?_, ?_, ?_⟩, ⟨e0.1, e1.1, e2.1⟩, ?_⟩
  · intro hfit
    refine ⟨M0, hM0, ?_⟩
    rw [foldl_max_congr (fun b => extent32 b.lo.a0 b.hi.a0) (fun b => b.hi.a0 - b.lo.a0 + 1)
      bs (fun b hb => extent32_of_inInt32 _ _ (hfit b hb)) 1]
    exact foldl_max_one _ _ _ hM0
  · intro hfit
    refine ⟨M1, hM1, ?_⟩
    rw [foldl_max_congr (fun b => extent32 b.lo.a1 b.hi.a1) (fun b => b.hi.a1 - b.lo.a1 + 1)
      bs (fun b hb => extent32_of_inInt32 _ _ (hfit b hb)) 1]
    exact foldl_max_one _ _ _ hM1
  · intro hfit
    refine ⟨M2, hM2, ?_⟩
    rw [foldl_max_congr (fun b => extent32 b.lo.a2 b.hi.a2) (fun b => b.hi.a2 - b.lo.a2 + 1)
      bs (fun b hb => extent32_of_inInt32 _ _ (hfit b hb)) 1]
    exact foldl_max_one _ _ _ hM2
  · intro b hb
    refine ⟨⟨m0.2 b hb, x0.2 b hb, fun hf => ?_⟩, ⟨m1.2 b hb, x1.2 b hb, fun hf => ?_⟩,
      ⟨m2.2 b hb, x2.2 b hb, fun hf => ?_⟩⟩
    · have := e0.2.1 b hb
      simp only [extent32_of_inInt32 _ _ hf] at this
      exact this
    · have := e1.2.1 b hb
      simp only [extent32_of_inInt32 _ _ hf] at this
      exact this
    · have := e2.2.1 b hb
      simp only [extent32_of_inInt32 _ _ hf] at this
      exact this

/-- Witness of C16 (amended) on the sample plotfile: `blo[0]` is the least `lo[0]` of the two
grids. -/
theorem derived_bounds_witness :
    sampleDataset.header = some sampleHeader ∧ sampleDataset.cell_h = some sampleCellH ∧
    (sampleHeader.ncomp = 3 ∧ sampleHeader.spacedim = 3 ∧ sampleHeader.finest_level = 0) ∧
    0 ≤ sampleCellH.nboxes ∧
    (read_amrex_header initialGlobals sampleDataset sampleOut).1.grids ≠ [] ∧
    (∀ b ∈ (read_amrex_header initialGlobals sampleDataset sampleOut).1.grids, b.inInt32) ∧
    IsMinOf (fun b => b.lo.a0)
      (read_amrex_header initialGlobals sampleDataset sampleOut).1.grids
      (read_amrex_header initialGlobals sampleDataset sampleOut).1.hashmap.blo.a0 :=
  ⟨rfl, rfl, by decide, by decide, by decide, by decide,
   (derived_bounds initialGlobals sampleDataset sampleOut sampleHeader sampleCellH rfl rfl
     (by decide) (by decide) (by decide) (by decide)).1.1⟩

/-- C18 (counterexample). From the initial state with the codes `(0,1,2)`, the loader called on
a `Cell_H` with two boxes and one FabOnDisk line returns the fatal code 2; afterwards the
catalog holds the two newly parsed boxes, but the hash index is empty: it holds neither the
index 0 nor the index 1. -/
theorem failed_load_builds_no_index :
    (read_amrex_header (set_error_code initialGlobals 0 1 2) sampleDatasetFabMismatch
      sampleOut).2.err = 2 ∧
    (read_amrex_header (set_error_code initialGlobals 0 1 2) sampleDatasetFabMismatch
      sampleOut).1.grids = [sampleBoxA, sampleBoxB] ∧
    (read_amrex_header (set_error_code initialGlobals 0 1 2) sampleDatasetFabMismatch
      sampleOut).1.hashmap.hash = [] ∧
    ¬ (0 ∈ hashEntries (read_amrex_header (set_error_code initialGlobals 0 1 2)
      sampleDatasetFabMismatch sampleOut).1.hashmap.hash) ∧
    ¬ (1 ∈ hashEntries (read_amrex_header (set_error_code initialGlobals 0 1 2)
      sampleDatasetFabMismatch sampleOut).1.hashmap.hash) := by
  refine ⟨by decide, by decide, by decide, by decide, by decide⟩

/-- C18 (amended). When `read_amrex_header`, from any state, reads a `Header` that passes its
checks and a `Cell_H` whose FAB count differs from its box count, both counts being
non-negative, it returns the fatal code without running the loop that builds the hash index:
the hash index is exactly the one the state had before the call, while `grids`, `fods`, `blo`,
`bhi` and `maxext` already hold the values of the newly parsed catalog. -/
theorem failed_load_leaves_index (g : Globals) (ds : Dataset) (out : HeaderOut) (h : PlotHeader)
    (c : CellH) (hh : ds.header = some h) (hc : ds.cell_h = some c)
    (hok : h.ncomp = 3 ∧ h.spacedim = 3 ∧ h.finest_level = 0)
    (hnb : 0 ≤ c.nboxes) (hnf : 0 ≤ c.nfabs) (hmis : c.nfabs ≠ c.nboxes) :
    (read_amrex_header g ds out).2.err = g.error_stat_fatal ∧
    (read_amrex_header g ds out).1.hashmap.hash = g.hashmap.hash ∧
    (read_amrex_header g ds out).1.grids = readGrids g.grids c.nboxes.toNat c.boxes ∧
    (read_amrex_header g ds out).1.fods = readFods ds.name g.fods c.nfabs.toNat c.fabs ∧
    (read_amrex_header g ds out).1.hashmap.blo =
      (loadedBounds g (read_amrex_header g ds out).1.grids).blo ∧
    (read_amrex_header g ds out).1.hashmap.bhi =
      (loadedBounds g (read_amrex_header g ds out).1.grids).bhi ∧
    (read_amrex_header g ds out).1.hashmap.maxext =
      (loadedBounds g (read_amrex_header g ds out).1.grids).maxext := by
  obtain ⟨hgr, hblo, hbhi, hext, hrest⟩ := read_amrex_header_parsed g ds out h c hh hc hok hnb
  obtain ⟨hfo, hun, hhash⟩ := hrest hnf
  have hnl : ¬ ds.loadable = true := by
    intro hl
    obtain ⟨h', c', -, hc', -, -, -, -, -, h6, -, -⟩ := (loadable_iff ds).1 hl
    rw [hc] at hc'
    cases hc'
    exact hmis h6
  refine ⟨?_, hhash (Or.inl hmis), hgr, hfo, ?_, ?_, ?_⟩
  · rw [read_amrex_header_err g ds out hun, if_neg hnl]
  · rw [hblo, hgr]
  · rw [hbhi, hgr]
  · rw [hext, hgr]

/-- Witness of C18 (amended) on the sample `Cell_H` with two boxes and one FabOnDisk line,
loaded after the sample plotfile: the hash index of the first load is left as it was. -/
theorem failed_load_leaves_index_witness :
    sampleDatasetFabMismatch.header = some sampleHeader ∧
    sampleDatasetFabMismatch.cell_h =
      some { sampleCellH with nfabs := 1, fabs := [("Cell_D_00000", 0)] } ∧
    (sampleHeader.ncomp = 3 ∧ sampleHeader.spacedim = 3 ∧ sampleHeader.finest_level = 0) ∧
    (0 : Int) ≤ 2 ∧ (0 : Int) ≤ 1 ∧ (1 : Int) ≠ 2 ∧
    (read_amrex_header sampleGlobals sampleDatasetFabMismatch sampleOut).1.hashmap.hash =
      sampleGlobals.hashmap.hash :=
  ⟨rfl, rfl, by decide, by decide, by decide, by decide,
   (failed_load_leaves_index sampleGlobals sampleDatasetFabMismatch sampleOut sampleHeader
     { sampleCellH with nfabs := 1, fabs := [("Cell_D_00000", 0)] } rfl rfl (by decide)
     (by decide) (by decide) (by decide)).2.1⟩

/-! ## Completeness and uniqueness of the candidate scan -/

theorem nodup_intRange (lo hi : Int) : (intRange lo hi).Nodup := by
  unfold intRange
  apply List.Nodup.map _ (List.nodup_range _)
  intro a b hab
  simp only at hab
  omega

theorem bucket_match_eq (key : IntVect) (hash : List (IntVect × List Nat)) :
    (match hashFind key hash with
      | some v => v
      | none => []) = (hashFind key hash).getD [] := by
  cases hashFind key hash <;> rfl

theorem Loaded.nodup_bucket {g : Globals} (hg : Loaded g) (key : IntVect) :
    ((hashFind key g.hashmap.hash).getD []).Nodup := by
  rw [hg.buckets, List.nodup_iff_count_le_one]
  intro x
  exact (count_bucketOf_le _ _ _ 0 x).1

theorem Loaded.key_of_mem_bucket {g : Globals} (hg : Loaded g) (key : IntVect) (x : Nat)
    (hx : x ∈ (hashFind key g.hashmap.hash).getD []) :
    ∃ b, g.grids[x]? = some b ∧ bucketKey g.hashmap.maxext b = key := by
  rw [hg.buckets, mem_bucketOf] at hx
  obtain ⟨-, b, hb, hk⟩ := hx
  exact ⟨b, by simpa using hb, hk⟩

theorem Loaded.nodup_candidates {g : Globals} (hg : Loaded g) (clo chi : IntVect) :
    (candidates g.hashmap.hash clo chi).Nodup := by
  unfold candidates
  simp only [bucket_match_eq]
  have hkey : ∀ (ii jj kk : Int) (x : Nat),
      x ∈ (hashFind ⟨ii, jj, kk⟩ g.hashmap.hash).getD [] →
      ∀ (ii' jj' kk' : Int), x ∈ (hashFind ⟨ii', jj', kk'⟩ g.hashmap.hash).getD [] →
        ii = ii' ∧ jj = jj' ∧ kk = kk' := by
    intro ii jj kk x hx ii' jj' kk' hx'
    obtain ⟨b, hb, hk⟩ := hg.key_of_mem_bucket _ x hx
    obtain ⟨b', hb', hk'⟩ := hg.key_of_mem_bucket _ x hx'
    rw [hb] at hb'
    cases hb'
    rw [hk] at hk'
    simp only [IntVect.mk.injEq] at hk'
    exact hk'
  rw [List.nodup_flatMap]
  refine ⟨fun kk _ => ?_, ?_⟩
  · rw [List.nodup_flatMap]
    refine ⟨fun jj _ => ?_, ?_⟩
    · rw [List.nodup_flatMap]
      refine ⟨fun ii _ => hg.nodup_bucket _, ?_⟩
      apply (nodup_intRange _ _).pairwise_of_forall_ne
      intro ii _ ii' _ hne x hx hx'
      exact hne (hkey ii jj kk x hx ii' jj kk hx').1
    · apply (nodup_intRange _ _).pairwise_of_forall_ne
      intro jj _ jj' _ hne x hx hx'
      simp only [List.mem_flatMap] at hx hx'
      obtain ⟨ii, -, hx⟩ := hx
      obtain ⟨ii', -, hx'⟩ := hx'
      exact hne (hkey ii jj kk x hx ii' jj' kk hx').2.1
  · apply (nodup_intRange _ _).pairwise_of_forall_ne
    intro kk _ kk' _ hne x hx hx'
    simp only [List.mem_flatMap] at hx hx'
    obtain ⟨jj, -, ii, -, hx⟩ := hx
    obtain ⟨jj', -, ii', -, hx'⟩ := hx'
    exact hne (hkey ii jj kk x hx ii' jj' kk' hx').2.2

theorem map_flatMap_eq {α β γ : Type} (f : β → γ) (g : α → List β) (l : List α) :
    (l.flatMap g).map f = l.flatMap (fun x => (g x).map f) := by
  induction l with
  | nil => rfl
  | cons x xs ih => simp only [List.flatMap_cons, List.map_append, ih]

theorem cellWrites_eq_map_cellOffsets (alo : IntVect) (jstride_a kstride_a : Int) (box : Box)
    (p : Int → Dbl) (ilo ihi : IntVect) :
    cellWrites alo jstride_a kstride_a box p ilo ihi =
      (cellOffsets alo jstride_a kstride_a box ilo ihi).map (fun o => (o.1, p o.2)) := by
  unfold cellWrites cellOffsets
  simp only [map_flatMap_eq, List.map_cons, List.map_nil]

theorem mem_cellOffsets (alo : IntVect) (jstride_a kstride_a : Int) (box : Box)
    (ilo ihi : IntVect) (o : Int × Int) :
    o ∈ cellOffsets alo jstride_a kstride_a box ilo ihi ↔
      ∃ i j k c : Int, (ilo.a0 ≤ i ∧ i ≤ ihi.a0) ∧ (ilo.a1 ≤ j ∧ j ≤ ihi.a1) ∧
        (ilo.a2 ≤ k ∧ k ≤ ihi.a2) ∧ (0 ≤ c ∧ c ≤ 2) ∧
        o = ((i - alo.a0) * 3 + (j - alo.a1) * jstride_a + (k - alo.a2) * kstride_a + c,
             (i - box.lo.a0) + (j - box.lo.a1) * (box.hi.a0 - box.lo.a0 + 1) +
               (k - box.lo.a2) * ((box.hi.a0 - box.lo.a0 + 1) * (box.hi.a1 - box.lo.a1 + 1)) +
               box.ncells * c) := by
  unfold cellOffsets Box.ncells
  simp only [List.mem_flatMap, mem_intRange, List.mem_cons, List.mem_singleton,
    List.not_mem_nil, or_false]
  constructor
  · rintro ⟨k, hk, j, hj, i, hi, h | h | h⟩
    · exact ⟨i, j, k, 0, hi, hj, hk, by omega, by rw [h]; simp⟩
    · exact ⟨i, j, k, 1, hi, hj, hk, by omega, by rw [h]; simp⟩
    · exact ⟨i, j, k, 2, hi, hj, hk, by omega, by rw [h]⟩
  · rintro ⟨i, j, k, c, hi, hj, hk, hc, h⟩
    refine ⟨k, hk, j, hj, i, hi, ?_⟩
    have hc' : c = 0 ∨ c = 1 ∨ c = 2 := by omega
    rcases hc' with rfl | rfl | rfl
    · left; rw [h]; simp
    · right; left; rw [h]; simp
    · right; right; rw [h]

theorem radix_bound (n m l x y z : Int) (hx : 0 ≤ x ∧ x < n) (hy : 0 ≤ y ∧ y < m)
    (hz : 0 ≤ z ∧ z < l) : 0 ≤ x + n * (y + m * z) ∧ x + n * (y + m * z) < n * m * l := by
  have hn : 0 < n := by omega
  have hm : 0 < m := by omega
  have h1 : 0 ≤ m * z := mul_nonneg hm.le hz.1
  have h2 : m * z ≤ m * (l - 1) := mul_le_mul_of_nonneg_left (by omega) hm.le
  have h3 : 0 ≤ n * (y + m * z) := mul_nonneg hn.le (by omega)
  have h4 : n * (y + m * z) ≤ n * (m * l - 1) :=
    mul_le_mul_of_nonneg_left (by linarith) hn.le
  constructor
  · omega
  · have h5 : n * (m * l - 1) = n * m * l - n := by ring
    omega

theorem applyWrites_base_irrelevant (ws : List (Int × Dbl)) (x : Int) :
    ∀ a a' : Buffer, (∃ w ∈ ws, w.1 = x) → applyWrites a ws x = applyWrites a' ws x := by
  induction ws with
  | nil => intro a a' h; obtain ⟨w, hw, -⟩ := h; cases hw
  | cons w rest ih =>
    intro a a' hex
    have h1 : ∀ b : Buffer, applyWrites b (w :: rest) =
        applyWrites (Function.update b w.1 w.2) rest := fun _ => rfl
    rw [h1 a, h1 a']
    by_cases hrest : ∃ w' ∈ rest, w'.1 = x
    · exact ih _ _ hrest
    · have hno : ∀ w' ∈ rest, w'.1 ≠ x := fun w' hw' he => hrest ⟨w', hw', he⟩
      rw [applyWrites_not_mem rest x _ hno, applyWrites_not_mem rest x _ hno]
      obtain ⟨w', hw', he⟩ := hex
      rcases List.mem_cons.1 hw' with rfl | hw'
      · rw [← he, Function.update_same, Function.update_same]
      · exact absurd he (hno w' hw')

theorem applyWrites_comm (w1 w2 : List (Int × Dbl))
    (hd : ∀ u ∈ w1, ∀ v ∈ w2, u.1 ≠ v.1) (a : Buffer) :
    applyWrites (applyWrites a w1) w2 = applyWrites (applyWrites a w2) w1 := by
  funext x
  by_cases h1 : ∃ u ∈ w1, u.1 = x
  · have h2 : ∀ v ∈ w2, v.1 ≠ x := by
      intro v hv he
      obtain ⟨u, hu, hux⟩ := h1
      exact hd u hu v hv (hux.trans he.symm)
    rw [applyWrites_not_mem w2 x _ h2]
    exact applyWrites_base_irrelevant w1 x _ _ h1
  · have h1' : ∀ u ∈ w1, u.1 ≠ x := fun u hu he => h1 ⟨u, hu, he⟩
    rw [applyWrites_not_mem w1 x _ h1']
    by_cases h2 : ∃ v ∈ w2, v.1 = x
    · exact applyWrites_base_irrelevant w2 x _ _ h2
    · have h2' : ∀ v ∈ w2, v.1 ≠ x := fun v hv he => h2 ⟨v, hv, he⟩
      rw [applyWrites_not_mem w2 x _ h2', applyWrites_not_mem w2 x _ h2',
        applyWrites_not_mem w1 x _ h1']

theorem outputOffset_eq (a_lo a_hi : IntVect) (ia ja ka : Int) :
    outputOffset a_lo a_hi ia ja ka =
      3 * (ia + (a_hi.a0 - a_lo.a0 + 1) * (ja + (a_hi.a1 - a_lo.a1 + 1) * ka)) := by
  unfold outputOffset kstrideA jstrideA
  ring

theorem boxWrites_targets_disjoint (g : Globals) (fs : FileSystem) (a_lo a_hi : IntVect)
    (hq : a_lo.a0 ≤ a_hi.a0 ∧ a_lo.a1 ≤ a_hi.a1)
    (ibox jbox : Nat) (b1 b2 : Box) (h1 : g.grids[ibox]? = some b1)
    (h2 : g.grids[jbox]? = some b2)
    (hd : ∀ x y z : Int, ¬ (b1.contains x y z ∧ b2.contains x y z)) :
    ∀ u ∈ boxWrites g fs (toAbsolute g a_lo) (toAbsolute g a_hi) (jstrideA a_lo a_hi)
        (kstrideA a_lo a_hi) ibox,
      ∀ v ∈ boxWrites g fs (toAbsolute g a_lo) (toAbsolute g a_hi) (jstrideA a_lo a_hi)
        (kstrideA a_lo a_hi) jbox, u.1 ≠ v.1 := by
  intro u hu v hv heq
  rw [mem_boxWrites] at hu hv
  obtain ⟨g1, f1, c1, hg1, -, -, i, j, k, c, hi, hj, hk, hc, rfl⟩ := hu
  obtain ⟨g2, f2, c2, hg2, -, -, i', j', k', c', hi', hj', hk', hc', rfl⟩ := hv
  rw [h1] at hg1; cases hg1
  rw [h2] at hg2; cases hg2
  obtain ⟨hcont, ri, rj, rk⟩ := interval_of_inter _ _ _ _ _ _ hi hj hk
  obtain ⟨hcont', ri', rj', rk'⟩ := interval_of_inter _ _ _ _ _ _ hi' hj' hk'
  obtain ⟨s0, s1⟩ := toAbsolute_span g a_lo a_hi hq
  obtain ⟨e1, e2, e3, -⟩ := offset_injective a_lo a_hi _ _ _ _ _ _ _ _
    (by omega) (by omega) hc (by omega) (by omega) hc' heq
  have ex : i = i' := by omega
  have ey : j = j' := by omega
  have ez : k = k' := by omega
  subst ex ey ez
  exact hd i j k ⟨hcont, hcont'⟩

theorem digitChar_facts : ∀ m, m < 10 →
    (Nat.digitChar m).isDigit = true ∧ (Nat.digitChar m).toNat - 48 = m := by
  decide

theorem natDigitsAux_spec : ∀ (k m : Nat) (tail : List Char), m < k →
    ∃ run, natDigitsAux k m tail = run ++ tail ∧ digitsValue run = m ∧
      (∀ c ∈ run, c.isDigit = true) ∧ run ≠ [] := by
  intro k
  induction k with
  | zero => intro m tail hm; omega
  | succ k ih =>
    intro m tail hm
    have hlast : m % 10 < 10 := Nat.mod_lt _ (by decide)
    by_cases hsmall : m < 10
    · refine ⟨[Nat.digitChar m], by simp [natDigitsAux, hsmall], ?_, ?_, by simp⟩
      · simp only [digitsValue, List.foldl_cons, List.foldl_nil, Nat.zero_mul, Nat.zero_add]
        exact (digitChar_facts m hsmall).2
      · intro c hc
        rw [List.mem_singleton] at hc
        rw [hc]
        exact (digitChar_facts m hsmall).1
    · obtain ⟨run, hrun, hval, hdig, -⟩ :=
        ih (m / 10) (Nat.digitChar (m % 10) :: tail) (by omega)
      refine ⟨run ++ [Nat.digitChar (m % 10)], ?_, ?_, ?_, by simp⟩
      · simp only [natDigitsAux, hsmall, if_false, hrun, List.append_assoc,
          List.singleton_append]
      · unfold digitsValue at hval ⊢
        rw [List.foldl_append, hval]
        simp only [List.foldl_cons, List.foldl_nil]
        rw [(digitChar_facts _ hlast).2]
        omega
      · intro c hc
        rcases List.mem_append.1 hc with hc | hc
        · exact hdig c hc
        · rw [List.mem_singleton] at hc
          rw [hc]
          exact (digitChar_facts _ hlast).1

theorem natDigits_spec (n : Nat) :
    natDigits n ≠ [] ∧ (∀ c ∈ natDigits n, c.isDigit = true) ∧ digitsValue (natDigits n) = n := by
  obtain ⟨run, hrun, hval, hdig, hne⟩ := natDigitsAux_spec (n + 1) n [] (by omega)
  have : natDigits n = run := by unfold natDigits; rw [hrun, List.append_nil]
  rw [this]
  exact ⟨hne, hdig, hval⟩

theorem takeWhile_append_stop {α : Type} (p : α → Bool) (ds : List α) (c : α) (rest : List α)
    (hds : ∀ a ∈ ds, p a = true) (hc : p c = false) :
    (ds ++ c :: rest).takeWhile p = ds ∧ (ds ++ c :: rest).dropWhile p = c :: rest := by
  induction ds with
  | nil => simp [List.takeWhile, List.dropWhile, hc]
  | cons d ds ih =>
    have hd := hds d (List.mem_cons_self _ _)
    obtain ⟨h1, h2⟩ := ih (fun a ha => hds a (List.mem_cons_of_mem _ ha))
    simp [List.takeWhile, List.dropWhile, hd, h1, h2]

theorem isDigit_bounds (c : Char) (h : c.isDigit = true) : 48 ≤ c.toNat ∧ c.toNat ≤ 57 := by
  unfold Char.isDigit at h
  simp only [Bool.and_eq_true, decide_eq_true_eq] at h
  obtain ⟨h1, h2⟩ := h
  have e1 : (48 : UInt32).toNat ≤ c.val.toNat := h1
  have e2 : c.val.toNat ≤ (57 : UInt32).toNat := h2
  exact ⟨e1, e2⟩

theorem isSpace_of_isDigit (c : Char) (h : c.isDigit = true) : isSpace c = false := by
  obtain ⟨h1, h2⟩ := isDigit_bounds c h
  have hne : c ≠ ' ' := by
    intro he
    rw [he] at h1
    exact absurd h1 (by decide)
  unfold isSpace
  simp only [Bool.or_eq_false_iff, decide_eq_false_iff_not]
  refine ⟨⟨⟨⟨⟨hne, ?_⟩, ?_⟩, ?_⟩, ?_⟩, ?_⟩ <;> omega

theorem not_sign_of_isDigit (c : Char) (h : c.isDigit = true) : ¬ (c = '-' ∨ c = '+') := by
  obtain ⟨h1, h2⟩ := isDigit_bounds c h
  rintro (he | he) <;> rw [he] at h1 <;> exact absurd h1 (by decide)

theorem extractInt_writeInt (x x0 : Int) (c : Char) (rest : List Char) (hx : inInt32 x)
    (hc : c.isDigit = false) :
    extractInt ⟨writeInt x ++ c :: rest, true⟩ x0 = (⟨c :: rest, true⟩, x) := by
  obtain ⟨hne, hdig, hval⟩ := natDigits_spec x.natAbs
  obtain ⟨ht, hd⟩ := takeWhile_append_stop Char.isDigit (natDigits x.natAbs) c rest hdig hc
  have hrange := hx
  unfold inInt32 INT_MIN INT_MAX at hrange
  by_cases hneg : x < 0
  · have hw : writeInt x = '-' :: natDigits x.natAbs := by unfold writeInt; rw [if_pos hneg]
    have hv : -((digitsValue (natDigits x.natAbs) : Nat) : Int) = x := by rw [hval]; omega
    have hsp : isSpace '-' = false := by decide
    simp only [extractInt, hw, List.cons_append, if_true, List.dropWhile_cons, hsp,
      Bool.false_eq_true, if_false, true_or, ht, hd, hne, hv]
    have h1 : ¬ x > INT_MAX := by unfold INT_MAX; omega
    have h2 : ¬ x < INT_MIN := by unfold INT_MIN; omega
    simp [h1, h2, hx]
  · have hw : writeInt x = natDigits x.natAbs := by unfold writeInt; rw [if_neg hneg]
    have hv : ((digitsValue (natDigits x.natAbs) : Nat) : Int) = x := by rw [hval]; omega
    obtain ⟨d, ds, hcons⟩ := List.exists_cons_of_ne_nil hne
    have hdd : d.isDigit = true := hdig d (by rw [hcons]; exact List.mem_cons_self _ _)
    have hsp : isSpace d = false := isSpace_of_isDigit d hdd
    have hsg : ¬ (d = '-' ∨ d = '+') := not_sign_of_isDigit d hdd
    have hm : ¬ d = '-' := fun h => hsg (Or.inl h)
    have hp : ¬ d = '+' := fun h => hsg (Or.inr h)
    rw [hcons] at ht hd hv
    simp only [List.cons_append] at ht hd
    have hdw : (d :: (ds ++ c :: rest)).dropWhile isSpace = d :: (ds ++ c :: rest) := by
      simp [List.dropWhile, hsp]
    simp only [extractInt, hw, hcons, List.cons_append, if_true, hdw, hm, hp, or_self,
      if_false, ht, hd, hv]
    have h1 : ¬ x > INT_MAX := by unfold INT_MAX; omega
    have h2 : ¬ x < INT_MIN := by unfold INT_MIN; omega
    simp [h1, h2, hx]

theorem ignore_delim (delim : Char) (s : List Char) :
    ignore 1000000 delim ⟨delim :: s, true⟩ = ⟨s, true⟩ := by
  simp [ignore, ignoreLoop]

theorem ignore_space_paren (s : List Char) :
    ignore 1000000 '(' ⟨' ' :: '(' :: s, true⟩ = ⟨s, true⟩ := by
  simp [ignore, ignoreLoop]

theorem readIntVect_tail (iv iv0 : IntVect) (rest : List Char)
    (h : inInt32 iv.a0 ∧ inInt32 iv.a1 ∧ inInt32 iv.a2) :
    (let r0 := extractInt ⟨writeInt iv.a0 ++ ',' :: (writeInt iv.a1 ++ ',' ::
        (writeInt iv.a2 ++ ')' :: rest)), true⟩ iv0.a0
     let r1 := extractInt (ignore 1000000 ',' r0.1) iv0.a1
     let r2 := extractInt (ignore 1000000 ',' r1.1) iv0.a2
     ((ignore 1000000 ')' r2.1, (⟨r0.2, r1.2, r2.2⟩ : IntVect)) : IStream × IntVect)) =
      (⟨rest, true⟩, iv) := by
  simp only
  rw [extractInt_writeInt iv.a0 iv0.a0 ',' _ h.1 (by decide)]
  simp only [ignore_delim]
  rw [extractInt_writeInt iv.a1 iv0.a1 ',' _ h.2.1 (by decide)]
  simp only [ignore_delim]
  rw [extractInt_writeInt iv.a2 iv0.a2 ')' _ h.2.2 (by decide)]
  simp only [ignore_delim]

theorem readIntVect_writeIntVect (iv iv0 : IntVect) (rest : List Char)
    (h : inInt32 iv.a0 ∧ inInt32 iv.a1 ∧ inInt32 iv.a2) :
    readIntVect ⟨writeIntVect iv ++ rest, true⟩ iv0 = (⟨rest, true⟩, iv) := by
  have ht := readIntVect_tail iv iv0 rest h
  simp only at ht
  unfold readIntVect writeIntVect
  simp only [List.cons_append, List.append_assoc, ignore_delim, List.singleton_append]
  exact ht

theorem readIntVect_space_writeIntVect (iv iv0 : IntVect) (rest : List Char)
    (h : inInt32 iv.a0 ∧ inInt32 iv.a1 ∧ inInt32 iv.a2) :
    readIntVect ⟨' ' :: (writeIntVect iv ++ rest), true⟩ iv0 = (⟨rest, true⟩, iv) := by
  have ht := readIntVect_tail iv iv0 rest h
  simp only at ht
  unfold readIntVect writeIntVect
  simp only [List.cons_append, List.append_assoc, ignore_space_paren, List.singleton_append]
  exact ht

theorem readBox_two_tuples (b b0 : Box) (rest : List Char) (hb : b.inInt32) :
    readBox ⟨'(' :: (writeIntVect b.lo ++ ' ' :: (writeIntVect b.hi ++ rest)), true⟩ b0 =
      (ignore 1000000 ')' (ignore 1000000 ')' ⟨rest, true⟩), b) := by
  unfold readBox
  simp only [ignore_delim]
  rw [readIntVect_writeIntVect b.lo b0.lo _ ⟨hb.1, hb.2.1, hb.2.2.1⟩]
  simp only
  rw [readIntVect_space_writeIntVect b.hi b0.hi _ ⟨hb.2.2.2.1, hb.2.2.2.2.1, hb.2.2.2.2.2⟩]

theorem readBox_writeBox (b b0 : Box) (rest : List Char) (hb : b.inInt32) :
    readBox ⟨writeBox b ++ rest, true⟩ b0 = (ignore 1000000 ')' ⟨rest, true⟩, b) := by
  have h := readBox_two_tuples b b0 (')' :: rest) hb
  rw [ignore_delim] at h
  unfold writeBox
  simp only [List.cons_append, List.append_assoc, List.singleton_append]
  exact h

theorem extractInt_space (s : List Char) (x0 : Int) :
    extractInt ⟨' ' :: s, true⟩ x0 = extractInt ⟨s, true⟩ x0 := by
  have hsp : isSpace ' ' = true := by decide
  simp only [extractInt, if_true, List.dropWhile_cons, hsp]

/-- C17 (counterexample). The text the Box encoder writes for the box `(0,0,0)–(3,3,3)` is
`((0,0,0) (3,3,3))`.  When it is followed by the component count `3`, a newline and the payload
bytes `ab)7 x`, the Box decoder returns the box but leaves the input at `7 x`, so that the next
integer read is 7 and not the component count 3; when the payload bytes `abc` hold no `)`, the
decoder leaves the input at its end and not good, and the next integer read fails and leaves
its variable unchanged. -/
theorem box_decoder_consumes_component_count :
    writeBox sampleBoxA = "((0,0,0) (3,3,3))".toList ∧
    readBox ⟨writeBox sampleBoxA ++ " 3\nab)7 x".toList, true⟩ ⟨⟨9, 9, 9⟩, ⟨9, 9, 9⟩⟩ =
      (⟨"7 x".toList, true⟩, sampleBoxA) ∧
    (extractInt (readBox ⟨writeBox sampleBoxA ++ " 3\nab)7 x".toList, true⟩
      ⟨⟨9, 9, 9⟩, ⟨9, 9, 9⟩⟩).1 0).2 = 7 ∧
    readBox ⟨writeBox sampleBoxA ++ " 3\nabc".toList, true⟩ ⟨⟨9, 9, 9⟩, ⟨9, 9, 9⟩⟩ =
      (⟨[], false⟩, sampleBoxA) ∧
    extractInt (readBox ⟨writeBox sampleBoxA ++ " 3\nabc".toList, true⟩
      ⟨⟨9, 9, 9⟩, ⟨9, 9, 9⟩⟩).1 99 = (⟨[], false⟩, 99) := by
  refine ⟨by decide, by decide, by decide, by decide, by decide⟩

theorem ignoreLoop_delim (delim : Char) (post : List Char) :
    ∀ (pre : List Char) (n : Nat), delim ∉ pre → pre.length < n →
      ignoreLoop delim n (pre ++ delim :: post) = ⟨post, true⟩ := by
  intro pre
  induction pre with
  | nil =>
    intro n _ hn
    obtain ⟨m, rfl⟩ : ∃ m, n = m + 1 := ⟨n - 1, by simp at hn; omega⟩
    simp [ignoreLoop]
  | cons c cs ih =>
    intro n hmem hn
    obtain ⟨m, rfl⟩ : ∃ m, n = m + 1 := ⟨n - 1, by simp at hn; omega⟩
    have hc : c ≠ delim := fun h => hmem (by rw [h]; exact List.mem_cons_self _ _)
    have hcs : delim ∉ cs := fun h => hmem (List.mem_cons_of_mem _ h)
    simp only [List.cons_append, ignoreLoop, if_neg hc]
    exact ih m hcs (by simp at hn; omega)

theorem ignoreLoop_eof (delim : Char) :
    ∀ (s : List Char) (n : Nat), delim ∉ s → s.length < n →
      ignoreLoop delim n s = ⟨[], false⟩ := by
  intro s
  induction s with
  | nil =>
    intro n _ hn
    obtain ⟨m, rfl⟩ : ∃ m, n = m + 1 := ⟨n - 1, by simp at hn; omega⟩
    simp [ignoreLoop]
  | cons c cs ih =>
    intro n hmem hn
    obtain ⟨m, rfl⟩ : ∃ m, n = m + 1 := ⟨n - 1, by simp at hn; omega⟩
    have hc : c ≠ delim := fun h => hmem (by rw [h]; exact List.mem_cons_self _ _)
    have hcs : delim ∉ cs := fun h => hmem (List.mem_cons_of_mem _ h)
    simp only [ignoreLoop, if_neg hc]
    exact ih m hcs (by simp at hn; omega)

theorem ignoreLoop_count (delim : Char) :
    ∀ (n : Nat) (s : List Char), delim ∉ s.take n → n ≤ s.length →
      ignoreLoop delim n s = ⟨s.drop n, true⟩ := by
  intro n
  induction n with
  | zero => intro s _ _; simp [ignoreLoop]
  | succ m ih =>
    intro s hmem hn
    cases s with
    | nil => simp at hn
    | cons c cs =>
      have hc : c ≠ delim := fun h => hmem (by rw [h]; simp)
      have hcs : delim ∉ cs.take m := fun h => hmem (by simp [h])
      simp only [ignoreLoop, if_neg hc, List.drop_succ_cons]
      exact ih cs hcs (by simp at hn; omega)

/-- C17 (amended). For every box `b` with 32-bit components, the Box decoder applied to the
text of the Box encoder followed by the characters `rest` returns `b` and leaves the input
where one more `ignore(1000000, ')')` started at `rest` leaves it: just after the first `)` of
`rest` when fewer than 1000000 characters precede it; at the end of the input, with the stream
no longer good, when `rest` holds no `)` and has fewer than 1000000 characters; and 1000000
characters further on, with the stream still good, when `rest` has at least 1000000 characters
and its first 1000000 hold no `)`.  On the text `(` `lo` space `hi` followed by any characters
the decoder returns `b` and leaves the input where two successive `ignore(1000000, ')')` leave
it; hence the next integer read is the component count when a third parenthesized tuple
precedes the closing parenthesis, as in `((lo) (hi) (0,0,0)) ncomp`, newline, payload. -/
theorem box_decoder_after_encoder (b b0 : Box) (rest : List Char) (hb : b.inInt32) :
    readBox ⟨writeBox b ++ rest, true⟩ b0 = (ignore 1000000 ')' ⟨rest, true⟩, b) ∧
    (∀ pre post : List Char, rest = pre ++ ')' :: post → ')' ∉ pre → pre.length < 1000000 →
      readBox ⟨writeBox b ++ rest, true⟩ b0 = (⟨post, true⟩, b)) ∧
    (')' ∉ rest → rest.length < 1000000 →
      readBox ⟨writeBox b ++ rest, true⟩ b0 = (⟨[], false⟩, b)) ∧
    (')' ∉ rest.take 1000000 → 1000000 ≤ rest.length →
      readBox ⟨writeBox b ++ rest, true⟩ b0 = (⟨rest.drop 1000000, true⟩, b)) ∧
    readBox ⟨'(' :: (writeIntVect b.lo ++ ' ' :: (writeIntVect b.hi ++ rest)), true⟩ b0 =
      (ignore 1000000 ')' (ignore 1000000 ')' ⟨rest, true⟩), b) ∧
    ∀ (ncomp x0 : Int) (payload : List Char), inInt32 ncomp →
      (readBox ⟨'(' :: (writeIntVect b.lo ++ ' ' :: (writeIntVect b.hi ++
          (" (0,0,0)) ".toList ++ (writeInt ncomp ++ Char.ofNat 10 :: payload)))), true⟩ b0).2
        = b ∧
      extractInt (readBox ⟨'(' :: (writeIntVect b.lo ++ ' ' :: (writeIntVect b.hi ++
          (" (0,0,0)) ".toList ++ (writeInt ncomp ++ Char.ofNat 10 :: payload)))), true⟩ b0).1
        x0 = (⟨Char.ofNat 10 :: payload, true⟩, ncomp) := by
  have hmain := readBox_writeBox b b0 rest hb
  refine ⟨hmain, ?_, ?_, ?_, readBox_two_tuples b b0 rest hb, ?_⟩
  · intro pre post hrest hpre hlen
    rw [hmain, hrest]
    simp only [ignore, if_true]
    rw [ignoreLoop_delim ')' post pre 1000000 hpre hlen]
  · intro hno hlen
    rw [hmain]
    simp only [ignore, if_true]
    rw [ignoreLoop_eof ')' rest 1000000 hno hlen]
  · intro hno hlen
    rw [hmain]
    simp only [ignore, if_true]
    rw [ignoreLoop_count ')' 1000000 rest hno hlen]
  · intro ncomp x0 payload hn
    rw [readBox_two_tuples b b0 _ hb]
    have hskip : ignore 1000000 ')' (ignore 1000000 ')'
        ⟨" (0,0,0)) ".toList ++ (writeInt ncomp ++ Char.ofNat 10 :: payload), true⟩) =
        ⟨' ' :: (writeInt ncomp ++ Char.ofNat 10 :: payload), true⟩ := by
      simp [ignore, ignoreLoop]
    rw [hskip]
    refine ⟨rfl, ?_⟩
    simp only
    rw [extractInt_space, extractInt_writeInt ncomp x0 _ _ hn (by decide)]

/-- Witness of C17 (amended) for the box `(0,0,0)–(3,3,3)` followed by ` 3`, a newline and the
payload bytes `ab)7 x`. -/
theorem box_decoder_after_encoder_witness :
    sampleBoxA.inInt32 ∧
    readBox ⟨writeBox sampleBoxA ++ " 3\nab)7 x".toList, true⟩ ⟨⟨9, 9, 9⟩, ⟨9, 9, 9⟩⟩ =
      (ignore 1000000 ')' ⟨" 3\nab)7 x".toList, true⟩, sampleBoxA) :=
  ⟨by decide,
   (box_decoder_after_encoder sampleBoxA ⟨⟨9, 9, 9⟩, ⟨9, 9, 9⟩⟩ " 3\nab)7 x".toList
     (by decide)).1⟩



end AmrexSubvol
